import Mathlib

/-!
# ITK `MultiThreaderBase`: work partitioning, dispatch, failure capture, global thread counts

A shallow embedding of `Modules/Core/Common/src/itkMultiThreaderBase.cxx`.

* C++ `double` / `float` values are modelled exactly (IEEE 754 binary64 / binary32,
  round to nearest, ties to even) as dyadic rationals `mant * 2 ^ expo`; every conversion
  and every arithmetic operation of the source is rounded on its own (no fused
  multiply-add).
* `SizeValueType` is `unsigned long` (64 bit), `ThreadIdType` is `unsigned int` (32 bit);
  arithmetic on them wraps explicitly.
* Side effects (calls of the user functor, calls into the `ProcessObject`, the shared
  progress counter) are threaded through an explicit `World`; a C++ exception leaving a
  function is the `Option Thrown` component of its result.
-/

namespace itk

/-! ## Floating point -/

/-- A finite, non-negative binary floating-point value `mant * 2 ^ expo`. -/
structure Floating where
  mant : Nat
  expo : Int
deriving DecidableEq

/-- The rational number denoted by a floating-point value. -/
def Floating.toRat (x : Floating) : ℚ := (x.mant : ℚ) * (2 : ℚ) ^ x.expo

/-- Nearest integer to `p / q`, ties to the even neighbour (IEEE 754 roundTiesToEven). -/
def roundNearestEven (p q : Nat) : Nat :=
  if 2 * (p % q) < q then p / q
  else if q < 2 * (p % q) then p / q + 1
  else if (p / q) % 2 = 0 then p / q
  else p / q + 1

/-- Rescale `(p / q) * 2 ^ e` by powers of two, keeping its value, until
`2 ^ (prec - 1) ≤ p / q < 2 ^ prec`, i.e. until the integer part of `p / q` has exactly
`prec` bits.  The first argument bounds the number of rescaling steps. -/
def normalize (prec : Nat) : Nat → Nat → Nat → Int → Nat × Nat × Int
  | 0, p, q, e => (p, q, e)
  | fuel + 1, p, q, e =>
    if p < 2 ^ (prec - 1) * q then normalize prec fuel (2 * p) q (e - 1)
    else if 2 ^ prec * q ≤ p then normalize prec fuel p (2 * q) (e + 1)
    else (p, q, e)

/-- Correctly rounded value of the exact non-negative quantity `(p / q) * 2 ^ e` in a binary
format with a `prec`-bit significand (exponent range not bounded: every quantity arising in
this file is zero or lies between `2 ^ (-64)` and `2 ^ 128`, well inside the normal range of
both `float` and `double`). -/
def roundRatio (prec p q : Nat) (e : Int) : Floating :=
  if p = 0 then ⟨0, 0⟩
  else
    let r := normalize prec (p + q + prec) p q e
    ⟨roundNearestEven r.1 r.2.1, r.2.2⟩

/-- The exact quantity `(p / q) * 2 ^ e`. -/
def ratioVal (p q : Nat) (e : Int) : ℚ := (p : ℚ) / (q : ℚ) * (2 : ℚ) ^ e

/-- Rounding of a non-negative rational to the binary format with a `prec`-bit significand. -/
def fl (prec : Nat) (x : ℚ) : ℚ := (roundRatio prec x.num.toNat x.den 0).toRat

/-- Significand width of C++ `double` (binary64). -/
def doublePrec : Nat := 53

/-- Significand width of C++ `float` (binary32). -/
def floatPrec : Nat := 24

/-- Conversion of an unsigned integer to floating point. -/
def Floating.ofNat (prec n : Nat) : Floating := roundRatio prec n 1 0

/-- Floating-point division (divisor non-zero). -/
def Floating.div (prec : Nat) (a b : Floating) : Floating :=
  roundRatio prec a.mant b.mant (a.expo - b.expo)

/-- Floating-point multiplication. -/
def Floating.mul (prec : Nat) (a b : Floating) : Floating :=
  roundRatio prec (a.mant * b.mant) 1 (a.expo + b.expo)

/-- Floating-point addition. -/
def Floating.add (prec : Nat) (a b : Floating) : Floating :=
  roundRatio prec
    (a.mant * 2 ^ (a.expo - min a.expo b.expo).toNat + b.mant * 2 ^ (b.expo - min a.expo b.expo).toNat)
    1 (min a.expo b.expo)

/-- Integer part of a floating-point value (C++ conversion to an integer type truncates). -/
def Floating.trunc (a : Floating) : Nat :=
  if 0 ≤ a.expo then a.mant * 2 ^ a.expo.toNat else a.mant / 2 ^ (-a.expo).toNat

/-- The number that `ParallelizeArrayHelper` converts to the index at which worker
`threadId` begins: `firstIndex + fraction * threadId` with `fraction = double(range) /
threadCount`, every conversion and operation rounded to `double`. -/
def boundary (firstIndex range threadCount threadId : Nat) : ℚ :=
  fl doublePrec (fl doublePrec (firstIndex : ℚ) +
    fl doublePrec (fl doublePrec (fl doublePrec (range : ℚ) / fl doublePrec (threadCount : ℚ)) *
      fl doublePrec (threadId : ℚ)))

/-- Number of values of `SizeValueType` (`unsigned long`, 64 bit). -/
def SizeValueModulus : Nat := 2 ^ 64

/-- Number of values of `ThreadIdType` (`unsigned int`, 32 bit). -/
def ThreadIdModulus : Nat := 2 ^ 32

/-- Implicit conversion `double → SizeValueType` of a non-negative value: its integer part
when that is below `2 ^ 64`.  A value of `2 ^ 64` or above is out of the range of
`SizeValueType`; the language does not define the conversion there, and the conversion as
compiled for x86-64 (`cvttsd2si` applied to the value less `2 ^ 63`, then the top bit
flipped) yields 0, which is what the model returns. -/
def Floating.toSizeValue (a : Floating) : Nat :=
  if a.trunc < SizeValueModulus then a.trunc else 0

/-! ## Global thread counts (`MultiThreaderBaseGlobals`) -/

/-- Enumeration `MultiThreaderBase::ThreaderType`. -/
inductive ThreaderType where
  | Platform
  | Pool
  | TBB
  | Unknown
deriving DecidableEq

/-- The process-wide record `MultiThreaderBaseGlobals`. -/
structure MultiThreaderBaseGlobals where
  GlobalDefaultThreaderTypeIsInitialized : Bool
  m_GlobalDefaultThreader : ThreaderType
  m_GlobalMaximumNumberOfThreads : Nat
  m_GlobalDefaultNumberOfThreads : Nat
deriving DecidableEq

/-- The constructor `MultiThreaderBaseGlobals()`.  The compile-time constant
`ITK_MAX_THREADS` and the build option `ITK_USE_TBB` are parameters. -/
def MultiThreaderBaseGlobals.initial (ITK_MAX_THREADS : Nat) (ITK_USE_TBB : Bool) :
    MultiThreaderBaseGlobals where
  GlobalDefaultThreaderTypeIsInitialized := false
  m_GlobalDefaultThreader := if ITK_USE_TBB then ThreaderType.TBB else ThreaderType.Pool
  m_GlobalMaximumNumberOfThreads := ITK_MAX_THREADS
  m_GlobalDefaultNumberOfThreads := 0

/-- The function `MultiThreaderBase::SetGlobalMaximumNumberOfThreads(val)`. -/
def SetGlobalMaximumNumberOfThreads (ITK_MAX_THREADS val : Nat) (g : MultiThreaderBaseGlobals) :
    MultiThreaderBaseGlobals :=
  let g1 := { g with m_GlobalMaximumNumberOfThreads := val }
  let g2 := { g1 with
    m_GlobalMaximumNumberOfThreads := min g1.m_GlobalMaximumNumberOfThreads ITK_MAX_THREADS }
  let g3 := { g2 with m_GlobalMaximumNumberOfThreads := max g2.m_GlobalMaximumNumberOfThreads 1 }
  { g3 with
    m_GlobalDefaultNumberOfThreads :=
      min g3.m_GlobalDefaultNumberOfThreads g3.m_GlobalMaximumNumberOfThreads }

/-- The function `MultiThreaderBase::GetGlobalMaximumNumberOfThreads()`. -/
def GetGlobalMaximumNumberOfThreads (g : MultiThreaderBaseGlobals) :
    Nat × MultiThreaderBaseGlobals :=
  (g.m_GlobalMaximumNumberOfThreads, g)

/-- The function `MultiThreaderBase::SetGlobalDefaultNumberOfThreads(val)`. -/
def SetGlobalDefaultNumberOfThreads (val : Nat) (g : MultiThreaderBaseGlobals) :
    MultiThreaderBaseGlobals :=
  let g1 := { g with m_GlobalDefaultNumberOfThreads := val }
  let g2 := { g1 with
    m_GlobalDefaultNumberOfThreads :=
      min g1.m_GlobalDefaultNumberOfThreads g1.m_GlobalMaximumNumberOfThreads }
  { g2 with m_GlobalDefaultNumberOfThreads := max g2.m_GlobalDefaultNumberOfThreads 1 }

/-- The function `MultiThreaderBase::GetGlobalDefaultNumberOfThreads()`.  The value that
`ThreadPool::GetGlobalDefaultNumberOfThreads()` returns at this call (the back end's
recommended worker count) is the parameter `recommended`. -/
def GetGlobalDefaultNumberOfThreads (recommended : Nat) (g : MultiThreaderBaseGlobals) :
    Nat × MultiThreaderBaseGlobals :=
  let g1 :=
    if g.m_GlobalDefaultNumberOfThreads = 0 then
      { g with m_GlobalDefaultNumberOfThreads := recommended }
    else g
  (g1.m_GlobalDefaultNumberOfThreads, g1)

/-- One call on the registry of global thread counts. -/
inductive RegistryOp where
  | setMax (val : Nat)
  | setDefault (val : Nat)
  | getMax
  | getDefault (recommended : Nat)
deriving DecidableEq

/-- The registry after one call. -/
def RegistryOp.apply (ITK_MAX_THREADS : Nat) (g : MultiThreaderBaseGlobals) :
    RegistryOp → MultiThreaderBaseGlobals
  | RegistryOp.setMax val => SetGlobalMaximumNumberOfThreads ITK_MAX_THREADS val g
  | RegistryOp.setDefault val => SetGlobalDefaultNumberOfThreads val g
  | RegistryOp.getMax => (GetGlobalMaximumNumberOfThreads g).2
  | RegistryOp.getDefault recommended => (GetGlobalDefaultNumberOfThreads recommended g).2

/-- The registry after a sequence of calls, first call first. -/
def runRegistry (ITK_MAX_THREADS : Nat) (g : MultiThreaderBaseGlobals) (ops : List RegistryOp) :
    MultiThreaderBaseGlobals :=
  ops.foldl (RegistryOp.apply ITK_MAX_THREADS) g

/-- Whether a call only stores a thread count (one of the two setters). -/
def RegistryOp.isSetter : RegistryOp → Bool
  | RegistryOp.setMax _ => true
  | RegistryOp.setDefault _ => true
  | _ => false

/-- Whether a call is `SetGlobalDefaultNumberOfThreads`. -/
def RegistryOp.isSetDefault : RegistryOp → Bool
  | RegistryOp.setDefault _ => true
  | _ => false

/-- Whether, along a sequence of calls started in `g`, every lazy derivation in
`GetGlobalDefaultNumberOfThreads` (a call made while the stored default is still `0`)
obtains from the back end a count between 1 and the maximum stored at that moment. -/
def derivationsWithinMax (ITK_MAX_THREADS : Nat) :
    MultiThreaderBaseGlobals → List RegistryOp → Bool
  | _, [] => true
  | g, op :: ops =>
    (match op with
      | RegistryOp.getDefault recommended =>
        decide (g.m_GlobalDefaultNumberOfThreads ≠ 0) ||
          (decide (1 ≤ recommended) && decide (recommended ≤ g.m_GlobalMaximumNumberOfThreads))
      | _ => true) &&
    derivationsWithinMax ITK_MAX_THREADS (RegistryOp.apply ITK_MAX_THREADS g op) ops

/-! ## Exceptions and worker exit codes -/

/-- Modelled from the spec: the dynamic class of a thrown object.  The exception classes
are declared in headers that are not part of the sources at hand; the failure taxonomy is
`AbortedOperation` (`itk::ProcessAborted`), `DomainFault` (any other
`itk::ExceptionObject`), `GenericRuntimeFault` (any other `std::exception`) and
`UnknownFault` (anything else that can be thrown). -/
inductive ExceptionClass where
  | ProcessAborted
  | ExceptionObject
  | StdException
  | NonStandard
deriving DecidableEq

/-- Modelled from the spec: the direct base class.  `itk::ProcessAborted` derives from
`itk::ExceptionObject`, which derives from `std::exception`: an abort is also a domain
exception type. -/
def ExceptionClass.base : ExceptionClass → Option ExceptionClass
  | ExceptionClass.ProcessAborted => some ExceptionClass.ExceptionObject
  | ExceptionClass.ExceptionObject => some ExceptionClass.StdException
  | ExceptionClass.StdException => none
  | ExceptionClass.NonStandard => none

/-- Whether a handler `catch (handler &)` accepts an object of dynamic class `thrown`:
the class itself or one of its bases. -/
def ExceptionClass.caughtBy (thrown handler : ExceptionClass) : Bool :=
  thrown = handler || thrown.base = some handler || thrown.base.bind ExceptionClass.base = some handler

/-- A thrown object: its dynamic class and its description. -/
structure Thrown where
  cls : ExceptionClass
  description : String
deriving DecidableEq

/-- Enumeration `ThreadInfoStruct::ThreadExitCodeType`. -/
inductive ThreadExitCodeType where
  | SUCCESS
  | ITK_EXCEPTION
  | ITK_PROCESS_ABORTED_EXCEPTION
  | STD_EXCEPTION
  | UNKNOWN
deriving DecidableEq

/-! ## Observable effects -/

/-- What one invocation of a user work callback does, as far as the dispatcher can tell:
whether it throws, and whether the abort flag of the `ProcessObject` gets set while it runs. -/
structure FunctorResult where
  raised : Option Thrown
  abortRequested : Bool

/-- A call that leaves the dispatcher. -/
inductive Event where
  | arrayCall (index : Nat)
  | regionCall (index : List Int) (size : List Nat)
  | updateProgress (value : Floating)
  | singleMethodExecute
deriving DecidableEq

/-- The mutable state a dispatch works on: the abort flag of the `ProcessObject`
(`GetAbortGenerateData()`), the shared progress counter of the current task context
(`acParams->progress`, `rnc->pixelProgress`) and the calls made so far, oldest first. -/
structure World where
  abortGenerateData : Bool
  progress : Nat
  events : List Event
deriving DecidableEq

/-- Append one call to the record of calls. -/
def World.log (w : World) (e : Event) : World := { w with events := w.events ++ [e] }

/-- The immutable part of the `ProcessObject * filter` argument. -/
structure ProcessObject where
  nameOfClass : String
deriving DecidableEq

/-- The `ProcessAborted` object built at each abort check. -/
def abortException (filter : ProcessObject) : Thrown where
  cls := ExceptionClass.ProcessAborted
  description := "AbortGenerateData was called in " ++ filter.nameOfClass ++
    " during multi-threaded part of filter execution"

/-- The struct `MultiThreaderBase::ThreadInfoStruct` as a worker sees it; `thread` is
`std::this_thread::get_id()` of the thread the worker runs on. -/
structure ThreadInfoStruct where
  ThreadID : Nat
  NumberOfThreads : Nat
  thread : Nat
  ThreadExitCode : ThreadExitCodeType
deriving DecidableEq

/-- A worker entry (`ThreadFunctionType`) with its user data bound. -/
abbrev ThreadFunction := ThreadInfoStruct → World → World × Option Thrown

/-- The exit code selected by the handlers of `SingleMethodProxy`, tried in source order. -/
def exitCodeOfThrown (t : Thrown) : ThreadExitCodeType :=
  if t.cls.caughtBy ExceptionClass.ProcessAborted then
    ThreadExitCodeType.ITK_PROCESS_ABORTED_EXCEPTION
  else if t.cls.caughtBy ExceptionClass.ExceptionObject then
    ThreadExitCodeType.ITK_EXCEPTION
  else if t.cls.caughtBy ExceptionClass.StdException then
    ThreadExitCodeType.STD_EXCEPTION
  else
    ThreadExitCodeType.UNKNOWN

/-- The function `MultiThreaderBase::SingleMethodProxy`. -/
def SingleMethodProxy (threadFunction : ThreadFunction) (info : ThreadInfoStruct) (w : World) :
    World × ThreadInfoStruct :=
  match threadFunction info w with
  | (w1, none) => (w1, { info with ThreadExitCode := ThreadExitCodeType.SUCCESS })
  | (w1, some t) => (w1, { info with ThreadExitCode := exitCodeOfThrown t })

/-! ## Array dispatch -/

/-- The struct `ArrayCallback` without its progress counter, which lives in `World`. -/
structure ArrayCallback where
  functor : Nat → FunctorResult
  firstIndex : Nat
  lastIndexPlus1 : Nat
  filter : Option ProcessObject
  callingThread : Nat

/-- Lines 443 to 451 of `ParallelizeArrayHelper`: the pair `(first, afterLast)` of the worker
`threadId` out of `threadCount` (at least one; every executor runs at least one worker). -/
def ParallelizeArrayHelper.subRange (firstIndex lastIndexPlus1 threadId threadCount : Nat) :
    Nat × Nat :=
  let range := (lastIndexPlus1 + SizeValueModulus - firstIndex) % SizeValueModulus
  let fraction :=
    Floating.div doublePrec (Floating.ofNat doublePrec range) (Floating.ofNat doublePrec threadCount)
  let first :=
    (Floating.add doublePrec (Floating.ofNat doublePrec firstIndex)
      (Floating.mul doublePrec fraction (Floating.ofNat doublePrec threadId))).toSizeValue
  let afterLast :=
    (Floating.add doublePrec (Floating.ofNat doublePrec firstIndex)
      (Floating.mul doublePrec fraction
        (Floating.ofNat doublePrec ((threadId + 1) % ThreadIdModulus)))).toSizeValue
  if threadId = (threadCount + ThreadIdModulus - 1) % ThreadIdModulus then
    (first, lastIndexPlus1)
  else
    (first, afterLast)

/-- The statements of the loop body of `ParallelizeArrayHelper` that follow a functor call
which returned normally: with a filter present, count the element and, on the calling thread,
report the progress `float(progress) / range`. -/
def ParallelizeArrayHelper.countElement (acParams : ArrayCallback) (thread range : Nat)
    (w : World) : World :=
  match acParams.filter with
  | none => w
  | some _ =>
    let w1 : World := { w with progress := (w.progress + 1) % SizeValueModulus }
    if acParams.callingThread = thread then
      w1.log (Event.updateProgress
        (Floating.div floatPrec (Floating.ofNat floatPrec w1.progress)
          (Floating.ofNat floatPrec range)))
    else w1

/-- The world right after the call `functor(i)`: the call is recorded, and the abort flag
is set if it was requested during the call. -/
def World.afterArrayCall (w : World) (i : Nat) (r : FunctorResult) : World :=
  { (w.log (Event.arrayCall i)) with
    abortGenerateData := w.abortGenerateData || r.abortRequested }

/-- The loop of `ParallelizeArrayHelper` with `count` iterations left, the next index being
`i`. -/
def ParallelizeArrayHelper.loop (acParams : ArrayCallback) (thread range : Nat) :
    Nat → Nat → World → World × Option Thrown
  | 0, _, w => (w, none)
  | count + 1, i, w =>
    match (acParams.functor i).raised with
    | some t => (w.afterArrayCall i (acParams.functor i), some t)
    | none =>
      ParallelizeArrayHelper.loop acParams thread range count (i + 1)
        (ParallelizeArrayHelper.countElement acParams thread range
          (w.afterArrayCall i (acParams.functor i)))

/-- The function `MultiThreaderBase::ParallelizeArrayHelper`. -/
def ParallelizeArrayHelper (acParams : ArrayCallback) : ThreadFunction := fun threadInfo w =>
  match acParams.filter, w.abortGenerateData with
  | some filter, true => (w, some (abortException filter))
  | _, _ =>
    let range :=
      (acParams.lastIndexPlus1 + SizeValueModulus - acParams.firstIndex) % SizeValueModulus
    let sub := ParallelizeArrayHelper.subRange acParams.firstIndex acParams.lastIndexPlus1
      threadInfo.ThreadID threadInfo.NumberOfThreads
    ParallelizeArrayHelper.loop acParams threadInfo.thread range (sub.2 - sub.1) sub.1 w

/-- The value `0.0f`. -/
def Floating.zero : Floating := ⟨0, 0⟩

/-- The value `1.0f`. -/
def Floating.one : Floating := ⟨1, 0⟩

/-- A fresh task context: the shared progress counter starts at zero. -/
def World.resetProgress (w : World) : World := { w with progress := 0 }

/-- The statements before the dispatch in `ParallelizeArray` and `ParallelizeImageRegion`:
with a filter present, report progress `0.0f`. -/
def startDispatch (filter : Option ProcessObject) (w : World) : World :=
  match filter with
  | none => w
  | some _ => w.log (Event.updateProgress Floating.zero)

/-- The statements after the dispatch in `ParallelizeArray` and `ParallelizeImageRegion`:
report progress `1.0f`, then check the abort flag. -/
def finishDispatch (filter : Option ProcessObject) (w : World) : World × Option Thrown :=
  match filter with
  | none => (w, none)
  | some f =>
    let w1 := w.log (Event.updateProgress Floating.one)
    if w1.abortGenerateData then (w1, some (abortException f)) else (w1, none)

/-- The function `MultiThreaderBase::ParallelizeArray`, called on thread `thread`.  The
virtual `SetSingleMethod` + `SingleMethodExecute` of the concrete back end is the parameter
`execute`. -/
def ParallelizeArray (execute : ThreadFunction → World → World × Option Thrown)
    (firstIndex lastIndexPlus1 : Nat) (aFunc : Nat → FunctorResult)
    (filter : Option ProcessObject) (thread : Nat) (w : World) : World × Option Thrown :=
  let w0 : World := startDispatch filter w
  let r : World × Option Thrown :=
    if (firstIndex + 1) % SizeValueModulus < lastIndexPlus1 then
      let acParams : ArrayCallback :=
        { functor := aFunc, firstIndex := firstIndex, lastIndexPlus1 := lastIndexPlus1,
          filter := filter, callingThread := thread }
      execute (ParallelizeArrayHelper acParams) w0.resetProgress
    else if (firstIndex + 1) % SizeValueModulus = lastIndexPlus1 then
      (w0.afterArrayCall firstIndex (aFunc firstIndex), (aFunc firstIndex).raised)
    else (w0, none)
  match r with
  | (w1, some t) => (w1, some t)
  | (w1, none) => finishDispatch filter w1

/-! ## Region dispatch -/

/-- The class `ImageIORegion` as far as it is used here: an index and a size per dimension. -/
structure ImageIORegion where
  index : List Int
  size : List Nat
deriving DecidableEq

/-- Modelled from the spec: `ImageIORegion::GetNumberOfPixels()` (its source is not at hand),
the number of pixels of a region, i.e. the product of its sizes, in `SizeValueType`. -/
def ImageIORegion.GetNumberOfPixels (region : ImageIORegion) : Nat :=
  region.size.foldl (fun acc s => (acc * s) % SizeValueModulus) 1

/-- The method `ImageRegionSplitterBase::GetSplit(i, n, region)` of the global default
splitter, an external collaborator: it returns the number of pieces actually used and
the region as it left it. -/
abbrev RegionSplitter := Nat → Nat → ImageIORegion → Nat × ImageIORegion

/-- The struct `RegionAndCallback` without its progress counter, which lives in `World`. -/
structure RegionAndCallback where
  functor : List Int → List Nat → FunctorResult
  dimension : Nat
  index : List Int
  size : List Nat
  filter : Option ProcessObject
  callingThread : Nat
  pixelCount : Nat

/-- The function `MultiThreaderBase::ParallelizeImageRegionHelper`. -/
def ParallelizeImageRegionHelper (GetSplit : RegionSplitter) (rnc : RegionAndCallback) :
    ThreadFunction := fun threadInfo w =>
  let region : ImageIORegion :=
    { index := (List.range rnc.dimension).map (fun d => rnc.index.getD d 0),
      size := (List.range rnc.dimension).map (fun d => rnc.size.getD d 0) }
  let split := GetSplit threadInfo.ThreadID threadInfo.NumberOfThreads region
  let total := split.1
  let region := split.2
  match rnc.filter, w.abortGenerateData with
  | some filter, true => (w, some (abortException filter))
  | _, _ =>
    if threadInfo.ThreadID < total then
      let r := rnc.functor region.index region.size
      let w1 : World :=
        { (w.log (Event.regionCall region.index region.size)) with
          abortGenerateData := w.abortGenerateData || r.abortRequested }
      match r.raised with
      | some t => (w1, some t)
      | none =>
        match rnc.filter with
        | none => (w1, none)
        | some _ =>
          let pixelCount := region.GetNumberOfPixels
          let w2 : World := { w1 with progress := (w1.progress + pixelCount) % SizeValueModulus }
          if rnc.callingThread = threadInfo.thread then
            (w2.log (Event.updateProgress
              (Floating.div floatPrec (Floating.ofNat floatPrec w2.progress)
                (Floating.ofNat floatPrec rnc.pixelCount))), none)
          else (w2, none)
    else (w, none)

/-- The function `MultiThreaderBase::ParallelizeImageRegion`, called on thread `thread`. -/
def ParallelizeImageRegion (execute : ThreadFunction → World → World × Option Thrown)
    (GetSplit : RegionSplitter) (dimension : Nat) (index : List Int) (size : List Nat)
    (funcP : List Int → List Nat → FunctorResult) (filter : Option ProcessObject)
    (thread : Nat) (w : World) : World × Option Thrown :=
  let w0 : World := startDispatch filter w
  let pixelCount :=
    (List.range dimension).foldl (fun acc d => (acc * size.getD d 0) % SizeValueModulus) 1
  let rnc : RegionAndCallback :=
    { functor := funcP, dimension := dimension, index := index, size := size,
      filter := filter, callingThread := thread, pixelCount := pixelCount }
  match execute (ParallelizeImageRegionHelper GetSplit rnc) w0.resetProgress with
  | (w1, some t) => (w1, some t)
  | (w1, none) => finishDispatch filter w1

/-! ## The executor contract -/

/-- Modelled from the spec: the worker runs of `SingleMethodExecute` (see there).  Runs the
workers with the given ids one after the other, each through `SingleMethodProxy`, and
collects their exit codes in the same order. -/
def runWorkers (threadFunction : ThreadFunction) (numberOfThreads : Nat) (threadOf : Nat → Nat) :
    List Nat → World → World × List ThreadExitCodeType
  | [], w => (w, [])
  | id :: ids, w =>
    let r := SingleMethodProxy threadFunction
      { ThreadID := id, NumberOfThreads := numberOfThreads, thread := threadOf id,
        ThreadExitCode := ThreadExitCodeType.SUCCESS } w
    let rest := runWorkers threadFunction numberOfThreads threadOf ids r.1
    (rest.1, r.2.ThreadExitCode :: rest.2)

/-- Modelled from the spec: the object with which a failed dispatch fails, carrying the
classification of the worker status it stands for. -/
def rethrown : ThreadExitCodeType → Thrown
  | ThreadExitCodeType.ITK_PROCESS_ABORTED_EXCEPTION =>
    ⟨ExceptionClass.ProcessAborted, "Exception occurred during SingleMethodExecute"⟩
  | ThreadExitCodeType.ITK_EXCEPTION =>
    ⟨ExceptionClass.ExceptionObject, "Exception occurred during SingleMethodExecute"⟩
  | ThreadExitCodeType.STD_EXCEPTION =>
    ⟨ExceptionClass.StdException, "Exception occurred during SingleMethodExecute"⟩
  | _ => ⟨ExceptionClass.NonStandard, "Exception occurred during SingleMethodExecute"⟩

/-- Modelled from the spec: `SingleMethodExecute` of a concrete back end (the back ends are
not among the sources at hand).  The worker entry is invoked exactly once per worker id in
`[0, numberOfThreads)`, each invocation inside the failure boundary `SingleMethodProxy`;
worker `id` runs on thread `threadOf id`.  After all workers have joined, the statuses are
inspected in worker-id order and the first status other than `SUCCESS` makes the dispatch
fail with that same classification.  The workers are simulated one after the other in
worker-id order. -/
def SingleMethodExecute (numberOfThreads : Nat) (threadOf : Nat → Nat)
    (threadFunction : ThreadFunction) (w : World) : World × Option Thrown :=
  let r := runWorkers threadFunction numberOfThreads threadOf (List.range numberOfThreads)
    (w.log Event.singleMethodExecute)
  match r.2.find? (fun c => c ≠ ThreadExitCodeType.SUCCESS) with
  | none => (r.1, none)
  | some c => (r.1, some (rethrown c))

/-! ## The partition formula of the specification -/

/-- The splitting formula as the specification words it, in exact (real-valued)
arithmetic: `fraction = (lastExclusive - first) / workerCount`,
`subFirst = first + floor(fraction * workerId)`,
`subLast = first + floor(fraction * (workerId + 1))`, the final worker ending exactly at
`lastExclusive`. -/
def partitionRange (first lastExclusive workerId workerCount : Nat) : Nat × Nat :=
  let fraction : ℚ := ((lastExclusive - first : Nat) : ℚ) / (workerCount : ℚ)
  (first + ⌊fraction * (workerId : ℚ)⌋₊,
    if workerId + 1 = workerCount then lastExclusive
    else first + ⌊fraction * ((workerId : ℚ) + 1)⌋₊)

/-- The splitting formula of the specification read in `double` arithmetic: `fraction` and
`fraction * workerId` are rounded to `double`, then `floor` is taken and added to `first` as
an integer. -/
def partitionRangeDouble (first lastExclusive workerId workerCount : Nat) : Nat × Nat :=
  let fraction :=
    Floating.div doublePrec (Floating.ofNat doublePrec (lastExclusive - first))
      (Floating.ofNat doublePrec workerCount)
  (first + (Floating.mul doublePrec fraction (Floating.ofNat doublePrec workerId)).trunc,
    if workerId + 1 = workerCount then lastExclusive
    else first +
      (Floating.mul doublePrec fraction (Floating.ofNat doublePrec (workerId + 1))).trunc)

/-- The calls of the array functor recorded in a list of events, in order. -/
def arrayCalls : List Event → List Nat
  | [] => []
  | Event.arrayCall i :: es => i :: arrayCalls es
  | _ :: es => arrayCalls es

/-- The calls of the region functor recorded in a list of events, in order. -/
def regionCalls : List Event → List (List Int × List Nat)
  | [] => []
  | Event.regionCall i s :: es => (i, s) :: regionCalls es
  | _ :: es => regionCalls es

/-- Run `ParallelizeArrayHelper` once for each of the given worker ids, one after the
other, ignoring how each run ends. -/
def runArrayHelpers (acParams : ArrayCallback) (threadCount : Nat) (threadOf : Nat → Nat) :
    List Nat → World → World
  | [], w => w
  | id :: ids, w =>
    runArrayHelpers acParams threadCount threadOf ids
      (ParallelizeArrayHelper acParams
        { ThreadID := id, NumberOfThreads := threadCount, thread := threadOf id,
          ThreadExitCode := ThreadExitCodeType.SUCCESS } w).1

/-! ## The default back end -/

/-- Modelled from the spec: `itksys::SystemTools::UpperCase` (KWSys is not among the sources
at hand); tokens are compared case-insensitively, so every letter `a` to `z` is replaced by
its capital and every other character is kept. -/
def UpperCase (s : String) : String := String.mk (s.data.map Char.toUpper)

/-- The two environment variables that `GetGlobalDefaultThreader` reads through
`itksys::SystemTools::GetEnv`: `none` when a variable is not set. -/
structure Environment where
  ITK_GLOBAL_DEFAULT_THEADER : Option String
  ITK_USE_THREADPOOL : Option String
deriving DecidableEq

/-- The function `MultiThreaderBase::SetGlobalDefaultThreader(threaderType)`. -/
def SetGlobalDefaultThreader (threaderType : ThreaderType) (g : MultiThreaderBaseGlobals) :
    MultiThreaderBaseGlobals :=
  { g with
    m_GlobalDefaultThreader := threaderType,
    GlobalDefaultThreaderTypeIsInitialized := true }

/-- The function `MultiThreaderBase::ThreaderTypeFromString(threaderString)`. -/
def ThreaderTypeFromString (threaderString : String) : ThreaderType :=
  if UpperCase threaderString = "PLATFORM" then ThreaderType.Platform
  else if UpperCase threaderString = "POOL" then ThreaderType.Pool
  else if UpperCase threaderString = "TBB" then ThreaderType.TBB
  else ThreaderType.Unknown

/-- The function `MultiThreaderBase::GetGlobalDefaultThreader()`, in an environment `env`.
The mutex and the second test of the flag under it have no effect in a sequential run; the
deprecation warning written for `ITK_USE_THREADPOOL` is output only and is not recorded. -/
def GetGlobalDefaultThreader (env : Environment) (g : MultiThreaderBaseGlobals) :
    ThreaderType × MultiThreaderBaseGlobals :=
  if g.GlobalDefaultThreaderTypeIsInitialized = false then
    let g1 : MultiThreaderBaseGlobals :=
      match env.ITK_GLOBAL_DEFAULT_THEADER with
      | some envVar =>
        if ThreaderTypeFromString (UpperCase envVar) ≠ ThreaderType.Unknown then
          SetGlobalDefaultThreader (ThreaderTypeFromString (UpperCase envVar)) g
        else g
      | none =>
        match env.ITK_USE_THREADPOOL with
        | some envVar =>
          if UpperCase envVar ≠ "NO" ∧ UpperCase envVar ≠ "OFF" ∧ UpperCase envVar ≠ "FALSE" then
            SetGlobalDefaultThreader ThreaderType.Pool g
          else
            SetGlobalDefaultThreader ThreaderType.Platform g
        | none => g
    let g2 := { g1 with GlobalDefaultThreaderTypeIsInitialized := true }
    (g2.m_GlobalDefaultThreader, g2)
  else
    (g.m_GlobalDefaultThreader, g)

/-! ## Engine instances -/

/-- The per-instance state of a `MultiThreaderBase` that matters here. -/
structure MultiThreaderBase where
  m_NumberOfThreads : Nat
deriving DecidableEq

/-- The constructor `MultiThreaderBase::MultiThreaderBase()`; `recommended` is what
`ThreadPool::GetGlobalDefaultNumberOfThreads()` would return. -/
def MultiThreaderBase.construct (recommended : Nat) (g : MultiThreaderBaseGlobals) :
    MultiThreaderBase × MultiThreaderBaseGlobals :=
  ({ m_NumberOfThreads := (GetGlobalDefaultNumberOfThreads recommended g).1 },
    (GetGlobalDefaultNumberOfThreads recommended g).2)

/-- The method `MultiThreaderBase::SetNumberOfThreads(numberOfThreads)`. -/
def SetNumberOfThreads (numberOfThreads : Nat) (g : MultiThreaderBaseGlobals)
    (self : MultiThreaderBase) : MultiThreaderBase :=
  if self.m_NumberOfThreads = numberOfThreads ∧
      numberOfThreads ≤ g.m_GlobalMaximumNumberOfThreads then
    self
  else
    let s1 : MultiThreaderBase := { self with m_NumberOfThreads := numberOfThreads }
    let s2 : MultiThreaderBase :=
      { s1 with m_NumberOfThreads := min s1.m_NumberOfThreads g.m_GlobalMaximumNumberOfThreads }
    { s2 with m_NumberOfThreads := max s2.m_NumberOfThreads 1 }

/-- An engine instance after a sequence of `SetNumberOfThreads` calls, each made while the
registry is in the state paired with it. -/
def runSetNumberOfThreads (self : MultiThreaderBase) (calls : List (Nat × MultiThreaderBaseGlobals)) :
    MultiThreaderBase :=
  calls.foldl (fun s c => SetNumberOfThreads c.1 c.2 s) self

/-- The concrete class of the object that `MultiThreaderBase::New()` returns: one of the
three back ends, or whatever an object-factory override created. -/
inductive ConcreteThreader where
  | PlatformMultiThreader
  | PoolMultiThreader
  | TBBMultiThreader
  | factoryOverride (className : String)
deriving DecidableEq

/-- The outcome of `MultiThreaderBase::New()`: the object, or the exception it throws. -/
inductive NewResult where
  | created (threader : ConcreteThreader)
  | failed (thrown : Thrown)
deriving DecidableEq

/-- The function `MultiThreaderBase::New()`.  `factory` is what
`ObjectFactory< MultiThreaderBase >::Create()` returns (`none` for a null pointer);
`ITK_USE_TBB` is the build option. -/
def New (ITK_USE_TBB : Bool) (factory : Option String) (env : Environment)
    (g : MultiThreaderBaseGlobals) : NewResult × MultiThreaderBaseGlobals :=
  match factory with
  | some className => (NewResult.created (ConcreteThreader.factoryOverride className), g)
  | none =>
    match (GetGlobalDefaultThreader env g).1 with
    | ThreaderType.Platform =>
      (NewResult.created ConcreteThreader.PlatformMultiThreader, (GetGlobalDefaultThreader env g).2)
    | ThreaderType.Pool =>
      (NewResult.created ConcreteThreader.PoolMultiThreader, (GetGlobalDefaultThreader env g).2)
    | ThreaderType.TBB =>
      if ITK_USE_TBB then
        (NewResult.created ConcreteThreader.TBBMultiThreader, (GetGlobalDefaultThreader env g).2)
      else
        (NewResult.failed
          ⟨ExceptionClass.ExceptionObject, "ITK has been built without TBB support!"⟩,
          (GetGlobalDefaultThreader env g).2)
    | ThreaderType.Unknown =>
      (NewResult.failed
        ⟨ExceptionClass.ExceptionObject,
          "MultiThreaderBase::GetGlobalDefaultThreader returned Unknown!"⟩,
        (GetGlobalDefaultThreader env g).2)

/-! ## Reading the record of calls -/

/-- The progress values reported to the `ProcessObject` in a list of events, in order. -/
def progressReports : List Event → List Floating
  | [] => []
  | Event.updateProgress v :: es => v :: progressReports es
  | _ :: es => progressReports es

/-- The region that `ParallelizeImageRegionHelper` builds from the task context before it
asks the splitter for its piece. -/
def RegionAndCallback.region (rnc : RegionAndCallback) : ImageIORegion :=
  { index := (List.range rnc.dimension).map (fun d => rnc.index.getD d 0),
    size := (List.range rnc.dimension).map (fun d => rnc.size.getD d 0) }

/-! ## Calls on the default back end -/

/-- One call on the registry other than `SetGlobalDefaultThreader`: a
`GetGlobalDefaultThreader()` made in some environment, or a call on the thread counts. -/
inductive ThreaderOp where
  | getThreader (env : Environment)
  | counts (op : RegistryOp)
deriving DecidableEq

/-- The registry after one such call. -/
def ThreaderOp.apply (ITK_MAX_THREADS : Nat) (g : MultiThreaderBaseGlobals) :
    ThreaderOp → MultiThreaderBaseGlobals
  | ThreaderOp.getThreader env => (GetGlobalDefaultThreader env g).2
  | ThreaderOp.counts op => RegistryOp.apply ITK_MAX_THREADS g op

/-- The registry after a sequence of such calls, first call first. -/
def runThreaderOps (ITK_MAX_THREADS : Nat) (g : MultiThreaderBaseGlobals)
    (ops : List ThreaderOp) : MultiThreaderBaseGlobals :=
  ops.foldl (ThreaderOp.apply ITK_MAX_THREADS) g

/-! ## Time stamps (`itkTimeStamp.cxx`) -/

/-- The class `TimeStamp`: its only data member.  `ModifiedTimeType` is `SizeValueType`. -/
structure TimeStamp where
  m_ModifiedTime : Nat
deriving DecidableEq

/-- The assignment `TimeStamp::operator=(other)`. -/
def TimeStamp.operatorAssign (self other : TimeStamp) : TimeStamp :=
  { self with m_ModifiedTime := other.m_ModifiedTime }

/-- The method `TimeStamp::Modified()`: the pre-increment of the global counter
`*m_GlobalTimeStamp` (an atomic `ModifiedTimeType`, which wraps at `2^64`) and the store of
the incremented value.  Returns the time stamp and the global counter after the call. -/
def TimeStamp.Modified (self : TimeStamp) (m_GlobalTimeStamp : Nat) : TimeStamp × Nat :=
  let incremented := (m_GlobalTimeStamp + 1) % SizeValueModulus
  ({ self with m_ModifiedTime := incremented }, incremented)

/-- The time stamps of a process: the global counter, the time stamp objects (by identity)
and, as a record, the modified times that the `Modified()` calls have set so far, oldest
first. -/
structure TimeStampWorld where
  m_GlobalTimeStamp : Nat
  stamps : Nat → TimeStamp
  issued : List Nat

/-- One call on a time stamp: `stamps[i].Modified()` or `stamps[i] = stamps[j]`. -/
inductive TimeStampOp where
  | modified (i : Nat)
  | assign (i j : Nat)
deriving DecidableEq

/-- The time stamps after one call. -/
def TimeStampOp.apply (w : TimeStampWorld) : TimeStampOp → TimeStampWorld
  | TimeStampOp.modified i =>
    { m_GlobalTimeStamp := ((w.stamps i).Modified w.m_GlobalTimeStamp).2,
      stamps := fun k =>
        if k = i then ((w.stamps i).Modified w.m_GlobalTimeStamp).1 else w.stamps k,
      issued := w.issued ++ [((w.stamps i).Modified w.m_GlobalTimeStamp).1.m_ModifiedTime] }
  | TimeStampOp.assign i j =>
    { w with
      stamps := fun k => if k = i then (w.stamps i).operatorAssign (w.stamps j) else w.stamps k }

/-- The time stamps after a sequence of calls, first call first. -/
def runTimeStamps (w : TimeStampWorld) (ops : List TimeStampOp) : TimeStampWorld :=
  ops.foldl TimeStampOp.apply w

/-- The number of `Modified()` calls in a sequence of calls. -/
def modifiedCalls : List TimeStampOp → Nat
  | [] => 0
  | TimeStampOp.modified _ :: ops => modifiedCalls ops + 1
  | TimeStampOp.assign _ _ :: ops => modifiedCalls ops

/-! ## Progress reports that reach the observers of the filter

`ProcessObject::UpdateProgress(value)` stores the value and invokes a `ProgressEvent`; an
observer of that event may ask for the abort (`SetAbortGenerateData(true)`) while the report
is being made.  The definitions above leave the observers out (a report is only recorded);
the definitions of this section carry them, so that the order of "report" and "read the
abort flag" shows in the result. -/

theorem rne_cases (p q : Nat) :
    roundNearestEven p q = p / q ∨ roundNearestEven p q = p / q + 1 := by
  unfold roundNearestEven
  split_ifs <;> simp

theorem rne_half (p q : Nat) (hq : 0 < q) :
    2 * (roundNearestEven p q * q) ≤ 2 * p + q ∧ 2 * p ≤ 2 * (roundNearestEven p q * q) + q := by
  have h := Nat.div_add_mod p q
  have hr := Nat.mod_lt p hq
  unfold roundNearestEven
  split_ifs <;> (try rw [Nat.add_mul, Nat.one_mul]) <;>
    rw [Nat.mul_comm (p / q) q] <;> omega

theorem rne_ge_of_le (p q N : Nat) (hq : 0 < q) (h : N * q ≤ p) : N ≤ roundNearestEven p q := by
  have h1 : N ≤ p / q := (Nat.le_div_iff_mul_le hq).2 h
  rcases rne_cases p q with h2 | h2 <;> omega

theorem rne_le_of_le (p q N : Nat) (hq : 0 < q) (h : p ≤ N * q) : roundNearestEven p q ≤ N := by
  have hd := Nat.div_add_mod p q
  have hr := Nat.mod_lt p hq
  have h1 : p / q ≤ N := by
    calc p / q ≤ N * q / q := Nat.div_le_div_right h
      _ = N := Nat.mul_div_cancel _ hq
  rcases Nat.lt_or_ge (p / q) N with h2 | h2
  · rcases rne_cases p q with h3 | h3 <;> omega
  · have h4 : p / q = N := le_antisymm h1 h2
    have h5 : p % q = 0 := by
      rw [h4, Nat.mul_comm] at hd
      omega
    unfold roundNearestEven
    rw [h5]
    simp [hq, h4]

theorem rne_mono (p q p' q' : Nat) (hq : 0 < q) (hq' : 0 < q') (h : p * q' ≤ p' * q) :
    roundNearestEven p q ≤ roundNearestEven p' q' := by
  have hd := Nat.div_add_mod p q
  have hr := Nat.mod_lt p hq
  have hd' := Nat.div_add_mod p' q'
  have hr' := Nat.mod_lt p' hq'
  have hle : p / q ≤ p' / q' := by
    rw [Nat.le_div_iff_mul_le hq']
    have : p / q * q ≤ p := Nat.div_mul_le_self p q
    have h3 : p / q * q' * q ≤ p' * q := by
      calc p / q * q' * q = (p / q * q) * q' := by ring
        _ ≤ p * q' := Nat.mul_le_mul_right _ this
        _ ≤ p' * q := h
    exact Nat.le_of_mul_le_mul_right h3 hq
  rcases Nat.lt_or_ge (p / q) (p' / q') with h2 | h2
  · rcases rne_cases p q with h3 | h3 <;> rcases rne_cases p' q' with h4 | h4 <;> omega
  · have h4 : p / q = p' / q' := le_antisymm hle h2
    have h5 : (p % q) * q' ≤ (p' % q') * q := by
      have e1 : p * q' = q * q' * (p / q) + (p % q) * q' := by
        conv_lhs => rw [← hd]
        ring
      have e2 : p' * q = q * q' * (p / q) + (p' % q') * q := by
        conv_lhs => rw [← hd', ← h4]
        ring
      omega
    unfold roundNearestEven
    rw [← h4]
    by_cases c1 : 2 * (p % q) < q
    · simp only [c1, if_true]
      split_ifs <;> omega
    · have c1' : q ≤ 2 * (p % q) := Nat.le_of_not_lt c1
      have k1 : q' ≤ 2 * (p' % q') := by
        by_contra hc
        have hc' : 2 * (p' % q') < q' := Nat.lt_of_not_le hc
        have : 2 * (p' % q') * q < q' * q := Nat.mul_lt_mul_of_pos_right hc' hq
        have : q * q' ≤ 2 * (p % q) * q' := Nat.mul_le_mul_right _ c1'
        nlinarith
      have k1' : ¬ 2 * (p' % q') < q' := Nat.not_lt.2 k1
      by_cases c2 : q < 2 * (p % q)
      · have k2 : q' < 2 * (p' % q') := by
          by_contra hc
          have hc' : 2 * (p' % q') ≤ q' := Nat.le_of_not_lt hc
          have : 2 * (p' % q') * q ≤ q' * q := Nat.mul_le_mul_right _ hc'
          have : q * q' < 2 * (p % q) * q' := Nat.mul_lt_mul_of_pos_right c2 hq'
          nlinarith
        simp [c1, c2, k1', k2]
      · simp only [c1, c2, k1', if_false]
        split_ifs <;> omega

theorem two_pow_pred (prec : Nat) (h : 1 ≤ prec) : 2 ^ prec = 2 * 2 ^ (prec - 1) := by
  obtain ⟨k, rfl⟩ : ∃ k, prec = k + 1 := ⟨prec - 1, by omega⟩
  simp [pow_succ, Nat.mul_comm]

theorem normalize_spec (prec : Nat) (hprec : 1 ≤ prec) : ∀ (fuel p q : Nat) (e : Int),
    0 < p → 0 < q → 2 ^ (prec - 1) * q ≤ p * 2 ^ fuel → p < 2 ^ prec * q * 2 ^ fuel →
    0 < (normalize prec fuel p q e).2.1 ∧
    2 ^ (prec - 1) * (normalize prec fuel p q e).2.1 ≤ (normalize prec fuel p q e).1 ∧
    (normalize prec fuel p q e).1 < 2 ^ prec * (normalize prec fuel p q e).2.1 ∧
    ratioVal (normalize prec fuel p q e).1 (normalize prec fuel p q e).2.1
      (normalize prec fuel p q e).2.2 = ratioVal p q e := by
  intro fuel
  induction fuel with
  | zero =>
    intro p q e hp hq h1 h2
    simp only [pow_zero, Nat.mul_one] at h1 h2
    exact ⟨hq, h1, h2, rfl⟩
  | succ n ih =>
    intro p q e hp hq h1 h2
    have h2p := two_pow_pred prec hprec
    have hpos : 0 < 2 ^ n := Nat.two_pow_pos n
    unfold normalize
    split_ifs with c1 c2
    · have key := ih (2 * p) q (e - 1) (by omega) hq
        (by rw [pow_succ] at h1; nlinarith)
        (by
          have : 2 ^ prec * q ≤ 2 ^ prec * q * 2 ^ n := Nat.le_mul_of_pos_right _ hpos
          rw [h2p] at this ⊢
          nlinarith)
      refine ⟨key.1, key.2.1, key.2.2.1, key.2.2.2.trans ?_⟩
      unfold ratioVal
      rw [zpow_sub_one₀ (by norm_num : (2 : ℚ) ≠ 0)]
      push_cast
      field_simp
      ring
    · have key := ih p (2 * q) (e + 1) hp (by omega)
        (by
          have : p ≤ p * 2 ^ n := Nat.le_mul_of_pos_right _ hpos
          rw [h2p] at c2
          nlinarith)
        (by rw [pow_succ] at h2; nlinarith)
      refine ⟨key.1, key.2.1, key.2.2.1, key.2.2.2.trans ?_⟩
      unfold ratioVal
      rw [zpow_add_one₀ (by norm_num : (2 : ℚ) ≠ 0)]
      push_cast
      field_simp
      ring
    · exact ⟨hq, Nat.le_of_not_lt c1, Nat.lt_of_not_le c2, rfl⟩

theorem roundRatio_spec (prec p q : Nat) (e : Int) (hprec : 1 ≤ prec) (hp : 0 < p) (hq : 0 < q) :
    ∃ (P Q : Nat) (k : Int), 0 < Q ∧ 2 ^ (prec - 1) * Q ≤ P ∧ P < 2 ^ prec * Q ∧
      ratioVal P Q k = ratioVal p q e ∧
      roundRatio prec p q e = ⟨roundNearestEven P Q, k⟩ := by
  have hfuel1 : 2 ^ (prec - 1) * q ≤ p * 2 ^ (p + q + prec) := by
    have a1 : q ≤ 2 ^ q := Nat.le_of_lt (Nat.lt_two_pow q)
    have a2 : 2 ^ (prec - 1) ≤ 2 ^ prec := Nat.pow_le_pow_right (by norm_num) (by omega)
    have a3 : 1 ≤ 2 ^ p := Nat.one_le_two_pow
    calc 2 ^ (prec - 1) * q ≤ 2 ^ prec * 2 ^ q := Nat.mul_le_mul a2 a1
      _ = 1 * (1 * (2 ^ q * 2 ^ prec)) := by ring
      _ ≤ 1 * (2 ^ p * (2 ^ q * 2 ^ prec)) :=
          Nat.mul_le_mul_left _ (Nat.mul_le_mul_right _ a3)
      _ ≤ p * (2 ^ p * (2 ^ q * 2 ^ prec)) := Nat.mul_le_mul_right _ hp
      _ = p * 2 ^ (p + q + prec) := by rw [pow_add, pow_add]; ring
  have hfuel2 : p < 2 ^ prec * q * 2 ^ (p + q + prec) := by
    have a1 : p < 2 ^ p := Nat.lt_two_pow p
    have a2 : 1 ≤ 2 ^ prec := Nat.one_le_two_pow
    have a3 : 1 ≤ 2 ^ q := Nat.one_le_two_pow
    have e1 : 2 ^ prec * q * 2 ^ (p + q + prec) = 2 ^ p * (2 ^ prec * q * (2 ^ q * 2 ^ prec)) := by
      rw [pow_add, pow_add]; ring
    have a4 : 1 ≤ 2 ^ prec * q * (2 ^ q * 2 ^ prec) := by
      have : 1 ≤ 2 ^ prec * q := Nat.mul_le_mul a2 hq
      have : 1 ≤ 2 ^ q * 2 ^ prec := Nat.mul_le_mul a3 a2
      nlinarith
    rw [e1]
    calc p < 2 ^ p := a1
      _ ≤ 2 ^ p * (2 ^ prec * q * (2 ^ q * 2 ^ prec)) := Nat.le_mul_of_pos_right _ a4
  have key := normalize_spec prec hprec (p + q + prec) p q e hp hq hfuel1 hfuel2
  refine ⟨_, _, _, key.1, key.2.1, key.2.2.1, key.2.2.2, ?_⟩
  unfold roundRatio
  rw [if_neg (by omega)]

theorem toRat_nonneg (x : Floating) : 0 ≤ x.toRat := by
  unfold Floating.toRat
  have : (0 : ℚ) < 2 ^ x.expo := zpow_pos (by norm_num) _
  positivity

theorem ratioVal_pos (p q : Nat) (e : Int) (hp : 0 < p) (hq : 0 < q) : 0 < ratioVal p q e := by
  unfold ratioVal
  have : (0 : ℚ) < 2 ^ e := zpow_pos (by norm_num) _
  have : (0 : ℚ) < p := by exact_mod_cast hp
  have : (0 : ℚ) < q := by exact_mod_cast hq
  positivity

theorem roundRatio_zero (prec q : Nat) (e : Int) : (roundRatio prec 0 q e).toRat = 0 := by
  simp [roundRatio, Floating.toRat]

theorem rep_bounds (prec P Q : Nat) (hQ : 0 < Q) (h1 : 2 ^ (prec - 1) * Q ≤ P)
    (h2 : P < 2 ^ prec * Q) :
    ((2 : ℚ) ^ (prec - 1) ≤ (P : ℚ) / Q ∧ (P : ℚ) / Q < (2 : ℚ) ^ prec) ∧
    ((2 : ℚ) ^ (prec - 1) ≤ (roundNearestEven P Q : ℚ) ∧
      (roundNearestEven P Q : ℚ) ≤ (2 : ℚ) ^ prec) ∧
    |(roundNearestEven P Q : ℚ) - (P : ℚ) / Q| ≤ 1 / 2 := by
  have hQ' : (0 : ℚ) < Q := by exact_mod_cast hQ
  have h1' : (2 : ℚ) ^ (prec - 1) * Q ≤ P := by exact_mod_cast h1
  have h2' : (P : ℚ) < 2 ^ prec * Q := by exact_mod_cast h2
  have lo : 2 ^ (prec - 1) ≤ roundNearestEven P Q := rne_ge_of_le P Q _ hQ h1
  have hi : roundNearestEven P Q ≤ 2 ^ prec := rne_le_of_le P Q _ hQ (Nat.le_of_lt h2)
  have hh := rne_half P Q hQ
  have hh1 : (2 : ℚ) * (roundNearestEven P Q * Q) ≤ 2 * P + Q := by exact_mod_cast hh.1
  have hh2 : (2 : ℚ) * P ≤ 2 * (roundNearestEven P Q * Q) + Q := by exact_mod_cast hh.2
  refine ⟨⟨?_, ?_⟩, ⟨by exact_mod_cast lo, by exact_mod_cast hi⟩, ?_⟩
  · rw [le_div_iff₀ hQ']; exact h1'
  · rw [div_lt_iff₀ hQ']; exact h2'
  · have hd : (P : ℚ) = (P : ℚ) / Q * Q := by field_simp
    rw [hd] at hh1 hh2
    rw [abs_le]
    constructor
    · by_contra hc
      push_neg at hc
      nlinarith
    · by_contra hc
      push_neg at hc
      nlinarith

theorem roundRatio_mono (prec p q p' q' : Nat) (e e' : Int) (hprec : 1 ≤ prec)
    (hq : 0 < q) (hq' : 0 < q') (h : ratioVal p q e ≤ ratioVal p' q' e') :
    (roundRatio prec p q e).toRat ≤ (roundRatio prec p' q' e').toRat := by
  rcases Nat.eq_zero_or_pos p with hp | hp
  · subst hp
    rw [roundRatio_zero]
    exact toRat_nonneg _
  rcases Nat.eq_zero_or_pos p' with hp' | hp'
  · subst hp'
    have := ratioVal_pos p q e hp hq
    have h0 : ratioVal 0 q' e' = 0 := by simp [ratioVal]
    rw [h0] at h
    linarith
  obtain ⟨P, Q, k, hQ, b1, b2, hv, hr⟩ := roundRatio_spec prec p q e hprec hp hq
  obtain ⟨P', Q', k', hQ', b1', b2', hv', hr'⟩ := roundRatio_spec prec p' q' e' hprec hp' hq'
  obtain ⟨⟨x1, x2⟩, ⟨m1, m2⟩, -⟩ := rep_bounds prec P Q hQ b1 b2
  obtain ⟨⟨x1', x2'⟩, ⟨m1', m2'⟩, -⟩ := rep_bounds prec P' Q' hQ' b1' b2'
  rw [hr, hr']
  rw [← hv, ← hv'] at h
  unfold ratioVal at h
  simp only [Floating.toRat]
  have ha : (0 : ℚ) < 2 ^ k := zpow_pos (by norm_num) _
  have ha' : (0 : ℚ) < 2 ^ k' := zpow_pos (by norm_num) _
  have h2p : (2 : ℚ) ^ prec = 2 * 2 ^ (prec - 1) := by
    have := two_pow_pred prec hprec
    exact_mod_cast this
  have hpp : (0 : ℚ) < 2 ^ (prec - 1) := by positivity
  rcases lt_trichotomy k k' with c | c | c
  · have hk : (2 : ℚ) ^ (k + 1) ≤ 2 ^ k' := zpow_le_zpow_right₀ (by norm_num) (by omega)
    rw [zpow_add_one₀ (by norm_num : (2 : ℚ) ≠ 0)] at hk
    calc (roundNearestEven P Q : ℚ) * 2 ^ k ≤ 2 ^ prec * 2 ^ k :=
          mul_le_mul_of_nonneg_right m2 ha.le
      _ = 2 ^ (prec - 1) * (2 ^ k * 2) := by rw [h2p]; ring
      _ ≤ 2 ^ (prec - 1) * 2 ^ k' := mul_le_mul_of_nonneg_left hk hpp.le
      _ ≤ (roundNearestEven P' Q' : ℚ) * 2 ^ k' := mul_le_mul_of_nonneg_right m1' ha'.le
  · subst c
    have h3 : (P : ℚ) / Q ≤ (P' : ℚ) / Q' := le_of_mul_le_mul_right h ha
    have hQq : (0 : ℚ) < Q := by exact_mod_cast hQ
    have hQq' : (0 : ℚ) < Q' := by exact_mod_cast hQ'
    rw [div_le_div_iff₀ hQq hQq'] at h3
    have h4 : P * Q' ≤ P' * Q := by exact_mod_cast h3
    have h5 := rne_mono P Q P' Q' hQ hQ' h4
    have h6 : (roundNearestEven P Q : ℚ) ≤ roundNearestEven P' Q' := by exact_mod_cast h5
    exact mul_le_mul_of_nonneg_right h6 ha.le
  · exfalso
    have hk : (2 : ℚ) ^ (k' + 1) ≤ 2 ^ k := zpow_le_zpow_right₀ (by norm_num) (by omega)
    rw [zpow_add_one₀ (by norm_num : (2 : ℚ) ≠ 0)] at hk
    have e1 : (P' : ℚ) / Q' * 2 ^ k' < 2 ^ prec * 2 ^ k' := mul_lt_mul_of_pos_right x2' ha'
    have e2 : (2 : ℚ) ^ (prec - 1) * 2 ^ k ≤ (P : ℚ) / Q * 2 ^ k :=
      mul_le_mul_of_nonneg_right x1 ha.le
    have e3 : (2 : ℚ) ^ (prec - 1) * (2 ^ k' * 2) ≤ 2 ^ (prec - 1) * 2 ^ k :=
      mul_le_mul_of_nonneg_left hk hpp.le
    rw [h2p] at e1
    nlinarith

theorem roundRatio_err (prec p q : Nat) (e : Int) (hprec : 1 ≤ prec) (hq : 0 < q) :
    |(roundRatio prec p q e).toRat - ratioVal p q e| ≤ ratioVal p q e / 2 ^ prec := by
  rcases Nat.eq_zero_or_pos p with hp | hp
  · subst hp
    rw [roundRatio_zero]
    simp [ratioVal]
  obtain ⟨P, Q, k, hQ, b1, b2, hv, hr⟩ := roundRatio_spec prec p q e hprec hp hq
  obtain ⟨⟨x1, x2⟩, ⟨m1, m2⟩, hab⟩ := rep_bounds prec P Q hQ b1 b2
  rw [hr, ← hv]
  unfold ratioVal
  simp only [Floating.toRat]
  have ha : (0 : ℚ) < 2 ^ k := zpow_pos (by norm_num) _
  have h2p : (2 : ℚ) ^ prec = 2 * 2 ^ (prec - 1) := by
    have := two_pow_pred prec hprec
    exact_mod_cast this
  have hpp : (0 : ℚ) < 2 ^ (prec - 1) := by positivity
  rw [← sub_mul, abs_mul, abs_of_pos ha, le_div_iff₀ (by positivity), h2p]
  have e2 : (2 : ℚ) ^ (prec - 1) * 2 ^ k ≤ (P : ℚ) / Q * 2 ^ k :=
    mul_le_mul_of_nonneg_right x1 ha.le
  have e3 : |(roundNearestEven P Q : ℚ) - (P : ℚ) / Q| * (2 ^ k * (2 * 2 ^ (prec - 1))) ≤
      1 / 2 * (2 ^ k * (2 * 2 ^ (prec - 1))) :=
    mul_le_mul_of_nonneg_right hab (by positivity)
  calc |(roundNearestEven P Q : ℚ) - (P : ℚ) / Q| * 2 ^ k * (2 * 2 ^ (prec - 1))
      = |(roundNearestEven P Q : ℚ) - (P : ℚ) / Q| * (2 ^ k * (2 * 2 ^ (prec - 1))) := by ring
    _ ≤ 1 / 2 * (2 ^ k * (2 * 2 ^ (prec - 1))) := e3
    _ = 2 ^ (prec - 1) * 2 ^ k := by ring
    _ ≤ (P : ℚ) / Q * 2 ^ k := e2

theorem rne_exact (N Q : Nat) (hQ : 0 < Q) : roundNearestEven (N * Q) Q = N :=
  le_antisymm (rne_le_of_le _ _ _ hQ (le_refl _)) (rne_ge_of_le _ _ _ hQ (le_refl _))

theorem roundRatio_natCast (prec n : Nat) (hprec : 1 ≤ prec) (hn : n ≤ 2 ^ prec) :
    (roundRatio prec n 1 0).toRat = n := by
  rcases Nat.eq_zero_or_pos n with hp | hp
  · subst hp
    rw [roundRatio_zero]
    simp
  obtain ⟨P, Q, k, hQ, b1, b2, hv, hr⟩ := roundRatio_spec prec n 1 0 hprec hp (by norm_num)
  obtain ⟨⟨x1, x2⟩, -, -⟩ := rep_bounds prec P Q hQ b1 b2
  have hQq : (0 : ℚ) < Q := by exact_mod_cast hQ
  have hn' : (n : ℚ) ≤ 2 ^ prec := by exact_mod_cast hn
  have h2p : (2 : ℚ) ^ prec = 2 * 2 ^ (prec - 1) := by
    have := two_pow_pred prec hprec
    exact_mod_cast this
  have hv' : (P : ℚ) / Q * 2 ^ k = n := by
    have := hv
    simp only [ratioVal, Nat.cast_one, div_one, zpow_zero, mul_one] at this
    exact this
  have hint : ∃ N : Nat, P = N * Q := by
    rcases le_or_lt k 0 with c | c
    · obtain ⟨t, rfl⟩ : ∃ t : Nat, k = -(t : Int) := ⟨(-k).toNat, by omega⟩
      refine ⟨n * 2 ^ t, ?_⟩
      rw [zpow_neg, zpow_natCast] at hv'
      have ht : (0 : ℚ) < 2 ^ t := by positivity
      have : (P : ℚ) = (n * 2 ^ t : Nat) * Q := by
        push_cast
        field_simp at hv'
        linarith
      exact_mod_cast this
    · obtain ⟨t, rfl⟩ : ∃ t : Nat, k = (t : Int) + 1 := ⟨(k - 1).toNat, by omega⟩
      refine ⟨2 ^ (prec - 1), ?_⟩
      rw [zpow_add_one₀ (by norm_num : (2 : ℚ) ≠ 0), zpow_natCast] at hv'
      have ht : (1 : ℚ) ≤ 2 ^ t := one_le_pow₀ (by norm_num)
      have hpp : (0 : ℚ) < 2 ^ (prec - 1) := by positivity
      have h5 : (P : ℚ) / Q ≤ 2 ^ (prec - 1) := by
        have : (P : ℚ) / Q * 1 ≤ (P : ℚ) / Q * 2 ^ t :=
          mul_le_mul_of_nonneg_left ht (le_trans hpp.le x1)
        nlinarith
      have h6 : (P : ℚ) / Q = 2 ^ (prec - 1) := le_antisymm h5 x1
      have : (P : ℚ) = (2 ^ (prec - 1) : Nat) * Q := by
        push_cast
        rw [← h6]
        field_simp
      exact_mod_cast this
  obtain ⟨N, hN⟩ := hint
  rw [hr]
  simp only [Floating.toRat]
  rw [hN, rne_exact N Q hQ]
  rw [hN] at hv'
  rw [← hv']
  push_cast
  field_simp

theorem ratioVal_num_den (x : ℚ) (hx : 0 ≤ x) : ratioVal x.num.toNat x.den 0 = x := by
  unfold ratioVal
  have h1 : ((x.num.toNat : ℤ) : ℚ) = (x.num : ℚ) := by
    rw [Int.toNat_of_nonneg (Rat.num_nonneg.2 hx)]
  have h2 : ((x.num.toNat : ℕ) : ℚ) = (x.num : ℚ) := by
    rw [← h1]; norm_cast
  rw [h2, zpow_zero, mul_one, Rat.num_div_den]

theorem fl_nonneg (prec : Nat) (x : ℚ) : 0 ≤ fl prec x := toRat_nonneg _

theorem fl_mono (prec : Nat) (hprec : 1 ≤ prec) (x y : ℚ) (hx : 0 ≤ x) (hxy : x ≤ y) :
    fl prec x ≤ fl prec y := by
  unfold fl
  apply roundRatio_mono prec _ _ _ _ _ _ hprec x.den_pos y.den_pos
  rw [ratioVal_num_den x hx, ratioVal_num_den y (le_trans hx hxy)]
  exact hxy

theorem toRat_roundRatio (prec p q : Nat) (e : Int) (hprec : 1 ≤ prec) (hq : 0 < q) :
    (roundRatio prec p q e).toRat = fl prec (ratioVal p q e) := by
  have h0 : 0 ≤ ratioVal p q e := by
    unfold ratioVal
    have : (0 : ℚ) < 2 ^ e := zpow_pos (by norm_num) _
    positivity
  have hv := ratioVal_num_den (ratioVal p q e) h0
  unfold fl
  apply le_antisymm
  · apply roundRatio_mono prec _ _ _ _ _ _ hprec hq (Rat.den_pos _)
    rw [hv]
  · apply roundRatio_mono prec _ _ _ _ _ _ hprec (Rat.den_pos _) hq
    rw [hv]

theorem fl_natCast (prec n : Nat) (hprec : 1 ≤ prec) (hn : n ≤ 2 ^ prec) :
    fl prec (n : ℚ) = n := by
  have h := toRat_roundRatio prec n 1 0 hprec (by norm_num)
  rw [roundRatio_natCast prec n hprec hn] at h
  have hv : ratioVal n 1 0 = (n : ℚ) := by simp [ratioVal]
  rw [hv] at h
  exact h.symm

theorem fl_err (prec : Nat) (hprec : 1 ≤ prec) (x : ℚ) (hx : 0 ≤ x) :
    |fl prec x - x| ≤ x / 2 ^ prec := by
  have h := roundRatio_err prec x.num.toNat x.den 0 hprec x.den_pos
  rw [ratioVal_num_den x hx] at h
  exact h

/-! ## Rounding: the arithmetic operations -/

theorem toRat_ofNat (prec n : Nat) (hprec : 1 ≤ prec) :
    (Floating.ofNat prec n).toRat = fl prec (n : ℚ) := by
  unfold Floating.ofNat
  rw [toRat_roundRatio prec n 1 0 hprec (by norm_num)]
  simp [ratioVal]

theorem toRat_div (prec : Nat) (a b : Floating) (hprec : 1 ≤ prec) (hb : 0 < b.mant) :
    (Floating.div prec a b).toRat = fl prec (a.toRat / b.toRat) := by
  unfold Floating.div
  rw [toRat_roundRatio prec _ _ _ hprec hb]
  congr 1
  unfold ratioVal Floating.toRat
  have hb' : (b.mant : ℚ) ≠ 0 := by exact_mod_cast hb.ne'
  have h2 : (2 : ℚ) ^ b.expo ≠ 0 := zpow_ne_zero _ (by norm_num)
  rw [zpow_sub₀ (by norm_num : (2 : ℚ) ≠ 0)]
  field_simp

theorem toRat_mul (prec : Nat) (a b : Floating) (hprec : 1 ≤ prec) :
    (Floating.mul prec a b).toRat = fl prec (a.toRat * b.toRat) := by
  unfold Floating.mul
  rw [toRat_roundRatio prec _ _ _ hprec (by norm_num)]
  congr 1
  unfold ratioVal Floating.toRat
  rw [zpow_add₀ (by norm_num : (2 : ℚ) ≠ 0)]
  push_cast
  ring

theorem two_pow_toNat (i : Int) (hi : 0 ≤ i) : ((2 : ℚ) ^ i.toNat) = (2 : ℚ) ^ i := by
  rw [← zpow_natCast, Int.toNat_of_nonneg hi]

theorem toRat_add (prec : Nat) (a b : Floating) (hprec : 1 ≤ prec) :
    (Floating.add prec a b).toRat = fl prec (a.toRat + b.toRat) := by
  unfold Floating.add
  rw [toRat_roundRatio prec _ _ _ hprec (by norm_num)]
  congr 1
  unfold ratioVal Floating.toRat
  have ha : 0 ≤ a.expo - min a.expo b.expo := by
    have := min_le_left a.expo b.expo
    omega
  have hb : 0 ≤ b.expo - min a.expo b.expo := by
    have := min_le_right a.expo b.expo
    omega
  push_cast
  rw [two_pow_toNat _ ha, two_pow_toNat _ hb, div_one, add_mul, mul_assoc, mul_assoc,
    ← zpow_add₀ (by norm_num : (2 : ℚ) ≠ 0), ← zpow_add₀ (by norm_num : (2 : ℚ) ≠ 0)]
  simp

theorem trunc_eq_floor (a : Floating) : a.trunc = ⌊a.toRat⌋₊ := by
  unfold Floating.trunc Floating.toRat
  split_ifs with h
  · rw [← two_pow_toNat _ h]
    have : ((a.mant : ℚ) * 2 ^ a.expo.toNat) = ((a.mant * 2 ^ a.expo.toNat : ℕ) : ℚ) := by
      push_cast; rfl
    rw [this, Nat.floor_natCast]
  · have h' : 0 ≤ -a.expo := by omega
    have e1 : (2 : ℚ) ^ a.expo = ((2 : ℚ) ^ (-a.expo).toNat)⁻¹ := by
      rw [two_pow_toNat _ h', zpow_neg, inv_inv]
    rw [e1, ← div_eq_mul_inv]
    have : ((2 : ℚ) ^ (-a.expo).toNat) = ((2 ^ (-a.expo).toNat : ℕ) : ℚ) := by push_cast; rfl
    rw [this, Nat.floor_div_eq_div]

theorem mant_pos_of_toRat_pos (a : Floating) (h : 0 < a.toRat) : 0 < a.mant := by
  rcases Nat.eq_zero_or_pos a.mant with h0 | h0
  · unfold Floating.toRat at h
    rw [h0] at h
    simp at h
  · exact h0

/-! ## The boundaries of the one-dimensional partition -/

theorem doublePrec_pos : 1 ≤ doublePrec := by decide

theorem fl_double_nat (n : Nat) (hn : n ≤ 2 ^ 53) : fl doublePrec (n : ℚ) = n :=
  fl_natCast doublePrec n doublePrec_pos hn

theorem fl_pos_of_one_le (prec : Nat) (hprec : 1 ≤ prec) (x : ℚ) (hx : 1 ≤ x) :
    1 ≤ fl prec x := by
  have h1 : fl prec ((1 : Nat) : ℚ) = ((1 : Nat) : ℚ) :=
    fl_natCast prec 1 hprec Nat.one_le_two_pow
  have h2 := fl_mono prec hprec ((1 : Nat) : ℚ) x (by norm_num) (by simpa using hx)
  rw [h1] at h2
  simpa using h2

theorem subRange_fst (F L w c : Nat) (hc : 1 ≤ c) :
    (ParallelizeArrayHelper.subRange F L w c).1 =
      if ⌊boundary F ((L + SizeValueModulus - F) % SizeValueModulus) c w⌋₊ < SizeValueModulus
      then ⌊boundary F ((L + SizeValueModulus - F) % SizeValueModulus) c w⌋₊ else 0 := by
  have hp := doublePrec_pos
  have hcpos : 0 < (Floating.ofNat doublePrec c).mant := by
    apply mant_pos_of_toRat_pos
    rw [toRat_ofNat _ _ hp]
    have : (1 : ℚ) ≤ (c : ℚ) := by exact_mod_cast hc
    linarith [fl_pos_of_one_le doublePrec hp (c : ℚ) this]
  have key : ∀ t : Nat,
      (Floating.add doublePrec (Floating.ofNat doublePrec F)
        (Floating.mul doublePrec
          (Floating.div doublePrec
            (Floating.ofNat doublePrec ((L + SizeValueModulus - F) % SizeValueModulus))
            (Floating.ofNat doublePrec c))
          (Floating.ofNat doublePrec t))).toSizeValue =
      if ⌊boundary F ((L + SizeValueModulus - F) % SizeValueModulus) c t⌋₊ < SizeValueModulus
      then ⌊boundary F ((L + SizeValueModulus - F) % SizeValueModulus) c t⌋₊ else 0 := by
    intro t
    unfold Floating.toSizeValue boundary
    rw [trunc_eq_floor, toRat_add _ _ _ hp, toRat_mul _ _ _ hp, toRat_div _ _ _ hp hcpos,
      toRat_ofNat _ _ hp, toRat_ofNat _ _ hp, toRat_ofNat _ _ hp, toRat_ofNat _ _ hp]
  unfold ParallelizeArrayHelper.subRange
  simp only []
  by_cases h : w = (c + ThreadIdModulus - 1) % ThreadIdModulus
  · rw [if_pos h]
    exact key w
  · rw [if_neg h]
    exact key w

theorem subRange_snd_of_ne (F L w c : Nat)
    (hw : w ≠ (c + ThreadIdModulus - 1) % ThreadIdModulus) :
    (ParallelizeArrayHelper.subRange F L w c).2 =
      (ParallelizeArrayHelper.subRange F L ((w + 1) % ThreadIdModulus) c).1 := by
  have h1 : (ParallelizeArrayHelper.subRange F L w c).2 =
      (Floating.add doublePrec (Floating.ofNat doublePrec F)
        (Floating.mul doublePrec
          (Floating.div doublePrec
            (Floating.ofNat doublePrec ((L + SizeValueModulus - F) % SizeValueModulus))
            (Floating.ofNat doublePrec c))
          (Floating.ofNat doublePrec ((w + 1) % ThreadIdModulus)))).toSizeValue := by
    unfold ParallelizeArrayHelper.subRange
    simp only []
    rw [if_neg hw]
  have h2 : (ParallelizeArrayHelper.subRange F L ((w + 1) % ThreadIdModulus) c).1 =
      (Floating.add doublePrec (Floating.ofNat doublePrec F)
        (Floating.mul doublePrec
          (Floating.div doublePrec
            (Floating.ofNat doublePrec ((L + SizeValueModulus - F) % SizeValueModulus))
            (Floating.ofNat doublePrec c))
          (Floating.ofNat doublePrec ((w + 1) % ThreadIdModulus)))).toSizeValue := by
    unfold ParallelizeArrayHelper.subRange
    simp only []
    split_ifs <;> rfl
  rw [h1, h2]

theorem subRange_snd_of_eq (F L w c : Nat)
    (hw : w = (c + ThreadIdModulus - 1) % ThreadIdModulus) :
    (ParallelizeArrayHelper.subRange F L w c).2 = L := by
  unfold ParallelizeArrayHelper.subRange
  simp only []
  rw [if_pos hw]

theorem boundary_zero (F n c : Nat) (hF : F ≤ 2 ^ 53) : boundary F n c 0 = F := by
  unfold boundary
  have h0 : fl doublePrec ((0 : Nat) : ℚ) = ((0 : Nat) : ℚ) := fl_double_nat 0 (by norm_num)
  rw [h0, fl_double_nat F hF]
  simp only [Nat.cast_zero, mul_zero]
  have h0' : fl doublePrec (0 : ℚ) = 0 := by simpa using h0
  rw [h0', add_zero, fl_double_nat F hF]

theorem boundary_mono (F n c w w' : Nat) (hww : w ≤ w') :
    boundary F n c w ≤ boundary F n c w' := by
  have hp := doublePrec_pos
  unfold boundary
  apply fl_mono _ hp
  · exact add_nonneg (fl_nonneg _ _) (fl_nonneg _ _)
  · apply add_le_add_left
    apply fl_mono _ hp
    · exact mul_nonneg (fl_nonneg _ _) (fl_nonneg _ _)
    · apply mul_le_mul_of_nonneg_left _ (fl_nonneg _ _)
      apply fl_mono _ hp
      · exact Nat.cast_nonneg w
      · exact_mod_cast hww

theorem boundary_le (F n c w : Nat) (hFn : F + n ≤ 2 ^ 53) (hc : c ≤ 2 ^ 53) (hw : w + 1 ≤ c) :
    boundary F n c w ≤ F + n := by
  have hp := doublePrec_pos
  have hF : F ≤ 2 ^ 53 := by omega
  have hn : n ≤ 2 ^ 53 := by omega
  have hw' : w ≤ 2 ^ 53 := by omega
  have hcq : (1 : ℚ) ≤ c := by
    have : 1 ≤ c := by omega
    exact_mod_cast this
  have hcq2 : (c : ℚ) ≤ 2 ^ 53 := by exact_mod_cast hc
  have hwq : (w : ℚ) + 1 ≤ c := by exact_mod_cast hw
  have hnq : (0 : ℚ) ≤ n := Nat.cast_nonneg n
  unfold boundary
  rw [fl_double_nat F hF, fl_double_nat n hn, fl_double_nat c hc, fl_double_nat w hw']
  set x : ℚ := (n : ℚ) / c with hx
  have hx0 : 0 ≤ x := div_nonneg hnq (by linarith)
  have hxc : x * c = n := by
    rw [hx]; field_simp
  have herr := fl_err doublePrec hp x hx0
  rw [abs_le] at herr
  have hfr : fl doublePrec x ≤ x + x / 2 ^ 53 := by
    have := herr.2
    simp only [doublePrec] at this ⊢
    linarith
  have hfr0 : 0 ≤ fl doublePrec x := fl_nonneg _ _
  have hprod : fl doublePrec x * (w : ℚ) ≤ n := by
    have hwn : (0 : ℚ) ≤ w := Nat.cast_nonneg w
    have s1 : fl doublePrec x * (w : ℚ) ≤ (x + x / 2 ^ 53) * w :=
      mul_le_mul_of_nonneg_right hfr hwn
    have s2 : (x + x / 2 ^ 53) * (w : ℚ) ≤ (x + x / 2 ^ 53) * (c - 1) :=
      mul_le_mul_of_nonneg_left (by linarith) (by positivity)
    have s3 : (x + x / 2 ^ 53) * ((c : ℚ) - 1) ≤ x * c := by
      have : x * ((c : ℚ) - 1) / 2 ^ 53 ≤ x := by
        rw [div_le_iff₀ (by positivity)]
        have : (c : ℚ) - 1 ≤ 2 ^ 53 := by linarith
        exact mul_le_mul_of_nonneg_left this hx0
      have e : (x + x / 2 ^ 53) * ((c : ℚ) - 1) = x * c - x + x * ((c : ℚ) - 1) / 2 ^ 53 := by
        ring
      rw [e]
      linarith
    linarith
  have hprod0 : 0 ≤ fl doublePrec x * (w : ℚ) := mul_nonneg hfr0 (Nat.cast_nonneg w)
  have h1 : fl doublePrec (fl doublePrec x * (w : ℚ)) ≤ n := by
    have := fl_mono doublePrec hp _ _ hprod0 hprod
    rwa [fl_double_nat n hn] at this
  have h2 : (F : ℚ) + fl doublePrec (fl doublePrec x * (w : ℚ)) ≤ ((F + n : Nat) : ℚ) := by
    push_cast
    linarith
  have h3 := fl_mono doublePrec hp _ _
    (add_nonneg (Nat.cast_nonneg F) (fl_nonneg _ _)) h2
  rw [fl_double_nat (F + n) hFn] at h3
  exact_mod_cast h3

theorem boundary_ge (F n c w : Nat) (hF : F ≤ 2 ^ 53) : (F : ℚ) ≤ boundary F n c w := by
  have h := boundary_mono F n c 0 w (Nat.zero_le w)
  rwa [boundary_zero F n c hF] at h

/-! ## Chains of boundaries -/

theorem chain_mono (B : Nat → Nat) (c : Nat) (h : ∀ w, w < c → B w ≤ B (w + 1)) :
    ∀ v u, u ≤ v → v ≤ c → B u ≤ B v := by
  intro v
  induction v with
  | zero =>
    intro u hu _
    have : u = 0 := by omega
    subst this
    exact le_refl _
  | succ v ih =>
    intro u hu hv
    rcases Nat.lt_or_ge u (v + 1) with h1 | h1
    · exact le_trans (ih u (by omega) (by omega)) (h v (by omega))
    · have : u = v + 1 := by omega
      subst this
      exact le_refl _

theorem chain_cover (B : Nat → Nat) : ∀ c i, B 0 ≤ i → i < B c →
    ∃ w, w < c ∧ B w ≤ i ∧ i < B (w + 1) := by
  intro c
  induction c with
  | zero =>
    intro i h1 h2
    omega
  | succ c ih =>
    intro i h1 h2
    rcases Nat.lt_or_ge i (B c) with h3 | h3
    · obtain ⟨w, hw, hw1, hw2⟩ := ih i h1 h3
      exact ⟨w, by omega, hw1, hw2⟩
    · exact ⟨c, by omega, h3, h2⟩

theorem chain_unique (B : Nat → Nat) (c : Nat) (h : ∀ w, w < c → B w ≤ B (w + 1))
    (w w' i : Nat) (hw : w < c) (hw' : w' < c) (h1 : B w ≤ i ∧ i < B (w + 1))
    (h2 : B w' ≤ i ∧ i < B (w' + 1)) : w = w' := by
  rcases Nat.lt_trichotomy w w' with c1 | c1 | c1
  · have := chain_mono B c h w' (w + 1) (by omega) (by omega)
    omega
  · exact c1
  · have := chain_mono B c h w (w' + 1) (by omega) (by omega)
    omega

/-! ## The sub-ranges when every index is exactly representable -/

theorem range_eq (F L : Nat) (hFL : F ≤ L) (hL : L < SizeValueModulus) :
    (L + SizeValueModulus - F) % SizeValueModulus = L - F := by
  have e : L + SizeValueModulus - F = (L - F) + SizeValueModulus := by omega
  rw [e, Nat.add_mod_right]
  exact Nat.mod_eq_of_lt (by omega)

theorem last_id_eq (c : Nat) (hc : 1 ≤ c) (hc2 : c < ThreadIdModulus) :
    (c + ThreadIdModulus - 1) % ThreadIdModulus = c - 1 := by
  have e : c + ThreadIdModulus - 1 = (c - 1) + ThreadIdModulus := by omega
  rw [e, Nat.add_mod_right]
  exact Nat.mod_eq_of_lt (by omega)

theorem two_pow_53_lt : (2 : Nat) ^ 53 < SizeValueModulus := by decide

theorem two_pow_32_le : ThreadIdModulus ≤ 2 ^ 53 := by decide

theorem floor_boundary_bounds (F L c w : Nat) (hFL : F ≤ L) (hL : L ≤ 2 ^ 53)
    (hc2 : c < ThreadIdModulus) (hw : w < c) :
    F ≤ ⌊boundary F (L - F) c w⌋₊ ∧ ⌊boundary F (L - F) c w⌋₊ ≤ L := by
  have h32 := two_pow_32_le
  constructor
  · apply Nat.le_floor
    exact boundary_ge F (L - F) c w (by omega)
  · have h := boundary_le F (L - F) c w (by omega) (by omega) (by omega)
    have h0 : 0 ≤ boundary F (L - F) c w := fl_nonneg _ _
    have e : ((F : ℚ) + ((L - F : Nat) : ℚ)) = ((L : Nat) : ℚ) := by
      have : F + (L - F) = L := by omega
      exact_mod_cast this
    rw [e] at h
    exact Nat.floor_le_of_le h

theorem subRange_fst_eq (F L c w : Nat) (hFL : F ≤ L) (hL : L ≤ 2 ^ 53) (hc : 1 ≤ c)
    (hc2 : c < ThreadIdModulus) (hw : w < c) :
    (ParallelizeArrayHelper.subRange F L w c).1 = ⌊boundary F (L - F) c w⌋₊ := by
  have h53 := two_pow_53_lt
  rw [subRange_fst F L w c hc, range_eq F L hFL (by omega)]
  have := (floor_boundary_bounds F L c w hFL hL hc2 hw).2
  exact if_pos (by omega)

theorem subRange_snd_eq (F L c w : Nat) (hFL : F ≤ L) (hL : L ≤ 2 ^ 53) (hc : 1 ≤ c)
    (hc2 : c < ThreadIdModulus) (hw : w < c) :
    (ParallelizeArrayHelper.subRange F L w c).2 =
      if w + 1 = c then L else ⌊boundary F (L - F) c (w + 1)⌋₊ := by
  have hlast := last_id_eq c hc hc2
  split_ifs with h
  · exact subRange_snd_of_eq F L w c (by omega)
  · rw [subRange_snd_of_ne F L w c (by omega)]
    have e : (w + 1) % ThreadIdModulus = w + 1 := Nat.mod_eq_of_lt (by omega)
    rw [e]
    exact subRange_fst_eq F L c (w + 1) hFL hL hc hc2 (by omega)

/-- The boundary sequence of a dispatch: worker `w` works on `[chainOf w, chainOf (w + 1))`. -/
theorem subRange_chain (F L c : Nat) (hFL : F ≤ L) (hL : L ≤ 2 ^ 53) (hc : 1 ≤ c)
    (hc2 : c < ThreadIdModulus) :
    ∃ B : Nat → Nat, B 0 = F ∧ B c = L ∧ (∀ w, w < c → B w ≤ B (w + 1)) ∧
      ∀ w, w < c → ParallelizeArrayHelper.subRange F L w c = (B w, B (w + 1)) := by
  refine ⟨fun w => if w < c then ⌊boundary F (L - F) c w⌋₊ else L, ?_, ?_, ?_, ?_⟩
  · simp only []
    rw [if_pos (by omega), boundary_zero F (L - F) c (by omega)]
    exact Nat.floor_natCast F
  · simp
  · intro w hw
    simp only []
    rw [if_pos hw]
    split_ifs with h
    · apply Nat.floor_mono
      exact boundary_mono F (L - F) c w (w + 1) (by omega)
    · exact (floor_boundary_bounds F L c w hFL hL hc2 hw).2
  · intro w hw
    simp only []
    rw [if_pos hw]
    apply Prod.ext
    · exact subRange_fst_eq F L c w hFL hL hc hc2 hw
    · rw [subRange_snd_eq F L c w hFL hL hc hc2 hw]
      simp only []
      by_cases h : w + 1 = c
      · rw [if_pos h, if_neg (by omega)]
      · rw [if_neg h, if_pos (by omega)]

/-! ## The code's boundaries against the exact formula -/

theorem partitionRange_fst (F L w c : Nat) :
    (partitionRange F L w c).1 = F + (L - F) * w / c := by
  unfold partitionRange
  simp only []
  congr 1
  have e : (((L - F : Nat) : ℚ) / (c : ℚ)) * (w : ℚ) = (((L - F) * w : Nat) : ℚ) / (c : ℚ) := by
    push_cast
    ring
  rw [e, Nat.floor_div_eq_div]

theorem partitionRange_snd (F L w c : Nat) :
    (partitionRange F L w c).2 = if w + 1 = c then L else F + (L - F) * (w + 1) / c := by
  unfold partitionRange
  simp only []
  split_ifs with h
  · rfl
  · congr 1
    have e : (((L - F : Nat) : ℚ) / (c : ℚ)) * ((w : ℚ) + 1) =
        (((L - F) * (w + 1) : Nat) : ℚ) / (c : ℚ) := by
      push_cast
      ring
    rw [e, Nat.floor_div_eq_div]

theorem boundary_exact (F n c w k : Nat) (hFn : F + n ≤ 2 ^ 53) (hc : 1 ≤ c) (hc2 : c ≤ 2 ^ 53)
    (hw : w ≤ c) (hk : n = c * k) : boundary F n c w = ((F + k * w : Nat) : ℚ) := by
  have hkw : k * w ≤ n := by
    rw [hk, Nat.mul_comm c k]
    exact Nat.mul_le_mul_left k hw
  have hk2 : k ≤ n := by
    rw [hk]
    exact Nat.le_mul_of_pos_left k hc
  unfold boundary
  rw [fl_double_nat F (by omega), fl_double_nat n (by omega), fl_double_nat c hc2,
    fl_double_nat w (by omega)]
  have hcq : (c : ℚ) ≠ 0 := by
    have : 0 < c := hc
    exact_mod_cast this.ne'
  have e1 : (n : ℚ) / (c : ℚ) = (k : ℚ) := by
    rw [hk]
    push_cast
    field_simp
  rw [e1, fl_double_nat k (by omega)]
  have e2 : (k : ℚ) * (w : ℚ) = ((k * w : Nat) : ℚ) := by push_cast; ring
  rw [e2, fl_double_nat (k * w) (by omega)]
  have e3 : (F : ℚ) + ((k * w : Nat) : ℚ) = ((F + k * w : Nat) : ℚ) := by push_cast; ring
  rw [e3, fl_double_nat (F + k * w) (by omega)]

theorem fl_double_bounds (x : ℚ) (hx : 0 ≤ x) :
    x - x / 2 ^ 53 ≤ fl doublePrec x ∧ fl doublePrec x ≤ x + x / 2 ^ 53 := by
  have h := fl_err doublePrec doublePrec_pos x hx
  rw [abs_le] at h
  simp only [doublePrec] at h ⊢
  constructor <;> linarith [h.1, h.2]

theorem boundary_near (F n c w : Nat) (hFn : F + n ≤ 2 ^ 51) (hc : 1 ≤ c) (hc2 : c ≤ 2 ^ 53)
    (hw : w ≤ c) :
    (F : ℚ) + (n : ℚ) * w / c - 1 < boundary F n c w ∧
      boundary F n c w < (F : ℚ) + (n : ℚ) * w / c + 1 := by
  have hcq : (0 : ℚ) < c := by
    have : 0 < c := hc
    exact_mod_cast this
  have hwq : (w : ℚ) ≤ c := by exact_mod_cast hw
  have hw0 : (0 : ℚ) ≤ w := Nat.cast_nonneg w
  have hn0 : (0 : ℚ) ≤ n := Nat.cast_nonneg n
  have hF0 : (0 : ℚ) ≤ F := Nat.cast_nonneg F
  have hFnq : (F : ℚ) + n ≤ 2 ^ 51 := by exact_mod_cast hFn
  unfold boundary
  rw [fl_double_nat F (by omega), fl_double_nat n (by omega), fl_double_nat c hc2,
    fl_double_nat w (by omega)]
  set x : ℚ := (n : ℚ) / c with hx
  have hx0 : 0 ≤ x := div_nonneg hn0 hcq.le
  set q : ℚ := (n : ℚ) * w / c with hq
  have hqx : q = x * w := by rw [hq, hx]; ring
  have hq0 : 0 ≤ q := by rw [hqx]; exact mul_nonneg hx0 hw0
  have hqn : q ≤ n := by
    rw [hq, div_le_iff₀ hcq]
    exact mul_le_mul_of_nonneg_left hwq hn0
  obtain ⟨a1, a2⟩ := fl_double_bounds x hx0
  set fr : ℚ := fl doublePrec x with hfr
  have hfr0 : 0 ≤ fr := fl_nonneg _ _
  have y0 : 0 ≤ fr * w := mul_nonneg hfr0 hw0
  have y1 : q - q / 2 ^ 53 ≤ fr * w := by
    have := mul_le_mul_of_nonneg_right a1 hw0
    have e : (x - x / 2 ^ 53) * (w : ℚ) = q - q / 2 ^ 53 := by rw [hqx]; ring
    linarith
  have y2 : fr * w ≤ q + q / 2 ^ 53 := by
    have := mul_le_mul_of_nonneg_right a2 hw0
    have e : (x + x / 2 ^ 53) * (w : ℚ) = q + q / 2 ^ 53 := by rw [hqx]; ring
    linarith
  obtain ⟨b1, b2⟩ := fl_double_bounds (fr * w) y0
  set p : ℚ := fl doublePrec (fr * w) with hp
  have hp0 : 0 ≤ p := fl_nonneg _ _
  obtain ⟨c1, c2⟩ := fl_double_bounds ((F : ℚ) + p) (add_nonneg hF0 hp0)
  constructor
  · linarith
  · linarith

theorem floor_near (s : ℚ) (hs : 0 ≤ s) (F n w c : Nat) (hc : 0 < c)
    (h1 : (F : ℚ) + (n : ℚ) * w / c - 1 < s) (h2 : s < (F : ℚ) + (n : ℚ) * w / c + 1) :
    ⌊s⌋₊ ≤ F + n * w / c + 1 ∧ F + n * w / c ≤ ⌊s⌋₊ + 1 := by
  have hcq : (0 : ℚ) < c := by exact_mod_cast hc
  have e : (n : ℚ) * w / c = ((n * w : Nat) : ℚ) / c := by push_cast; ring
  rw [e] at h1 h2
  have f1 : ((n * w / c : Nat) : ℚ) ≤ ((n * w : Nat) : ℚ) / c := Nat.cast_div_le
  have f2 : ((n * w : Nat) : ℚ) / c < ((n * w / c : Nat) : ℚ) + 1 := by
    rw [div_lt_iff₀ hcq]
    have h' : n * w < (n * w / c + 1) * c := by
      rw [Nat.add_mul, Nat.one_mul]
      exact Nat.lt_div_mul_add hc
    exact_mod_cast h'
  have g1 : (⌊s⌋₊ : ℚ) ≤ s := Nat.floor_le hs
  have g2 : s < (⌊s⌋₊ : ℚ) + 1 := Nat.lt_floor_add_one s
  constructor
  · have : (⌊s⌋₊ : ℚ) < ((F + n * w / c + 2 : Nat) : ℚ) := by
      push_cast
      linarith
    have : ⌊s⌋₊ < F + n * w / c + 2 := by exact_mod_cast this
    omega
  · have : ((F + n * w / c : Nat) : ℚ) < ((⌊s⌋₊ + 2 : Nat) : ℚ) := by
      push_cast
      linarith
    have : F + n * w / c < ⌊s⌋₊ + 2 := by exact_mod_cast this
    omega

/-! ## Recorded calls -/

theorem arrayCalls_append (xs ys : List Event) :
    arrayCalls (xs ++ ys) = arrayCalls xs ++ arrayCalls ys := by
  induction xs with
  | nil => rfl
  | cons e es ih =>
    cases e <;> simp [arrayCalls, ih]

theorem regionCalls_append (xs ys : List Event) :
    regionCalls (xs ++ ys) = regionCalls xs ++ regionCalls ys := by
  induction xs with
  | nil => rfl
  | cons e es ih =>
    cases e <;> simp [regionCalls, ih]

/-! ## The loop of `ParallelizeArrayHelper` -/

theorem countElement_calls (ac : ArrayCallback) (thread range : Nat) (w : World) :
    arrayCalls (ParallelizeArrayHelper.countElement ac thread range w).events =
        arrayCalls w.events ∧
      regionCalls (ParallelizeArrayHelper.countElement ac thread range w).events =
        regionCalls w.events ∧
      (ParallelizeArrayHelper.countElement ac thread range w).abortGenerateData =
        w.abortGenerateData := by
  unfold ParallelizeArrayHelper.countElement
  rcases ac.filter with _ | f
  · exact ⟨rfl, rfl, rfl⟩
  · simp only []
    split_ifs
    · simp [World.log, arrayCalls_append, regionCalls_append, arrayCalls, regionCalls]
    · exact ⟨rfl, rfl, rfl⟩

theorem afterArrayCall_calls (w : World) (i : Nat) (r : FunctorResult) :
    arrayCalls (w.afterArrayCall i r).events = arrayCalls w.events ++ [i] ∧
      regionCalls (w.afterArrayCall i r).events = regionCalls w.events ∧
      (w.afterArrayCall i r).abortGenerateData = (w.abortGenerateData || r.abortRequested) := by
  simp [World.afterArrayCall, World.log, arrayCalls_append, regionCalls_append, arrayCalls,
    regionCalls]

/-- The world after one fault-free iteration of the loop on index `i`. -/
theorem loop_succ_ok (ac : ArrayCallback) (thread range count i : Nat) (w : World)
    (hr : (ac.functor i).raised = none) :
    ∃ w2 : World,
      ParallelizeArrayHelper.loop ac thread range (count + 1) i w =
        ParallelizeArrayHelper.loop ac thread range count (i + 1) w2 ∧
      arrayCalls w2.events = arrayCalls w.events ++ [i] ∧
      regionCalls w2.events = regionCalls w.events ∧
      w2.abortGenerateData = (w.abortGenerateData || (ac.functor i).abortRequested) := by
  refine ⟨ParallelizeArrayHelper.countElement ac thread range
    (w.afterArrayCall i (ac.functor i)), ?_, ?_, ?_, ?_⟩
  · simp only [ParallelizeArrayHelper.loop, hr]
  · rw [(countElement_calls ac thread range _).1, (afterArrayCall_calls w i _).1]
  · rw [(countElement_calls ac thread range _).2.1, (afterArrayCall_calls w i _).2.1]
  · rw [(countElement_calls ac thread range _).2.2, (afterArrayCall_calls w i _).2.2]

theorem loop_ok (ac : ArrayCallback) (thread range : Nat) : ∀ (count i : Nat) (w : World),
    (∀ j, i ≤ j → j < i + count → (ac.functor j).raised = none) →
    (∀ j, i ≤ j → j < i + count → (ac.functor j).abortRequested = false) →
    (ParallelizeArrayHelper.loop ac thread range count i w).2 = none ∧
    arrayCalls (ParallelizeArrayHelper.loop ac thread range count i w).1.events =
      arrayCalls w.events ++ List.range' i count ∧
    (ParallelizeArrayHelper.loop ac thread range count i w).1.abortGenerateData =
      w.abortGenerateData := by
  intro count
  induction count with
  | zero =>
    intro i w _ _
    simp [ParallelizeArrayHelper.loop]
  | succ n ih =>
    intro i w h1 h2
    obtain ⟨w2, e, c2, -, a2⟩ := loop_succ_ok ac thread range n i w (h1 i (le_refl _) (by omega))
    rw [e]
    obtain ⟨r1, r2, r3⟩ := ih (i + 1) w2 (fun j hj hj' => h1 j (by omega) (by omega))
      (fun j hj hj' => h2 j (by omega) (by omega))
    refine ⟨r1, ?_, ?_⟩
    · rw [r2, c2, List.append_assoc]
      rfl
    · rw [r3, a2, h2 i (le_refl _) (by omega)]
      simp

theorem loop_fault (ac : ArrayCallback) (thread range : Nat) (k : Nat) (t : Thrown)
    (hk : (ac.functor k).raised = some t) : ∀ (count i : Nat) (w : World),
    i ≤ k → k < i + count →
    (∀ j, i ≤ j → j < k → (ac.functor j).raised = none) →
    (∀ j, i ≤ j → j ≤ k → (ac.functor j).abortRequested = false) →
    (ParallelizeArrayHelper.loop ac thread range count i w).2 = some t ∧
    arrayCalls (ParallelizeArrayHelper.loop ac thread range count i w).1.events =
      arrayCalls w.events ++ List.range' i (k + 1 - i) ∧
    (ParallelizeArrayHelper.loop ac thread range count i w).1.abortGenerateData =
      w.abortGenerateData := by
  intro count
  induction count with
  | zero =>
    intro i w h1 h2
    omega
  | succ n ih =>
    intro i w h1 h2 h3 h4
    rcases Nat.lt_or_ge i k with c | c
    · obtain ⟨w2, e, c2, -, a2⟩ := loop_succ_ok ac thread range n i w (h3 i (le_refl _) c)
      rw [e]
      obtain ⟨r1, r2, r3⟩ := ih (i + 1) w2 (by omega) (by omega)
        (fun j hj hj' => h3 j (by omega) hj') (fun j hj hj' => h4 j (by omega) hj')
      refine ⟨r1, ?_, ?_⟩
      · rw [r2, c2, List.append_assoc]
        have : k + 1 - i = (k + 1 - (i + 1)) + 1 := by omega
        rw [this]
        rfl
      · rw [r3, a2, h4 i (le_refl _) (by omega)]
        simp
    · have hik : i = k := by omega
      subst hik
      have ha := h4 i (le_refl _) (le_refl _)
      simp only [ParallelizeArrayHelper.loop, hk]
      refine ⟨trivial, ?_, ?_⟩
      · have : i + 1 - i = 1 := by omega
        rw [this, (afterArrayCall_calls w i _).1]
        rfl
      · rw [(afterArrayCall_calls w i _).2.2, ha]
        simp

theorem helper_eq_loop (ac : ArrayCallback) (info : ThreadInfoStruct) (w : World)
    (h : w.abortGenerateData = false) :
    ParallelizeArrayHelper ac info w =
      ParallelizeArrayHelper.loop ac info.thread
        ((ac.lastIndexPlus1 + SizeValueModulus - ac.firstIndex) % SizeValueModulus)
        ((ParallelizeArrayHelper.subRange ac.firstIndex ac.lastIndexPlus1 info.ThreadID
            info.NumberOfThreads).2 -
          (ParallelizeArrayHelper.subRange ac.firstIndex ac.lastIndexPlus1 info.ThreadID
            info.NumberOfThreads).1)
        (ParallelizeArrayHelper.subRange ac.firstIndex ac.lastIndexPlus1 info.ThreadID
          info.NumberOfThreads).1 w := by
  unfold ParallelizeArrayHelper
  rcases hf : ac.filter with _ | f <;> simp [h]

theorem helper_abort (ac : ArrayCallback) (info : ThreadInfoStruct) (w : World)
    (f : ProcessObject) (hf : ac.filter = some f) (h : w.abortGenerateData = true) :
    ParallelizeArrayHelper ac info w = (w, some (abortException f)) := by
  unfold ParallelizeArrayHelper
  simp [hf, h]

/-! ## Running the workers of an array dispatch -/

theorem range'_glue (a b c : Nat) (hab : a ≤ b) (hbc : b ≤ c) :
    List.range' a (b - a) ++ List.range' b (c - b) = List.range' a (c - a) := by
  have h := List.range'_append_1 a (b - a) (c - b)
  have e1 : a + (b - a) = b := by omega
  have e2 : c - b + (b - a) = c - a := by omega
  rw [e1, e2] at h
  exact h

theorem runArrayHelpers_ok (ac : ArrayCallback) (c : Nat) (threadOf : Nat → Nat)
    (B : Nat → Nat) (hmono : ∀ w, w < c → B w ≤ B (w + 1))
    (hsub : ∀ w, w < c →
      ParallelizeArrayHelper.subRange ac.firstIndex ac.lastIndexPlus1 w c = (B w, B (w + 1)))
    (hf : ∀ j, (ac.functor j).raised = none)
    (ha : ∀ j, (ac.functor j).abortRequested = false) :
    ∀ (m k : Nat) (w : World), k + m ≤ c → w.abortGenerateData = false →
      arrayCalls (runArrayHelpers ac c threadOf (List.range' k m) w).events =
        arrayCalls w.events ++ List.range' (B k) (B (k + m) - B k) ∧
      (runArrayHelpers ac c threadOf (List.range' k m) w).abortGenerateData = false := by
  intro m
  induction m with
  | zero =>
    intro k w _ hw
    simp [runArrayHelpers, hw]
  | succ m ih =>
    intro k w hk hw
    have e : List.range' k (m + 1) = k :: List.range' (k + 1) m := rfl
    rw [e]
    simp only [runArrayHelpers]
    rw [helper_eq_loop ac _ w hw]
    simp only []
    rw [hsub k (by omega)]
    simp only []
    obtain ⟨-, r2, r3⟩ := loop_ok ac (threadOf k)
      ((ac.lastIndexPlus1 + SizeValueModulus - ac.firstIndex) % SizeValueModulus)
      (B (k + 1) - B k) (B k) w (fun j _ _ => hf j) (fun j _ _ => ha j)
    obtain ⟨s1, s2⟩ := ih (k + 1) _ (by omega) (r3.trans hw)
    refine ⟨?_, s2⟩
    rw [s1, r2, List.append_assoc]
    have m1 := hmono k (by omega)
    have m2 := chain_mono B c hmono (k + 1 + m) (k + 1) (by omega) (by omega)
    have e2 : k + (m + 1) = k + 1 + m := by omega
    rw [e2, range'_glue (B k) (B (k + 1)) (B (k + 1 + m)) m1 m2]

/-! ## The failure boundary -/

theorem proxy_none (f : ThreadFunction) (info : ThreadInfoStruct) (w w1 : World)
    (h : f info w = (w1, none)) :
    SingleMethodProxy f info w =
      (w1, { info with ThreadExitCode := ThreadExitCodeType.SUCCESS }) := by
  unfold SingleMethodProxy
  rw [h]

theorem proxy_some (f : ThreadFunction) (info : ThreadInfoStruct) (w w1 : World) (t : Thrown)
    (h : f info w = (w1, some t)) :
    SingleMethodProxy f info w = (w1, { info with ThreadExitCode := exitCodeOfThrown t }) := by
  unfold SingleMethodProxy
  rw [h]

theorem find_first_failure (E : ThreadExitCodeType) (hE : E ≠ ThreadExitCodeType.SUCCESS)
    (w0 : Nat) : ∀ ids : List Nat, w0 ∈ ids →
    (ids.map (fun id => if id = w0 then E else ThreadExitCodeType.SUCCESS)).find?
      (fun c => c ≠ ThreadExitCodeType.SUCCESS) = some E := by
  intro ids
  induction ids with
  | nil => intro h; simp at h
  | cons a as ih =>
    intro h
    by_cases ha : a = w0
    · simp only [List.map_cons, ha, if_true, List.find?]
      simp [hE]
    · have : w0 ∈ as := by
        rcases List.mem_cons.1 h with h1 | h1
        · exact absurd h1.symm ha
        · exact h1
      simp only [List.map_cons, if_neg ha, List.find?]
      simp only [ne_eq, not_true_eq_false, decide_False]
      exact ih this

/-- The calls a worker makes when the functor faults at the single index `k`, which lies in
the sub-range of worker `w0` only. -/
theorem runWorkers_one_fault (ac : ArrayCallback) (c : Nat) (threadOf : Nat → Nat)
    (k w0 : Nat) (t : Thrown)
    (hk : (ac.functor k).raised = some t)
    (hf : ∀ j, j ≠ k → (ac.functor j).raised = none)
    (ha : ∀ j, (ac.functor j).abortRequested = false)
    (hin : (ParallelizeArrayHelper.subRange ac.firstIndex ac.lastIndexPlus1 w0 c).1 ≤ k ∧
      k < (ParallelizeArrayHelper.subRange ac.firstIndex ac.lastIndexPlus1 w0 c).2)
    (hout : ∀ w, w < c → w ≠ w0 →
      ¬ ((ParallelizeArrayHelper.subRange ac.firstIndex ac.lastIndexPlus1 w c).1 ≤ k ∧
        k < (ParallelizeArrayHelper.subRange ac.firstIndex ac.lastIndexPlus1 w c).2)) :
    ∀ (ids : List Nat) (w : World), (∀ id, id ∈ ids → id < c) → w.abortGenerateData = false →
      (runWorkers (ParallelizeArrayHelper ac) c threadOf ids w).2 =
        ids.map (fun id =>
          if id = w0 then exitCodeOfThrown t else ThreadExitCodeType.SUCCESS) ∧
      arrayCalls (runWorkers (ParallelizeArrayHelper ac) c threadOf ids w).1.events =
        arrayCalls w.events ++
          ids.flatMap (fun id =>
            if id = w0 then
              List.range' (ParallelizeArrayHelper.subRange ac.firstIndex ac.lastIndexPlus1 id c).1
                (k + 1 - (ParallelizeArrayHelper.subRange ac.firstIndex ac.lastIndexPlus1 id c).1)
            else
              List.range' (ParallelizeArrayHelper.subRange ac.firstIndex ac.lastIndexPlus1 id c).1
                ((ParallelizeArrayHelper.subRange ac.firstIndex ac.lastIndexPlus1 id c).2 -
                  (ParallelizeArrayHelper.subRange ac.firstIndex ac.lastIndexPlus1 id c).1)) ∧
      (runWorkers (ParallelizeArrayHelper ac) c threadOf ids w).1.abortGenerateData = false := by
  intro ids
  induction ids with
  | nil =>
    intro w _ hw
    simp [runWorkers, hw]
  | cons id ids ih =>
    intro w hids hw
    have hid_lt : id < c := hids id (List.mem_cons_self _ _)
    have hids' : ∀ x, x ∈ ids → x < c := fun x hx => hids x (List.mem_cons_of_mem _ hx)
    simp only [runWorkers, List.map_cons, List.flatMap_cons]
    have hl := helper_eq_loop ac
      { ThreadID := id, NumberOfThreads := c, thread := threadOf id,
        ThreadExitCode := ThreadExitCodeType.SUCCESS } w hw
    simp only [] at hl
    by_cases hid : id = w0
    · subst hid
      obtain ⟨r1, r2, r3⟩ := loop_fault ac (threadOf id)
        ((ac.lastIndexPlus1 + SizeValueModulus - ac.firstIndex) % SizeValueModulus) k t hk
        ((ParallelizeArrayHelper.subRange ac.firstIndex ac.lastIndexPlus1 id c).2 -
          (ParallelizeArrayHelper.subRange ac.firstIndex ac.lastIndexPlus1 id c).1)
        (ParallelizeArrayHelper.subRange ac.firstIndex ac.lastIndexPlus1 id c).1 w
        hin.1 (by omega) (fun j _ hj => hf j (by omega)) (fun j _ _ => ha j)
      rw [← hl] at r1 r2 r3
      have hp := proxy_some (ParallelizeArrayHelper ac)
        { ThreadID := id, NumberOfThreads := c, thread := threadOf id,
          ThreadExitCode := ThreadExitCodeType.SUCCESS } w _ t (Prod.ext rfl r1)
      rw [hp]
      simp only [if_true]
      obtain ⟨s1, s2, s3⟩ := ih _ hids' (r3.trans hw)
      refine ⟨by rw [s1], ?_, s3⟩
      rw [s2, r2, List.append_assoc]
    · obtain ⟨r1, r2, r3⟩ := loop_ok ac (threadOf id)
        ((ac.lastIndexPlus1 + SizeValueModulus - ac.firstIndex) % SizeValueModulus)
        ((ParallelizeArrayHelper.subRange ac.firstIndex ac.lastIndexPlus1 id c).2 -
          (ParallelizeArrayHelper.subRange ac.firstIndex ac.lastIndexPlus1 id c).1)
        (ParallelizeArrayHelper.subRange ac.firstIndex ac.lastIndexPlus1 id c).1 w
        (fun j h1 h2 => hf j (by
          intro hjk
          subst hjk
          exact hout id hid_lt hid ⟨h1, by omega⟩))
        (fun j _ _ => ha j)
      rw [← hl] at r1 r2 r3
      have hp := proxy_none (ParallelizeArrayHelper ac)
        { ThreadID := id, NumberOfThreads := c, thread := threadOf id,
          ThreadExitCode := ThreadExitCodeType.SUCCESS } w _ (Prod.ext rfl r1)
      rw [hp]
      simp only [if_neg hid]
      obtain ⟨s1, s2, s3⟩ := ih _ hids' (r3.trans hw)
      refine ⟨by rw [s1], ?_, s3⟩
      rw [s2, r2, List.append_assoc]

/-! ## Dispatch with the abort flag already set -/

theorem regionHelper_abort (GetSplit : RegionSplitter) (rnc : RegionAndCallback)
    (info : ThreadInfoStruct) (w : World) (f : ProcessObject) (hf : rnc.filter = some f)
    (h : w.abortGenerateData = true) :
    ParallelizeImageRegionHelper GetSplit rnc info w = (w, some (abortException f)) := by
  unfold ParallelizeImageRegionHelper
  simp [hf, h]

theorem startDispatch_calls (filter : Option ProcessObject) (w : World) :
    arrayCalls (startDispatch filter w).events = arrayCalls w.events ∧
      regionCalls (startDispatch filter w).events = regionCalls w.events ∧
      (startDispatch filter w).abortGenerateData = w.abortGenerateData := by
  cases filter <;>
    simp [startDispatch, World.log, arrayCalls_append, regionCalls_append, arrayCalls,
      regionCalls]

theorem finishDispatch_calls (filter : Option ProcessObject) (w : World) :
    arrayCalls (finishDispatch filter w).1.events = arrayCalls w.events ∧
      regionCalls (finishDispatch filter w).1.events = regionCalls w.events := by
  unfold finishDispatch
  cases filter with
  | none => exact ⟨rfl, rfl⟩
  | some f =>
    simp only []
    split_ifs <;>
      simp [World.log, arrayCalls_append, regionCalls_append, arrayCalls, regionCalls]

theorem resetProgress_calls (w : World) :
    arrayCalls w.resetProgress.events = arrayCalls w.events ∧
      regionCalls w.resetProgress.events = regionCalls w.events ∧
      w.resetProgress.abortGenerateData = w.abortGenerateData :=
  ⟨rfl, rfl, rfl⟩

theorem log_other_calls (w : World) (e : Event)
    (h1 : ∀ i, e ≠ Event.arrayCall i) (h2 : ∀ i s, e ≠ Event.regionCall i s) :
    arrayCalls (w.log e).events = arrayCalls w.events ∧
      regionCalls (w.log e).events = regionCalls w.events ∧
      (w.log e).abortGenerateData = w.abortGenerateData := by
  cases e with
  | arrayCall i => exact absurd rfl (h1 i)
  | regionCall i s => exact absurd rfl (h2 i s)
  | updateProgress v =>
    simp [World.log, arrayCalls_append, regionCalls_append, arrayCalls, regionCalls]
  | singleMethodExecute =>
    simp [World.log, arrayCalls_append, regionCalls_append, arrayCalls, regionCalls]

/-! ## The branches of `ParallelizeArray` and `ParallelizeImageRegion` -/

theorem ParallelizeArray_dispatch_none
    (execute : ThreadFunction → World → World × Option Thrown)
    (first last : Nat) (aFunc : Nat → FunctorResult) (filter : Option ProcessObject)
    (thread : Nat) (w w1 : World) (h : (first + 1) % SizeValueModulus < last)
    (hx : execute (ParallelizeArrayHelper ⟨aFunc, first, last, filter, thread⟩)
      (startDispatch filter w).resetProgress = (w1, none)) :
    ParallelizeArray execute first last aFunc filter thread w = finishDispatch filter w1 := by
  unfold ParallelizeArray
  simp only [if_pos h, hx]

theorem ParallelizeArray_dispatch_some
    (execute : ThreadFunction → World → World × Option Thrown)
    (first last : Nat) (aFunc : Nat → FunctorResult) (filter : Option ProcessObject)
    (thread : Nat) (w w1 : World) (t : Thrown) (h : (first + 1) % SizeValueModulus < last)
    (hx : execute (ParallelizeArrayHelper ⟨aFunc, first, last, filter, thread⟩)
      (startDispatch filter w).resetProgress = (w1, some t)) :
    ParallelizeArray execute first last aFunc filter thread w = (w1, some t) := by
  unfold ParallelizeArray
  simp only [if_pos h, hx]

theorem ParallelizeArray_single_none
    (execute : ThreadFunction → World → World × Option Thrown)
    (first last : Nat) (aFunc : Nat → FunctorResult) (filter : Option ProcessObject)
    (thread : Nat) (w : World) (h : (first + 1) % SizeValueModulus = last)
    (hr : (aFunc first).raised = none) :
    ParallelizeArray execute first last aFunc filter thread w =
      finishDispatch filter ((startDispatch filter w).afterArrayCall first (aFunc first)) := by
  unfold ParallelizeArray
  have hlt : ¬ ((first + 1) % SizeValueModulus < last) := by omega
  simp only [if_neg hlt, if_pos h, hr]

theorem ParallelizeArray_single_some
    (execute : ThreadFunction → World → World × Option Thrown)
    (first last : Nat) (aFunc : Nat → FunctorResult) (filter : Option ProcessObject)
    (thread : Nat) (w : World) (t : Thrown) (h : (first + 1) % SizeValueModulus = last)
    (hr : (aFunc first).raised = some t) :
    ParallelizeArray execute first last aFunc filter thread w =
      ((startDispatch filter w).afterArrayCall first (aFunc first), some t) := by
  unfold ParallelizeArray
  have hlt : ¬ ((first + 1) % SizeValueModulus < last) := by omega
  simp only [if_neg hlt, if_pos h, hr]

theorem ParallelizeArray_empty
    (execute : ThreadFunction → World → World × Option Thrown)
    (first last : Nat) (aFunc : Nat → FunctorResult) (filter : Option ProcessObject)
    (thread : Nat) (w : World) (h1 : ¬ (first + 1) % SizeValueModulus < last)
    (h2 : (first + 1) % SizeValueModulus ≠ last) :
    ParallelizeArray execute first last aFunc filter thread w =
      finishDispatch filter (startDispatch filter w) := by
  unfold ParallelizeArray
  simp only [if_neg h1, if_neg h2]

theorem ParallelizeImageRegion_none
    (execute : ThreadFunction → World → World × Option Thrown) (GetSplit : RegionSplitter)
    (dimension : Nat) (index : List Int) (size : List Nat)
    (funcP : List Int → List Nat → FunctorResult) (filter : Option ProcessObject)
    (thread : Nat) (w w1 : World)
    (hx : execute (ParallelizeImageRegionHelper GetSplit
      ⟨funcP, dimension, index, size, filter, thread,
        (List.range dimension).foldl (fun acc d => (acc * size.getD d 0) % SizeValueModulus) 1⟩)
      (startDispatch filter w).resetProgress = (w1, none)) :
    ParallelizeImageRegion execute GetSplit dimension index size funcP filter thread w =
      finishDispatch filter w1 := by
  unfold ParallelizeImageRegion
  simp only [hx]

theorem ParallelizeImageRegion_some
    (execute : ThreadFunction → World → World × Option Thrown) (GetSplit : RegionSplitter)
    (dimension : Nat) (index : List Int) (size : List Nat)
    (funcP : List Int → List Nat → FunctorResult) (filter : Option ProcessObject)
    (thread : Nat) (w w1 : World) (t : Thrown)
    (hx : execute (ParallelizeImageRegionHelper GetSplit
      ⟨funcP, dimension, index, size, filter, thread,
        (List.range dimension).foldl (fun acc d => (acc * size.getD d 0) % SizeValueModulus) 1⟩)
      (startDispatch filter w).resetProgress = (w1, some t)) :
    ParallelizeImageRegion execute GetSplit dimension index size funcP filter thread w =
      (w1, some t) := by
  unfold ParallelizeImageRegion
  simp only [hx]

/-! ## Claims on the one-dimensional partition -/

/-- C1 (as stated, refuted): with `first = 2^53 + 1`, `lastExclusive = 2^53 + 3` and one
worker, the only sub-range is `[2^53, 2^53 + 3)`: it does not start at `first`, and it holds
the index `2^53`, which is outside `[first, lastExclusive)`. -/
theorem C1_counterexample :
    ParallelizeArrayHelper.subRange (2 ^ 53 + 1) (2 ^ 53 + 3) 0 1 = (2 ^ 53, 2 ^ 53 + 3) ∧
      ¬ (2 ^ 53 + 1 ≤ (ParallelizeArrayHelper.subRange (2 ^ 53 + 1) (2 ^ 53 + 3) 0 1).1) := by
  decide

/-- C1 (amended): for every `workerCount ≥ 1` (a `ThreadIdType` value) and every
`first < lastExclusive ≤ 2^53`, the
sub-ranges of `ParallelizeArrayHelper` for `workerId = 0 .. workerCount - 1` start at
`first`, are contiguous (the end of worker `w` is the start of worker `w + 1`), are not
inverted, cover exactly `[first, lastExclusive)` and are pairwise disjoint; the last
worker ends at `lastExclusive`. -/
theorem C1_subRanges_tile (first lastExclusive workerCount : Nat)
    (hlt : first < lastExclusive) (hrep : lastExclusive ≤ 2 ^ 53)
    (hc : 1 ≤ workerCount) (hty : workerCount < ThreadIdModulus) :
    (ParallelizeArrayHelper.subRange first lastExclusive 0 workerCount).1 = first ∧
    (∀ w, w + 1 < workerCount →
      (ParallelizeArrayHelper.subRange first lastExclusive w workerCount).2 =
        (ParallelizeArrayHelper.subRange first lastExclusive (w + 1) workerCount).1) ∧
    (ParallelizeArrayHelper.subRange first lastExclusive (workerCount - 1) workerCount).2 =
      lastExclusive ∧
    (∀ w, w < workerCount →
      (ParallelizeArrayHelper.subRange first lastExclusive w workerCount).1 ≤
        (ParallelizeArrayHelper.subRange first lastExclusive w workerCount).2) ∧
    (∀ i, (first ≤ i ∧ i < lastExclusive) ↔
      ∃ w, w < workerCount ∧
        (ParallelizeArrayHelper.subRange first lastExclusive w workerCount).1 ≤ i ∧
        i < (ParallelizeArrayHelper.subRange first lastExclusive w workerCount).2) ∧
    (∀ w w' i, w < workerCount → w' < workerCount →
      ((ParallelizeArrayHelper.subRange first lastExclusive w workerCount).1 ≤ i ∧
        i < (ParallelizeArrayHelper.subRange first lastExclusive w workerCount).2) →
      ((ParallelizeArrayHelper.subRange first lastExclusive w' workerCount).1 ≤ i ∧
        i < (ParallelizeArrayHelper.subRange first lastExclusive w' workerCount).2) →
      w = w') := by
  obtain ⟨B, hB0, hBc, hmono, hsub⟩ :=
    subRange_chain first lastExclusive workerCount (Nat.le_of_lt hlt) hrep hc hty
  refine ⟨?_, ?_, ?_, ?_, ?_, ?_⟩
  · rw [hsub 0 (by omega)]
    exact hB0
  · intro w hw
    rw [hsub w (by omega), hsub (w + 1) hw]
  · rw [hsub (workerCount - 1) (by omega)]
    have : workerCount - 1 + 1 = workerCount := by omega
    simp only [this]
    exact hBc
  · intro w hw
    rw [hsub w hw]
    exact hmono w hw
  · intro i
    constructor
    · rintro ⟨h1, h2⟩
      obtain ⟨w, hw, hw1, hw2⟩ := chain_cover B workerCount i (by omega) (by omega)
      exact ⟨w, hw, by rw [hsub w hw]; exact ⟨hw1, hw2⟩⟩
    · rintro ⟨w, hw, hw1, hw2⟩
      rw [hsub w hw] at hw1 hw2
      have m1 := chain_mono B workerCount hmono w 0 (by omega) (by omega)
      have m2 := chain_mono B workerCount hmono workerCount (w + 1) (by omega) (le_refl _)
      simp only [] at hw1 hw2
      omega
  · intro w w' i hw hw' h1 h2
    rw [hsub w hw] at h1
    rw [hsub w' hw'] at h2
    exact chain_unique B workerCount hmono w w' i hw hw' h1 h2

/-- C1 (amended), instance: `[0, 10)` with three workers starts at `0` and ends at `10`. -/
theorem C1_subRanges_tile_witness :
    (ParallelizeArrayHelper.subRange 0 10 0 3).1 = 0 ∧
      (ParallelizeArrayHelper.subRange 0 10 (3 - 1) 3).2 = 10 :=
  ⟨(C1_subRanges_tile 0 10 3 (by decide) (by decide) (by decide) (by decide)).1,
    (C1_subRanges_tile 0 10 3 (by decide) (by decide) (by decide) (by decide)).2.2.1⟩

set_option maxRecDepth 100000 in
/-- C2 (as stated, refuted): over `[0, 30)` with 22 workers, worker 11 starts at index 14,
whereas the stated formula gives `0 + floor((30 / 22) * 11) = 15`: in `double` arithmetic
`(30.0 / 22) * 11` is `15 - 2^-49`.  Reading the formula itself in `double` arithmetic
does not save it: over `[2, 32)` with 22 workers, worker 11 starts at 17, because the sum
`2 + (15 - 2^-49)` rounds up to `17.0` before it is truncated, whereas
`2 + floor(15 - 2^-49) = 16`. -/
theorem C2_counterexample :
    ((ParallelizeArrayHelper.subRange 0 30 11 22).1 = 14 ∧ (partitionRange 0 30 11 22).1 = 15) ∧
    ((ParallelizeArrayHelper.subRange 2 32 11 22).1 = 17 ∧
      (partitionRangeDouble 2 32 11 22).1 = 16) := by
  refine ⟨⟨by decide, ?_⟩, by decide, by decide⟩
  rw [partitionRange_fst]

set_option maxRecDepth 100000 in
/-- C2 (amended): for `first < lastExclusive ≤ 2^53`, `workerCount ≥ 1` and
`workerId < workerCount`, the worker with `workerId = workerCount - 1` ends exactly at
`lastExclusive`; the sub-range equals the stated formula whenever `workerCount` divides
`lastExclusive - first`; and, for `lastExclusive ≤ 2^51`, each end of the sub-range differs
from the stated formula by at most one (the code evaluates the formula in `double`
arithmetic and truncates the rounded sum).  `[0, 10)` with 3 workers is split as
`[0,3)`, `[3,6)`, `[6,10)`. -/
theorem C2_subRange_formula (first lastExclusive workerId workerCount : Nat)
    (hlt : first < lastExclusive) (hrep : lastExclusive ≤ 2 ^ 53)
    (hc : 1 ≤ workerCount) (hty : workerCount < ThreadIdModulus) (hw : workerId < workerCount) :
    (workerId + 1 = workerCount →
      (ParallelizeArrayHelper.subRange first lastExclusive workerId workerCount).2 =
        lastExclusive) ∧
    (workerCount ∣ lastExclusive - first →
      ParallelizeArrayHelper.subRange first lastExclusive workerId workerCount =
        partitionRange first lastExclusive workerId workerCount) ∧
    (lastExclusive ≤ 2 ^ 51 →
      ((ParallelizeArrayHelper.subRange first lastExclusive workerId workerCount).1 ≤
          (partitionRange first lastExclusive workerId workerCount).1 + 1 ∧
        (partitionRange first lastExclusive workerId workerCount).1 ≤
          (ParallelizeArrayHelper.subRange first lastExclusive workerId workerCount).1 + 1) ∧
      ((ParallelizeArrayHelper.subRange first lastExclusive workerId workerCount).2 ≤
          (partitionRange first lastExclusive workerId workerCount).2 + 1 ∧
        (partitionRange first lastExclusive workerId workerCount).2 ≤
          (ParallelizeArrayHelper.subRange first lastExclusive workerId workerCount).2 + 1)) ∧
    (List.range 3).map (fun w => ParallelizeArrayHelper.subRange 0 10 w 3) =
      [(0, 3), (3, 6), (6, 10)] := by
  have hFL : first ≤ lastExclusive := Nat.le_of_lt hlt
  have h32 := two_pow_32_le
  have hfst := subRange_fst_eq first lastExclusive workerCount workerId hFL hrep hc hty hw
  have hsnd := subRange_snd_eq first lastExclusive workerCount workerId hFL hrep hc hty hw
  refine ⟨?_, ?_, ?_, by decide⟩
  · intro h
    rw [hsnd, if_pos h]
  · rintro ⟨k, hk⟩
    have hFn : first + (lastExclusive - first) ≤ 2 ^ 53 := by omega
    have hdiv : ∀ t, (lastExclusive - first) * t / workerCount = k * t := by
      intro t
      rw [hk, Nat.mul_assoc]
      exact Nat.mul_div_cancel_left _ hc
    apply Prod.ext
    · rw [hfst, partitionRange_fst, hdiv,
        boundary_exact first _ workerCount workerId k hFn hc (by omega) (by omega) hk]
      exact Nat.floor_natCast _
    · rw [hsnd, partitionRange_snd]
      split_ifs with h
      · rfl
      · rw [hdiv, boundary_exact first _ workerCount (workerId + 1) k hFn hc (by omega)
          (by omega) hk]
        exact Nat.floor_natCast _
  · intro h51
    have hFn : first + (lastExclusive - first) ≤ 2 ^ 51 := by omega
    constructor
    · rw [hfst, partitionRange_fst]
      obtain ⟨n1, n2⟩ := boundary_near first (lastExclusive - first) workerCount workerId hFn hc
        (by omega) (by omega)
      exact floor_near _ (fl_nonneg _ _) first (lastExclusive - first) workerId workerCount hc
        n1 n2
    · rw [hsnd, partitionRange_snd]
      split_ifs with h
      · omega
      · obtain ⟨n1, n2⟩ := boundary_near first (lastExclusive - first) workerCount
          (workerId + 1) hFn hc (by omega) (by omega)
        exact floor_near _ (fl_nonneg _ _) first (lastExclusive - first) (workerId + 1)
          workerCount hc n1 n2

set_option maxRecDepth 100000 in
/-- C2 (amended), instance: `[0, 30)` with 22 workers, worker 11: the code's start `14` is
within one of the formula's `15`. -/
theorem C2_subRange_formula_witness :
    (ParallelizeArrayHelper.subRange 0 30 11 22).1 ≤ (partitionRange 0 30 11 22).1 + 1 ∧
      (partitionRange 0 30 11 22).1 ≤ (ParallelizeArrayHelper.subRange 0 30 11 22).1 + 1 :=
  ((C2_subRange_formula 0 30 11 22 (by decide) (by decide) (by decide) (by decide)
    (by decide)).2.2.1 (by decide)).1

/-! ## Claims on the array dispatch -/

/-- C3 (as stated, refuted): over `[2^53 + 1, 2^53 + 3)`, a range of two elements, with one
worker, no abort and a callback that never faults, the callback is invoked on
`2^53`, `2^53 + 1`, `2^53 + 2`: the index `2^53` is outside the range. -/
theorem C3_counterexample :
    arrayCalls (runArrayHelpers
      ⟨fun _ => ⟨none, false⟩, 2 ^ 53 + 1, 2 ^ 53 + 3, none, 0⟩ 1 (fun id => id)
      (List.range 1) ⟨false, 0, []⟩).events = [2 ^ 53, 2 ^ 53 + 1, 2 ^ 53 + 2] := by
  decide

/-- C3 (amended): for every range `[first, lastExclusive)` with more than one element and
`lastExclusive ≤ 2^53`, every `workerCount ≥ 1`, with no abort requested and a callback that
does not fault, running `ParallelizeArrayHelper` once for each `workerId` in
`[0, workerCount)` invokes the callback on `first, first + 1, ..., lastExclusive - 1`, each
exactly once, and on no other index. -/
theorem C3_each_index_once (first lastExclusive workerCount : Nat)
    (aFunc : Nat → FunctorResult) (filter : Option ProcessObject) (callingThread : Nat)
    (threadOf : Nat → Nat) (w : World)
    (hmore : first + 1 < lastExclusive) (hrep : lastExclusive ≤ 2 ^ 53)
    (hc : 1 ≤ workerCount) (hty : workerCount < ThreadIdModulus)
    (hok : ∀ i, (aFunc i).raised = none) (hna : ∀ i, (aFunc i).abortRequested = false)
    (hw : w.abortGenerateData = false) :
    arrayCalls (runArrayHelpers ⟨aFunc, first, lastExclusive, filter, callingThread⟩
      workerCount threadOf (List.range workerCount) w).events =
        arrayCalls w.events ++ List.range' first (lastExclusive - first) := by
  obtain ⟨B, hB0, hBc, hmono, hsub⟩ :=
    subRange_chain first lastExclusive workerCount (by omega) hrep hc hty
  have h := (runArrayHelpers_ok ⟨aFunc, first, lastExclusive, filter, callingThread⟩
    workerCount threadOf B hmono hsub hok hna workerCount 0 w (by omega) hw).1
  rw [List.range_eq_range']
  rw [h]
  simp only [Nat.zero_add, hB0, hBc]

set_option maxRecDepth 100000 in
/-- C3 (amended), instance: over `[0, 10)` with 3 workers the visited indices are
`0, ..., 9`, each exactly once. -/
theorem C3_each_index_once_witness :
    arrayCalls (runArrayHelpers ⟨fun _ => ⟨none, false⟩, 0, 10, none, 0⟩ 3 (fun id => id)
      (List.range 3) ⟨false, 0, []⟩).events = [0, 1, 2, 3, 4, 5, 6, 7, 8, 9] :=
  C3_each_index_once 0 10 3 (fun _ => ⟨none, false⟩) none 0 (fun id => id) ⟨false, 0, []⟩
    (by decide) (by decide) (by decide) (by decide) (fun _ => rfl) (fun _ => rfl) rfl

/-- C4 (as stated, refuted): for the empty extent `first = lastExclusive = 2^64 - 1` the
sum `firstIndex + 1` wraps to `0`, the test `firstIndex + 1 < lastIndexPlus1` succeeds and
`ParallelizeArray` hands the work to the executor. -/
theorem C4_counterexample :
    (ParallelizeArray (fun _ w => (w.log Event.singleMethodExecute, none))
      (2 ^ 64 - 1) (2 ^ 64 - 1) (fun _ => ⟨none, false⟩) none 0 ⟨false, 0, []⟩).1.events =
        [Event.singleMethodExecute] := by
  decide

/-- C4 (amended): for every `first < 2^64 - 1` and every `lastExclusive ≤ first + 1`,
`ParallelizeArray` does not use the executor (its result is the same for any two
executors, so neither workers nor the range partitioner run); when
`lastExclusive = first + 1` the callback is invoked exactly once, on index `first`, and
otherwise it is not invoked at all. -/
theorem C4_small_extent_direct
    (execute execute' : ThreadFunction → World → World × Option Thrown)
    (first lastExclusive : Nat) (aFunc : Nat → FunctorResult) (filter : Option ProcessObject)
    (thread : Nat) (w : World)
    (hfirst : first + 1 < SizeValueModulus) (hsmall : lastExclusive ≤ first + 1) :
    ParallelizeArray execute first lastExclusive aFunc filter thread w =
      ParallelizeArray execute' first lastExclusive aFunc filter thread w ∧
    arrayCalls (ParallelizeArray execute first lastExclusive aFunc filter thread w).1.events =
      arrayCalls w.events ++ (if lastExclusive = first + 1 then [first] else []) := by
  have hmod : (first + 1) % SizeValueModulus = first + 1 := Nat.mod_eq_of_lt hfirst
  by_cases h1 : lastExclusive = first + 1
  · have h1' : (first + 1) % SizeValueModulus = lastExclusive := by omega
    rw [if_pos h1]
    rcases hr : (aFunc first).raised with _ | t
    · rw [ParallelizeArray_single_none execute _ _ _ _ _ _ h1' hr,
        ParallelizeArray_single_none execute' _ _ _ _ _ _ h1' hr]
      refine ⟨rfl, ?_⟩
      rw [(finishDispatch_calls _ _).1, (afterArrayCall_calls _ first _).1,
        (startDispatch_calls _ _).1]
    · rw [ParallelizeArray_single_some execute _ _ _ _ _ _ t h1' hr,
        ParallelizeArray_single_some execute' _ _ _ _ _ _ t h1' hr]
      refine ⟨rfl, ?_⟩
      simp only []
      rw [(afterArrayCall_calls _ first _).1, (startDispatch_calls _ _).1]
  · have h2 : ¬ (first + 1) % SizeValueModulus < lastExclusive := by omega
    have h3 : (first + 1) % SizeValueModulus ≠ lastExclusive := by omega
    rw [if_neg h1, ParallelizeArray_empty execute _ _ _ _ _ _ h2 h3,
      ParallelizeArray_empty execute' _ _ _ _ _ _ h2 h3]
    refine ⟨rfl, ?_⟩
    rw [(finishDispatch_calls _ _).1, (startDispatch_calls _ _).1]
    simp

/-- C4 (amended), instance: the one-element extent `[7, 8)` runs the callback once, on
index 7, whatever the executor. -/
theorem C4_small_extent_direct_witness :
    arrayCalls (ParallelizeArray (fun _ w => (w.log Event.singleMethodExecute, none)) 7 8
      (fun _ => ⟨none, false⟩) none 0 ⟨false, 0, []⟩).1.events =
        arrayCalls (World.mk false 0 []).events ++ (if 8 = 7 + 1 then [7] else []) :=
  (C4_small_extent_direct (fun _ w => (w.log Event.singleMethodExecute, none))
    (fun _ w => (w, none)) 7 8 (fun _ => ⟨none, false⟩) none 0 ⟨false, 0, []⟩
    (by decide) (by decide)).2

/-! ## Claims on abort and failure capture -/

/-- C6: `SingleMethodProxy` returns a world and a status, never a fault; the status is
`SUCCESS` when the callback returns normally, `ITK_PROCESS_ABORTED_EXCEPTION` when it raises
`ProcessAborted` (although that is an `ExceptionObject` too), `ITK_EXCEPTION` for any other
`ExceptionObject`, `STD_EXCEPTION` for any other `std::exception` and `UNKNOWN` for
anything else; the rest of the thread record is left as it was. -/
theorem C6_proxy_classifies (threadFunction : ThreadFunction) (info : ThreadInfoStruct)
    (w : World) :
    (SingleMethodProxy threadFunction info w).1 = (threadFunction info w).1 ∧
    (SingleMethodProxy threadFunction info w).2 =
      { info with
        ThreadExitCode :=
          match (threadFunction info w).2 with
          | none => ThreadExitCodeType.SUCCESS
          | some t =>
            match t.cls with
            | ExceptionClass.ProcessAborted => ThreadExitCodeType.ITK_PROCESS_ABORTED_EXCEPTION
            | ExceptionClass.ExceptionObject => ThreadExitCodeType.ITK_EXCEPTION
            | ExceptionClass.StdException => ThreadExitCodeType.STD_EXCEPTION
            | ExceptionClass.NonStandard => ThreadExitCodeType.UNKNOWN } ∧
    ExceptionClass.caughtBy ExceptionClass.ProcessAborted ExceptionClass.ExceptionObject = true := by
  refine ⟨?_, ?_, by decide⟩
  · unfold SingleMethodProxy
    rcases h : threadFunction info w with ⟨w1, _ | t⟩ <;> rfl
  · unfold SingleMethodProxy
    rcases h : threadFunction info w with ⟨w1, _ | t⟩
    · rfl
    · rcases t with ⟨cls, d⟩
      cases cls <;> rfl

set_option maxRecDepth 100000 in
/-- C7: for bounds that are `SizeValueType` values and a worker count that is a
`ThreadIdType` value: when the callback raises a `DomainFault` (an `ExceptionObject` other
than `ProcessAborted`) on exactly one index `k`, no abort is requested, and `k` lies in the
sub-range of worker `w0` and of no other worker, then the status of worker `w0` is
`ITK_EXCEPTION` and the status of every other worker is `SUCCESS`; every other worker
invokes the callback on all indices of its own sub-range (worker `w0` on the indices of its
sub-range up to `k`); and the dispatch call as a whole fails with `DomainFault`. -/
theorem C7_fault_in_one_worker (first lastExclusive workerCount : Nat) (threadOf : Nat → Nat)
    (aFunc : Nat → FunctorResult) (filter : Option ProcessObject) (thread : Nat) (w : World)
    (k w0 : Nat) (t : Thrown)
    (hfirst : first < SizeValueModulus) (hlast : lastExclusive < SizeValueModulus)
    (hty : workerCount < ThreadIdModulus)
    (hmore : (first + 1) % SizeValueModulus < lastExclusive)
    (hw : w.abortGenerateData = false)
    (hk : (aFunc k).raised = some t)
    (hdom : exitCodeOfThrown t = ThreadExitCodeType.ITK_EXCEPTION)
    (hf : ∀ j, j ≠ k → (aFunc j).raised = none)
    (ha : ∀ j, (aFunc j).abortRequested = false)
    (hw0 : w0 < workerCount)
    (hin : (ParallelizeArrayHelper.subRange first lastExclusive w0 workerCount).1 ≤ k ∧
      k < (ParallelizeArrayHelper.subRange first lastExclusive w0 workerCount).2)
    (hout : ∀ v, v < workerCount → v ≠ w0 →
      ¬ ((ParallelizeArrayHelper.subRange first lastExclusive v workerCount).1 ≤ k ∧
        k < (ParallelizeArrayHelper.subRange first lastExclusive v workerCount).2)) :
    (runWorkers (ParallelizeArrayHelper ⟨aFunc, first, lastExclusive, filter, thread⟩)
      workerCount threadOf (List.range workerCount) w).2 =
        (List.range workerCount).map (fun id =>
          if id = w0 then ThreadExitCodeType.ITK_EXCEPTION else ThreadExitCodeType.SUCCESS) ∧
    arrayCalls (ParallelizeArray (SingleMethodExecute workerCount threadOf) first lastExclusive
      aFunc filter thread w).1.events =
        arrayCalls w.events ++
          (List.range workerCount).flatMap (fun id =>
            if id = w0 then
              List.range' (ParallelizeArrayHelper.subRange first lastExclusive id workerCount).1
                (k + 1 - (ParallelizeArrayHelper.subRange first lastExclusive id workerCount).1)
            else
              List.range' (ParallelizeArrayHelper.subRange first lastExclusive id workerCount).1
                ((ParallelizeArrayHelper.subRange first lastExclusive id workerCount).2 -
                  (ParallelizeArrayHelper.subRange first lastExclusive id workerCount).1)) ∧
    (ParallelizeArray (SingleMethodExecute workerCount threadOf) first lastExclusive
      aFunc filter thread w).2.map exitCodeOfThrown = some ThreadExitCodeType.ITK_EXCEPTION := by
  have _wellFormed := And.intro hfirst (And.intro hlast hty)
  have hids : ∀ id, id ∈ List.range workerCount → id < workerCount :=
    fun id h => List.mem_range.1 h
  have key := runWorkers_one_fault ⟨aFunc, first, lastExclusive, filter, thread⟩ workerCount
    threadOf k w0 t hk hf ha hin hout (List.range workerCount)
  rw [hdom] at key
  refine ⟨(key w hids hw).1, ?_⟩
  have hs := startDispatch_calls filter w
  have hlog := log_other_calls (startDispatch filter w).resetProgress
    Event.singleMethodExecute (fun i h => Event.noConfusion h) (fun i s h => Event.noConfusion h)
  have hstart : ((startDispatch filter w).resetProgress.log
      Event.singleMethodExecute).abortGenerateData = false :=
    hlog.2.2.trans (hs.2.2.trans hw)
  obtain ⟨k1, k2, -⟩ := key _ hids hstart
  have hfind := find_first_failure ThreadExitCodeType.ITK_EXCEPTION (by decide) w0
    (List.range workerCount) (List.mem_range.2 hw0)
  have hx : SingleMethodExecute workerCount threadOf
      (ParallelizeArrayHelper ⟨aFunc, first, lastExclusive, filter, thread⟩)
      (startDispatch filter w).resetProgress =
      ((runWorkers (ParallelizeArrayHelper ⟨aFunc, first, lastExclusive, filter, thread⟩)
        workerCount threadOf (List.range workerCount)
        ((startDispatch filter w).resetProgress.log Event.singleMethodExecute)).1,
        some (rethrown ThreadExitCodeType.ITK_EXCEPTION)) := by
    unfold SingleMethodExecute
    simp only []
    rw [k1, hfind]
  rw [ParallelizeArray_dispatch_some _ _ _ _ _ _ _ _ _ hmore hx]
  have hre : exitCodeOfThrown (rethrown ThreadExitCodeType.ITK_EXCEPTION) =
      ThreadExitCodeType.ITK_EXCEPTION := by decide
  refine ⟨?_, by simp [hre]⟩
  simp only []
  rw [k2, hlog.1]
  exact congrArg (fun l => l ++ _) hs.1

set_option maxRecDepth 100000 in
/-- C7, instance: over `[0, 10)` with 2 workers and a callback that raises a `DomainFault`
exactly on index 5, the statuses are `SUCCESS` for worker 0 and `ITK_EXCEPTION` for worker 1,
and the call fails with `DomainFault`.  For `first = 2^64 - 1`, `lastExclusive = 5`, where
`first + 1` wraps to 0 and the work is dispatched, worker 0 of 2 gets the empty sub-range
`[0, 0)` and worker 1 gets `[0, 5)`: with a fault on index 3 the statuses are `SUCCESS` for
worker 0 and `ITK_EXCEPTION` for worker 1. -/
theorem C7_fault_in_one_worker_witness :
    (runWorkers (ParallelizeArrayHelper
        ⟨fun i => if i = 5 then ⟨some ⟨ExceptionClass.ExceptionObject, "fault"⟩, false⟩
          else ⟨none, false⟩, 0, 10, none, 0⟩)
      2 (fun id => id) (List.range 2) ⟨false, 0, []⟩).2 =
        (List.range 2).map (fun id =>
          if id = 1 then ThreadExitCodeType.ITK_EXCEPTION else ThreadExitCodeType.SUCCESS) ∧
    (ParallelizeArray (SingleMethodExecute 2 (fun id => id)) 0 10
      (fun i => if i = 5 then ⟨some ⟨ExceptionClass.ExceptionObject, "fault"⟩, false⟩
        else ⟨none, false⟩) none 0 ⟨false, 0, []⟩).2.map exitCodeOfThrown =
      some ThreadExitCodeType.ITK_EXCEPTION ∧
    (runWorkers (ParallelizeArrayHelper
        ⟨fun i => if i = 3 then ⟨some ⟨ExceptionClass.ExceptionObject, "fault"⟩, false⟩
          else ⟨none, false⟩, 2 ^ 64 - 1, 5, none, 0⟩)
      2 (fun id => id) (List.range 2) ⟨false, 0, []⟩).2 =
        (List.range 2).map (fun id =>
          if id = 1 then ThreadExitCodeType.ITK_EXCEPTION else ThreadExitCodeType.SUCCESS) :=
  ⟨(C7_fault_in_one_worker 0 10 2 (fun id => id)
      (fun i => if i = 5 then ⟨some ⟨ExceptionClass.ExceptionObject, "fault"⟩, false⟩
        else ⟨none, false⟩) none 0 ⟨false, 0, []⟩ 5 1 ⟨ExceptionClass.ExceptionObject, "fault"⟩
      (by decide) (by decide) (by decide)
      (by decide) rfl (by simp) (by decide) (fun j hj => by simp [hj]) (fun j => by
        by_cases h : j = 5 <;> simp [h]) (by decide) (by decide) (by decide)).1,
    (C7_fault_in_one_worker 0 10 2 (fun id => id)
      (fun i => if i = 5 then ⟨some ⟨ExceptionClass.ExceptionObject, "fault"⟩, false⟩
        else ⟨none, false⟩) none 0 ⟨false, 0, []⟩ 5 1 ⟨ExceptionClass.ExceptionObject, "fault"⟩
      (by decide) (by decide) (by decide)
      (by decide) rfl (by simp) (by decide) (fun j hj => by simp [hj]) (fun j => by
        by_cases h : j = 5 <;> simp [h]) (by decide) (by decide) (by decide)).2.2,
    (C7_fault_in_one_worker (2 ^ 64 - 1) 5 2 (fun id => id)
      (fun i => if i = 3 then ⟨some ⟨ExceptionClass.ExceptionObject, "fault"⟩, false⟩
        else ⟨none, false⟩) none 0 ⟨false, 0, []⟩ 3 1 ⟨ExceptionClass.ExceptionObject, "fault"⟩
      (by decide) (by decide) (by decide)
      (by decide) rfl (by simp) (by decide) (fun j hj => by simp [hj]) (fun j => by
        by_cases h : j = 3 <;> simp [h]) (by decide) (by decide) (by decide)).1⟩

/-! ## Claims on the global thread counts -/

/-- C8: with `ITK_MAX_THREADS ≥ 1`, after `SetGlobalMaximumNumberOfThreads(n)` the stored
maximum is `n` clamped to `[1, ITK_MAX_THREADS]` (`n` itself when it is in that interval,
`1` for `n = 0`, `ITK_MAX_THREADS` for every `n ≥ ITK_MAX_THREADS`), and the stored default
is the minimum of the previous default and the new maximum: lowered to the new maximum when
it exceeded it, otherwise unchanged. -/
theorem C8_set_max_clamps (ITK_MAX_THREADS n : Nat) (g : MultiThreaderBaseGlobals)
    (hcap : 1 ≤ ITK_MAX_THREADS) :
    (1 ≤ (SetGlobalMaximumNumberOfThreads ITK_MAX_THREADS n g).m_GlobalMaximumNumberOfThreads ∧
      (SetGlobalMaximumNumberOfThreads ITK_MAX_THREADS n g).m_GlobalMaximumNumberOfThreads ≤
        ITK_MAX_THREADS) ∧
    (1 ≤ n → n ≤ ITK_MAX_THREADS →
      (SetGlobalMaximumNumberOfThreads ITK_MAX_THREADS n g).m_GlobalMaximumNumberOfThreads = n) ∧
    (n = 0 →
      (SetGlobalMaximumNumberOfThreads ITK_MAX_THREADS n g).m_GlobalMaximumNumberOfThreads = 1) ∧
    (ITK_MAX_THREADS ≤ n →
      (SetGlobalMaximumNumberOfThreads ITK_MAX_THREADS n g).m_GlobalMaximumNumberOfThreads =
        ITK_MAX_THREADS) ∧
    ((SetGlobalMaximumNumberOfThreads ITK_MAX_THREADS n g).m_GlobalMaximumNumberOfThreads <
        g.m_GlobalDefaultNumberOfThreads →
      (SetGlobalMaximumNumberOfThreads ITK_MAX_THREADS n g).m_GlobalDefaultNumberOfThreads =
        (SetGlobalMaximumNumberOfThreads ITK_MAX_THREADS n g).m_GlobalMaximumNumberOfThreads) ∧
    (g.m_GlobalDefaultNumberOfThreads ≤
        (SetGlobalMaximumNumberOfThreads ITK_MAX_THREADS n g).m_GlobalMaximumNumberOfThreads →
      (SetGlobalMaximumNumberOfThreads ITK_MAX_THREADS n g).m_GlobalDefaultNumberOfThreads =
        g.m_GlobalDefaultNumberOfThreads) := by
  simp only [SetGlobalMaximumNumberOfThreads]
  refine ⟨⟨?_, ?_⟩, ?_, ?_, ?_, ?_, ?_⟩ <;> intros <;> omega

/-- C8, instance: with `ITK_MAX_THREADS = 128`, a stored default of 8 and `n = 0`, the
maximum becomes 1 and the default is lowered to 1. -/
theorem C8_set_max_clamps_witness :
    (SetGlobalMaximumNumberOfThreads 128 0
      ⟨false, ThreaderType.Pool, 128, 8⟩).m_GlobalMaximumNumberOfThreads = 1 ∧
    (SetGlobalMaximumNumberOfThreads 128 0
      ⟨false, ThreaderType.Pool, 128, 8⟩).m_GlobalDefaultNumberOfThreads =
        (SetGlobalMaximumNumberOfThreads 128 0
          ⟨false, ThreaderType.Pool, 128, 8⟩).m_GlobalMaximumNumberOfThreads :=
  ⟨(C8_set_max_clamps 128 0 ⟨false, ThreaderType.Pool, 128, 8⟩ (by decide)).2.2.1 rfl,
    (C8_set_max_clamps 128 0 ⟨false, ThreaderType.Pool, 128, 8⟩ (by decide)).2.2.2.2.1
      (by decide)⟩

theorem setter_keeps_max (M : Nat) (g : MultiThreaderBaseGlobals)
    (op : RegistryOp) (hg : 1 ≤ g.m_GlobalMaximumNumberOfThreads ∧
      g.m_GlobalMaximumNumberOfThreads ≤ M) :
    1 ≤ (RegistryOp.apply M g op).m_GlobalMaximumNumberOfThreads ∧
      (RegistryOp.apply M g op).m_GlobalMaximumNumberOfThreads ≤ M := by
  cases op with
  | setMax v =>
    simp only [RegistryOp.apply, SetGlobalMaximumNumberOfThreads]
    omega
  | setDefault v => exact hg
  | getMax => exact hg
  | getDefault r =>
    simp only [RegistryOp.apply, GetGlobalDefaultNumberOfThreads]
    split_ifs <;> exact hg

/-- The state kept by every sequence of the two setters: the maximum is in
`[1, ITK_MAX_THREADS]`, the default does not exceed it, and the default is at least 1 as
soon as `SetGlobalDefaultNumberOfThreads` has been called. -/
theorem setters_invariant (M : Nat) (hM : 1 ≤ M) : ∀ (ops : List RegistryOp)
    (g : MultiThreaderBaseGlobals),
    (∀ op, op ∈ ops → op.isSetter = true) →
    1 ≤ g.m_GlobalMaximumNumberOfThreads → g.m_GlobalMaximumNumberOfThreads ≤ M →
    g.m_GlobalDefaultNumberOfThreads ≤ g.m_GlobalMaximumNumberOfThreads →
    (1 ≤ (runRegistry M g ops).m_GlobalMaximumNumberOfThreads ∧
      (runRegistry M g ops).m_GlobalMaximumNumberOfThreads ≤ M) ∧
    (runRegistry M g ops).m_GlobalDefaultNumberOfThreads ≤
      (runRegistry M g ops).m_GlobalMaximumNumberOfThreads ∧
    ((1 ≤ g.m_GlobalDefaultNumberOfThreads ∨ ∃ op, op ∈ ops ∧ op.isSetDefault = true) →
      1 ≤ (runRegistry M g ops).m_GlobalDefaultNumberOfThreads) := by
  intro ops
  induction ops with
  | nil =>
    intro g _ h1 h2 h3
    refine ⟨⟨h1, h2⟩, h3, ?_⟩
    rintro (h | ⟨op, hop, _⟩)
    · exact h
    · simp at hop
  | cons op ops ih =>
    intro g hall h1 h2 h3
    have hrest : ∀ o, o ∈ ops → o.isSetter = true :=
      fun o ho => hall o (List.mem_cons_of_mem _ ho)
    have hop := hall op (List.mem_cons_self _ _)
    have hrun : runRegistry M g (op :: ops) = runRegistry M (RegistryOp.apply M g op) ops := rfl
    rw [hrun]
    cases op with
    | setMax v =>
      have a1 : 1 ≤ (RegistryOp.apply M g (RegistryOp.setMax v)).m_GlobalMaximumNumberOfThreads ∧
          (RegistryOp.apply M g (RegistryOp.setMax v)).m_GlobalMaximumNumberOfThreads ≤ M ∧
          (RegistryOp.apply M g (RegistryOp.setMax v)).m_GlobalDefaultNumberOfThreads ≤
            (RegistryOp.apply M g (RegistryOp.setMax v)).m_GlobalMaximumNumberOfThreads ∧
          (1 ≤ g.m_GlobalDefaultNumberOfThreads →
            1 ≤ (RegistryOp.apply M g
              (RegistryOp.setMax v)).m_GlobalDefaultNumberOfThreads) := by
        simp only [RegistryOp.apply, SetGlobalMaximumNumberOfThreads]
        refine ⟨?_, ?_, ?_, ?_⟩ <;> intros <;> omega
      obtain ⟨r1, r2, r3⟩ := ih _ hrest a1.1 a1.2.1 a1.2.2.1
      refine ⟨r1, r2, ?_⟩
      rintro (h | ⟨o, ho, hd⟩)
      · exact r3 (Or.inl (a1.2.2.2 h))
      · rcases List.mem_cons.1 ho with e | e
        · subst e
          simp [RegistryOp.isSetDefault] at hd
        · exact r3 (Or.inr ⟨o, e, hd⟩)
    | setDefault v =>
      have a1 : (RegistryOp.apply M g (RegistryOp.setDefault v)).m_GlobalMaximumNumberOfThreads =
            g.m_GlobalMaximumNumberOfThreads ∧
          (RegistryOp.apply M g (RegistryOp.setDefault v)).m_GlobalDefaultNumberOfThreads ≤
            g.m_GlobalMaximumNumberOfThreads ∧
          1 ≤ (RegistryOp.apply M g (RegistryOp.setDefault v)).m_GlobalDefaultNumberOfThreads := by
        simp only [RegistryOp.apply, SetGlobalDefaultNumberOfThreads]
        refine ⟨?_, ?_, ?_⟩ <;> first | trivial | omega
      obtain ⟨r1, r2, r3⟩ := ih _ hrest (by rw [a1.1]; exact h1) (by rw [a1.1]; exact h2)
        (by rw [a1.1]; exact a1.2.1)
      exact ⟨r1, r2, fun _ => r3 (Or.inl a1.2.2)⟩
    | getMax => simp [RegistryOp.isSetter] at hop
    | getDefault r => simp [RegistryOp.isSetter] at hop

/-- C9: with `ITK_MAX_THREADS ≥ 1`, after every finite sequence of
`SetGlobalMaximumNumberOfThreads` and `SetGlobalDefaultNumberOfThreads` calls, in any order
and with any arguments, that starts from the initial registry and contains at least one
`SetGlobalDefaultNumberOfThreads` call, `1 ≤ defaultThreads ≤ maxThreads`; and after any
such sequence (with or without a `SetGlobalDefaultNumberOfThreads` call) a further
`SetGlobalDefaultNumberOfThreads(n)` stores `n` clamped to `[1, current maxThreads]`. -/
theorem C9_default_within_bounds (ITK_MAX_THREADS : Nat) (ITK_USE_TBB : Bool)
    (ops : List RegistryOp) (hcap : 1 ≤ ITK_MAX_THREADS)
    (hsetters : ∀ op, op ∈ ops → op.isSetter = true) :
    ((∃ op, op ∈ ops ∧ op.isSetDefault = true) →
      1 ≤ (runRegistry ITK_MAX_THREADS
          (MultiThreaderBaseGlobals.initial ITK_MAX_THREADS ITK_USE_TBB)
          ops).m_GlobalDefaultNumberOfThreads ∧
        (runRegistry ITK_MAX_THREADS
          (MultiThreaderBaseGlobals.initial ITK_MAX_THREADS ITK_USE_TBB)
          ops).m_GlobalDefaultNumberOfThreads ≤
        (runRegistry ITK_MAX_THREADS
          (MultiThreaderBaseGlobals.initial ITK_MAX_THREADS ITK_USE_TBB)
          ops).m_GlobalMaximumNumberOfThreads) ∧
    (∀ n : Nat,
      (SetGlobalDefaultNumberOfThreads n
        (runRegistry ITK_MAX_THREADS
          (MultiThreaderBaseGlobals.initial ITK_MAX_THREADS ITK_USE_TBB)
          ops)).m_GlobalMaximumNumberOfThreads =
        (runRegistry ITK_MAX_THREADS
          (MultiThreaderBaseGlobals.initial ITK_MAX_THREADS ITK_USE_TBB)
          ops).m_GlobalMaximumNumberOfThreads ∧
      (SetGlobalDefaultNumberOfThreads n
        (runRegistry ITK_MAX_THREADS
          (MultiThreaderBaseGlobals.initial ITK_MAX_THREADS ITK_USE_TBB)
          ops)).m_GlobalDefaultNumberOfThreads =
        max (min n (runRegistry ITK_MAX_THREADS
          (MultiThreaderBaseGlobals.initial ITK_MAX_THREADS ITK_USE_TBB)
          ops).m_GlobalMaximumNumberOfThreads) 1 ∧
      1 ≤ (SetGlobalDefaultNumberOfThreads n
        (runRegistry ITK_MAX_THREADS
          (MultiThreaderBaseGlobals.initial ITK_MAX_THREADS ITK_USE_TBB)
          ops)).m_GlobalDefaultNumberOfThreads ∧
      (SetGlobalDefaultNumberOfThreads n
        (runRegistry ITK_MAX_THREADS
          (MultiThreaderBaseGlobals.initial ITK_MAX_THREADS ITK_USE_TBB)
          ops)).m_GlobalDefaultNumberOfThreads ≤
        (runRegistry ITK_MAX_THREADS
          (MultiThreaderBaseGlobals.initial ITK_MAX_THREADS ITK_USE_TBB)
          ops).m_GlobalMaximumNumberOfThreads) := by
  obtain ⟨⟨r1, -⟩, r2, r3⟩ := setters_invariant ITK_MAX_THREADS hcap ops
    (MultiThreaderBaseGlobals.initial ITK_MAX_THREADS ITK_USE_TBB) hsetters hcap (le_refl _)
    (Nat.zero_le _)
  refine ⟨fun h => ⟨r3 (Or.inr h), r2⟩, fun n => ?_⟩
  simp only [SetGlobalDefaultNumberOfThreads]
  refine ⟨?_, ?_, ?_, ?_⟩ <;> first | trivial | omega

/-- C9, instance: `setMax 4, setDefault 100, setMax 2` from the initial registry with
`ITK_MAX_THREADS = 128` leaves `1 ≤ defaultThreads ≤ maxThreads`. -/
theorem C9_default_within_bounds_witness :
    1 ≤ (runRegistry 128 (MultiThreaderBaseGlobals.initial 128 false)
        [RegistryOp.setMax 4, RegistryOp.setDefault 100,
          RegistryOp.setMax 2]).m_GlobalDefaultNumberOfThreads ∧
      (runRegistry 128 (MultiThreaderBaseGlobals.initial 128 false)
        [RegistryOp.setMax 4, RegistryOp.setDefault 100,
          RegistryOp.setMax 2]).m_GlobalDefaultNumberOfThreads ≤
      (runRegistry 128 (MultiThreaderBaseGlobals.initial 128 false)
        [RegistryOp.setMax 4, RegistryOp.setDefault 100,
          RegistryOp.setMax 2]).m_GlobalMaximumNumberOfThreads :=
  (C9_default_within_bounds 128 false
    [RegistryOp.setMax 4, RegistryOp.setDefault 100, RegistryOp.setMax 2] (by decide)
    (by decide)).1 (by decide)

/-- C10 (as stated, refuted): with `ITK_MAX_THREADS = 128`, the initial registry has
`defaultThreads = 0`; and after `setMaxThreads(2)` a `getDefaultThreads()` whose lazy
derivation obtains 8 from the back end returns 8 and leaves `defaultThreads = 8 >
maxThreads = 2`. -/
theorem C10_counterexample :
    (MultiThreaderBaseGlobals.initial 128 false).m_GlobalDefaultNumberOfThreads = 0 ∧
    (GetGlobalDefaultNumberOfThreads 8
      (runRegistry 128 (MultiThreaderBaseGlobals.initial 128 false) [RegistryOp.setMax 2])).1 = 8 ∧
    (runRegistry 128 (MultiThreaderBaseGlobals.initial 128 false)
      [RegistryOp.setMax 2, RegistryOp.getDefault 8]).m_GlobalMaximumNumberOfThreads = 2 ∧
    (runRegistry 128 (MultiThreaderBaseGlobals.initial 128 false)
      [RegistryOp.setMax 2, RegistryOp.getDefault 8]).m_GlobalDefaultNumberOfThreads = 8 := by
  decide

theorem registry_invariant (M : Nat) : ∀ (ops : List RegistryOp)
    (g : MultiThreaderBaseGlobals),
    derivationsWithinMax M g ops = true →
    (1 ≤ g.m_GlobalMaximumNumberOfThreads ∧ g.m_GlobalMaximumNumberOfThreads ≤ M) →
    (g.m_GlobalDefaultNumberOfThreads = 0 ∨
      (1 ≤ g.m_GlobalDefaultNumberOfThreads ∧
        g.m_GlobalDefaultNumberOfThreads ≤ g.m_GlobalMaximumNumberOfThreads)) →
    (1 ≤ (runRegistry M g ops).m_GlobalMaximumNumberOfThreads ∧
      (runRegistry M g ops).m_GlobalMaximumNumberOfThreads ≤ M) ∧
    ((runRegistry M g ops).m_GlobalDefaultNumberOfThreads = 0 ∨
      (1 ≤ (runRegistry M g ops).m_GlobalDefaultNumberOfThreads ∧
        (runRegistry M g ops).m_GlobalDefaultNumberOfThreads ≤
          (runRegistry M g ops).m_GlobalMaximumNumberOfThreads)) := by
  intro ops
  induction ops with
  | nil =>
    intro g _ h1 h2
    exact ⟨h1, h2⟩
  | cons op ops ih =>
    intro g hd h1 h2
    have hrun : runRegistry M g (op :: ops) = runRegistry M (RegistryOp.apply M g op) ops := rfl
    rw [hrun]
    simp only [derivationsWithinMax, Bool.and_eq_true] at hd
    refine ih _ hd.2 (setter_keeps_max M g op h1) ?_
    cases op with
    | setMax v =>
      simp only [RegistryOp.apply, SetGlobalMaximumNumberOfThreads]
      omega
    | setDefault v =>
      simp only [RegistryOp.apply, SetGlobalDefaultNumberOfThreads]
      omega
    | getMax => exact h2
    | getDefault r =>
      have hd1 := hd.1
      simp only [Bool.or_eq_true, Bool.and_eq_true, decide_eq_true_eq] at hd1
      simp only [RegistryOp.apply, GetGlobalDefaultNumberOfThreads]
      split_ifs with h0
      · rcases hd1 with c | c
        · exact absurd h0 c
        · right
          exact c
      · exact h2

/-- C10 (amended): with `ITK_MAX_THREADS ≥ 1`, in every state of the registry reachable from
its initial state by a sequence of its operations in which each lazy derivation obtains a
count in `[1, maxThreads]`, `1 ≤ maxThreads ≤ ITK_MAX_THREADS` holds and `defaultThreads` is
either still the sentinel `0` (never set, never derived) or satisfies
`1 ≤ defaultThreads ≤ maxThreads`; a `getDefaultThreads()` made in such a state, under the
same condition on its derivation, returns a value in `[1, maxThreads]`. -/
theorem C10_registry_invariant (ITK_MAX_THREADS : Nat) (ITK_USE_TBB : Bool)
    (ops : List RegistryOp) (hcap : 1 ≤ ITK_MAX_THREADS)
    (hder : derivationsWithinMax ITK_MAX_THREADS
      (MultiThreaderBaseGlobals.initial ITK_MAX_THREADS ITK_USE_TBB) ops = true) :
    (1 ≤ (runRegistry ITK_MAX_THREADS
        (MultiThreaderBaseGlobals.initial ITK_MAX_THREADS ITK_USE_TBB)
        ops).m_GlobalMaximumNumberOfThreads ∧
      (runRegistry ITK_MAX_THREADS
        (MultiThreaderBaseGlobals.initial ITK_MAX_THREADS ITK_USE_TBB)
        ops).m_GlobalMaximumNumberOfThreads ≤ ITK_MAX_THREADS) ∧
    ((runRegistry ITK_MAX_THREADS
        (MultiThreaderBaseGlobals.initial ITK_MAX_THREADS ITK_USE_TBB)
        ops).m_GlobalDefaultNumberOfThreads = 0 ∨
      (1 ≤ (runRegistry ITK_MAX_THREADS
          (MultiThreaderBaseGlobals.initial ITK_MAX_THREADS ITK_USE_TBB)
          ops).m_GlobalDefaultNumberOfThreads ∧
        (runRegistry ITK_MAX_THREADS
          (MultiThreaderBaseGlobals.initial ITK_MAX_THREADS ITK_USE_TBB)
          ops).m_GlobalDefaultNumberOfThreads ≤
        (runRegistry ITK_MAX_THREADS
          (MultiThreaderBaseGlobals.initial ITK_MAX_THREADS ITK_USE_TBB)
          ops).m_GlobalMaximumNumberOfThreads)) ∧
    (∀ recommended : Nat,
      ((runRegistry ITK_MAX_THREADS
          (MultiThreaderBaseGlobals.initial ITK_MAX_THREADS ITK_USE_TBB)
          ops).m_GlobalDefaultNumberOfThreads ≠ 0 ∨
        (1 ≤ recommended ∧ recommended ≤ (runRegistry ITK_MAX_THREADS
          (MultiThreaderBaseGlobals.initial ITK_MAX_THREADS ITK_USE_TBB)
          ops).m_GlobalMaximumNumberOfThreads)) →
      1 ≤ (GetGlobalDefaultNumberOfThreads recommended (runRegistry ITK_MAX_THREADS
          (MultiThreaderBaseGlobals.initial ITK_MAX_THREADS ITK_USE_TBB) ops)).1 ∧
        (GetGlobalDefaultNumberOfThreads recommended (runRegistry ITK_MAX_THREADS
          (MultiThreaderBaseGlobals.initial ITK_MAX_THREADS ITK_USE_TBB) ops)).1 ≤
        (runRegistry ITK_MAX_THREADS
          (MultiThreaderBaseGlobals.initial ITK_MAX_THREADS ITK_USE_TBB)
          ops).m_GlobalMaximumNumberOfThreads) := by
  have hinit : 1 ≤ (MultiThreaderBaseGlobals.initial ITK_MAX_THREADS
      ITK_USE_TBB).m_GlobalMaximumNumberOfThreads ∧
      (MultiThreaderBaseGlobals.initial ITK_MAX_THREADS
        ITK_USE_TBB).m_GlobalMaximumNumberOfThreads ≤ ITK_MAX_THREADS := ⟨hcap, le_refl _⟩
  obtain ⟨r1, r2⟩ := registry_invariant ITK_MAX_THREADS ops _ hder hinit (Or.inl rfl)
  refine ⟨r1, r2, fun recommended hrec => ?_⟩
  simp only [GetGlobalDefaultNumberOfThreads]
  split_ifs with h0
  · rcases hrec with c | c
    · exact absurd h0 c
    · exact c
  · rcases r2 with c | c
    · exact absurd c h0
    · exact c

/-- C10 (amended), instance: `setMax 4, getDefault` (the back end recommends 3),
`setDefault 9`, `getMax` from the initial registry with `ITK_MAX_THREADS = 128`. -/
theorem C10_registry_invariant_witness :
    1 ≤ (runRegistry 128 (MultiThreaderBaseGlobals.initial 128 false)
        [RegistryOp.setMax 4, RegistryOp.getDefault 3, RegistryOp.setDefault 9,
          RegistryOp.getMax]).m_GlobalMaximumNumberOfThreads ∧
      (runRegistry 128 (MultiThreaderBaseGlobals.initial 128 false)
        [RegistryOp.setMax 4, RegistryOp.getDefault 3, RegistryOp.setDefault 9,
          RegistryOp.getMax]).m_GlobalMaximumNumberOfThreads ≤ 128 :=
  (C10_registry_invariant 128 false
    [RegistryOp.setMax 4, RegistryOp.getDefault 3, RegistryOp.setDefault 9, RegistryOp.getMax]
    (by decide) (by decide)).1

/-! ## The default back end -/

theorem setMax_backend (M v : Nat) (g : MultiThreaderBaseGlobals) :
    (SetGlobalMaximumNumberOfThreads M v g).GlobalDefaultThreaderTypeIsInitialized =
        g.GlobalDefaultThreaderTypeIsInitialized ∧
      (SetGlobalMaximumNumberOfThreads M v g).m_GlobalDefaultThreader =
        g.m_GlobalDefaultThreader :=
  ⟨rfl, rfl⟩

theorem apply_backend (M : Nat) (g : MultiThreaderBaseGlobals) (op : RegistryOp) :
    (RegistryOp.apply M g op).GlobalDefaultThreaderTypeIsInitialized =
        g.GlobalDefaultThreaderTypeIsInitialized ∧
      (RegistryOp.apply M g op).m_GlobalDefaultThreader = g.m_GlobalDefaultThreader := by
  cases op with
  | setMax v => exact ⟨rfl, rfl⟩
  | setDefault v => exact ⟨rfl, rfl⟩
  | getMax => exact ⟨rfl, rfl⟩
  | getDefault r =>
    simp only [RegistryOp.apply, GetGlobalDefaultNumberOfThreads]
    split_ifs <;> exact ⟨rfl, rfl⟩

theorem runRegistry_backend (M : Nat) : ∀ (ops : List RegistryOp) (g : MultiThreaderBaseGlobals),
    (runRegistry M g ops).GlobalDefaultThreaderTypeIsInitialized =
        g.GlobalDefaultThreaderTypeIsInitialized ∧
      (runRegistry M g ops).m_GlobalDefaultThreader = g.m_GlobalDefaultThreader := by
  intro ops
  induction ops with
  | nil => intro g; exact ⟨rfl, rfl⟩
  | cons op ops ih =>
    intro g
    have hrun : runRegistry M g (op :: ops) = runRegistry M (RegistryOp.apply M g op) ops := rfl
    rw [hrun, (ih _).1, (ih _).2]
    exact apply_backend M g op

theorem runRegistry_max (M : Nat) : ∀ (ops : List RegistryOp) (g : MultiThreaderBaseGlobals),
    (1 ≤ g.m_GlobalMaximumNumberOfThreads ∧ g.m_GlobalMaximumNumberOfThreads ≤ M) →
    1 ≤ (runRegistry M g ops).m_GlobalMaximumNumberOfThreads ∧
      (runRegistry M g ops).m_GlobalMaximumNumberOfThreads ≤ M := by
  intro ops
  induction ops with
  | nil => intro g h; exact h
  | cons op ops ih =>
    intro g h
    have hrun : runRegistry M g (op :: ops) = runRegistry M (RegistryOp.apply M g op) ops := rfl
    rw [hrun]
    exact ih _ (setter_keeps_max M g op h)

theorem get_initialized (env : Environment) (g : MultiThreaderBaseGlobals)
    (h : g.GlobalDefaultThreaderTypeIsInitialized = true) :
    GetGlobalDefaultThreader env g = (g.m_GlobalDefaultThreader, g) := by
  unfold GetGlobalDefaultThreader
  simp [h]

theorem get_sets_flag (env : Environment) (g : MultiThreaderBaseGlobals) :
    (GetGlobalDefaultThreader env g).2.GlobalDefaultThreaderTypeIsInitialized = true ∧
      (GetGlobalDefaultThreader env g).2.m_GlobalDefaultThreader =
        (GetGlobalDefaultThreader env g).1 := by
  unfold GetGlobalDefaultThreader
  split_ifs with h
  · exact ⟨rfl, rfl⟩
  · simp only [Bool.not_eq_false] at h
    exact ⟨h, rfl⟩

theorem get_primary (p : String) (d : Option String) (g : MultiThreaderBaseGlobals)
    (h : g.GlobalDefaultThreaderTypeIsInitialized = false) :
    (GetGlobalDefaultThreader ⟨some p, d⟩ g).1 =
      if ThreaderTypeFromString (UpperCase p) ≠ ThreaderType.Unknown then
        ThreaderTypeFromString (UpperCase p)
      else g.m_GlobalDefaultThreader := by
  unfold GetGlobalDefaultThreader
  simp only [h, if_true]
  split_ifs <;> rfl

theorem get_deprecated (d : String) (g : MultiThreaderBaseGlobals)
    (h : g.GlobalDefaultThreaderTypeIsInitialized = false) :
    (GetGlobalDefaultThreader ⟨none, some d⟩ g).1 =
      if UpperCase d ≠ "NO" ∧ UpperCase d ≠ "OFF" ∧ UpperCase d ≠ "FALSE" then ThreaderType.Pool
      else ThreaderType.Platform := by
  unfold GetGlobalDefaultThreader
  simp only [h, if_true]
  split_ifs <;> rfl

theorem get_no_variable (g : MultiThreaderBaseGlobals)
    (h : g.GlobalDefaultThreaderTypeIsInitialized = false) :
    (GetGlobalDefaultThreader ⟨none, none⟩ g).1 = g.m_GlobalDefaultThreader := by
  unfold GetGlobalDefaultThreader
  simp only [h, if_true]

theorem toUpper_idem (c : Char) : c.toUpper.toUpper = c.toUpper := by
  by_cases h : c.toNat ≥ 97 ∧ c.toNat ≤ 122
  · have e : c.toUpper = Char.ofNat (c.toNat - 32) := by
      unfold Char.toUpper
      simp only []
      rw [if_pos h]
    rw [e]
    generalize c.toNat = n at h
    obtain ⟨h1, h2⟩ := h
    interval_cases n <;> decide
  · have e : c.toUpper = c := by
      unfold Char.toUpper
      simp only []
      rw [if_neg h]
    rw [e, e]

theorem upperCase_idem (s : String) : UpperCase (UpperCase s) = UpperCase s := by
  unfold UpperCase
  simp only [List.map_map]
  congr 1
  apply List.map_congr_left
  intro c _
  exact toUpper_idem c

theorem fromString_upper (s : String) :
    ThreaderTypeFromString (UpperCase s) = ThreaderTypeFromString s := by
  unfold ThreaderTypeFromString
  rw [upperCase_idem]

/-! ## Claims on engine instances and on the default back end -/

theorem construct_pos (recommended : Nat) (g : MultiThreaderBaseGlobals)
    (h : 1 ≤ recommended) : 1 ≤ (MultiThreaderBase.construct recommended g).1.m_NumberOfThreads := by
  simp only [MultiThreaderBase.construct, GetGlobalDefaultNumberOfThreads]
  split_ifs with h0
  · exact h
  · exact Nat.one_le_iff_ne_zero.2 h0

theorem setNumberOfThreads_pos (n : Nat) (g : MultiThreaderBaseGlobals)
    (self : MultiThreaderBase) (h : 1 ≤ self.m_NumberOfThreads) :
    1 ≤ (SetNumberOfThreads n g self).m_NumberOfThreads := by
  unfold SetNumberOfThreads
  split_ifs
  · exact h
  · exact Nat.le_max_right _ _

theorem runSetNumberOfThreads_pos : ∀ (calls : List (Nat × MultiThreaderBaseGlobals))
    (self : MultiThreaderBase), 1 ≤ self.m_NumberOfThreads →
    1 ≤ (runSetNumberOfThreads self calls).m_NumberOfThreads := by
  intro calls
  induction calls with
  | nil => intro self h; exact h
  | cons c cs ih =>
    intro self h
    exact ih _ (setNumberOfThreads_pos c.1 c.2 self h)

/-- C11: with `ITK_MAX_THREADS ≥ 1` and a back end that recommends at least one worker, for
every engine instance (constructed in any registry state and taken through any earlier
`SetNumberOfThreads` calls), every state `g` the registry can reach and every requested
`n`, after `SetNumberOfThreads(n)` the instance's thread count equals `n` clamped to
`[1, maxThreads]` and so lies in `[1, maxThreads]`; this includes the early-return path,
taken when `n` equals the stored count and does not exceed `maxThreads`, which leaves the
instance as it was. -/
theorem C11_set_number_of_threads (ITK_MAX_THREADS : Nat) (ITK_USE_TBB : Bool)
    (ops : List RegistryOp) (g0 : MultiThreaderBaseGlobals) (recommended : Nat)
    (calls : List (Nat × MultiThreaderBaseGlobals)) (n : Nat)
    (g : MultiThreaderBaseGlobals) (self : MultiThreaderBase)
    (hcap : 1 ≤ ITK_MAX_THREADS) (hrec : 1 ≤ recommended)
    (hg : g = runRegistry ITK_MAX_THREADS
      (MultiThreaderBaseGlobals.initial ITK_MAX_THREADS ITK_USE_TBB) ops)
    (hself : self =
      runSetNumberOfThreads (MultiThreaderBase.construct recommended g0).1 calls) :
    (SetNumberOfThreads n g self).m_NumberOfThreads =
        max (min n g.m_GlobalMaximumNumberOfThreads) 1 ∧
      1 ≤ (SetNumberOfThreads n g self).m_NumberOfThreads ∧
      (SetNumberOfThreads n g self).m_NumberOfThreads ≤ g.m_GlobalMaximumNumberOfThreads ∧
      (self.m_NumberOfThreads = n → n ≤ g.m_GlobalMaximumNumberOfThreads →
        SetNumberOfThreads n g self = self) := by
  have hmax : 1 ≤ g.m_GlobalMaximumNumberOfThreads := by
    rw [hg]
    exact (runRegistry_max ITK_MAX_THREADS ops _ ⟨hcap, le_refl _⟩).1
  have hpos : 1 ≤ self.m_NumberOfThreads := by
    rw [hself]
    exact runSetNumberOfThreads_pos calls _ (construct_pos recommended g0 hrec)
  unfold SetNumberOfThreads
  split_ifs with h
  · obtain ⟨h1, h2⟩ := h
    refine ⟨?_, hpos, ?_, fun _ _ => rfl⟩ <;> omega
  · simp only []
    refine ⟨trivial, ?_, ?_, fun h1 h2 => absurd ⟨h1, h2⟩ h⟩ <;> omega

/-- C11, instance: `ITK_MAX_THREADS = 128`, registry after `setMax 4`, an instance built
with 8 recommended workers and then set to 3: `SetNumberOfThreads(3)` takes the early
return and the count stays 3; `SetNumberOfThreads(100)` would store 4. -/
theorem C11_set_number_of_threads_witness :
    (SetNumberOfThreads 3
        (runRegistry 128 (MultiThreaderBaseGlobals.initial 128 false) [RegistryOp.setMax 4])
        (runSetNumberOfThreads
          (MultiThreaderBase.construct 8 (MultiThreaderBaseGlobals.initial 128 false)).1
          [(3, MultiThreaderBaseGlobals.initial 128 false)])).m_NumberOfThreads =
      max (min 3 (runRegistry 128 (MultiThreaderBaseGlobals.initial 128 false)
        [RegistryOp.setMax 4]).m_GlobalMaximumNumberOfThreads) 1 :=
  (C11_set_number_of_threads 128 false [RegistryOp.setMax 4]
    (MultiThreaderBaseGlobals.initial 128 false) 8
    [(3, MultiThreaderBaseGlobals.initial 128 false)] 3 _ _ (by decide) (by decide) rfl rfl).1

/-- C12: for every back-end kind `k`, every registry state and every content of the two
environment variables, after `SetGlobalDefaultThreader(k)` (followed by any calls on the
thread counts) `GetGlobalDefaultThreader()` returns `k` and leaves `k` stored: the explicit
choice wins and the environment is not consulted. -/
theorem C12_explicit_backend_wins (ITK_MAX_THREADS : Nat) (k : ThreaderType)
    (env : Environment) (g : MultiThreaderBaseGlobals) (ops : List RegistryOp) :
    (GetGlobalDefaultThreader env
        (runRegistry ITK_MAX_THREADS (SetGlobalDefaultThreader k g) ops)).1 = k ∧
      (GetGlobalDefaultThreader env
        (runRegistry ITK_MAX_THREADS (SetGlobalDefaultThreader k g) ops)).2 =
        runRegistry ITK_MAX_THREADS (SetGlobalDefaultThreader k g) ops := by
  obtain ⟨h1, h2⟩ := runRegistry_backend ITK_MAX_THREADS ops (SetGlobalDefaultThreader k g)
  have hi : (runRegistry ITK_MAX_THREADS (SetGlobalDefaultThreader k g)
      ops).GlobalDefaultThreaderTypeIsInitialized = true := h1
  rw [get_initialized env _ hi]
  exact ⟨h2, rfl⟩

/-- C13: with no earlier `SetGlobalDefaultThreader` or `GetGlobalDefaultThreader` call,
when the primary variable `ITK_GLOBAL_DEFAULT_THEADER` is set, the first
`GetGlobalDefaultThreader()` returns the same back end whatever the deprecated variable
`ITK_USE_THREADPOOL` holds (or whether it is set at all); when the primary value is a
recognized token, that back end is the one the token names, and otherwise it is the
stored (compiled-in) default. -/
theorem C13_primary_variable_decides (primary : String) (deprecated deprecated' : Option String)
    (g : MultiThreaderBaseGlobals)
    (hfresh : g.GlobalDefaultThreaderTypeIsInitialized = false) :
    (GetGlobalDefaultThreader ⟨some primary, deprecated⟩ g).1 =
        (GetGlobalDefaultThreader ⟨some primary, deprecated'⟩ g).1 ∧
      (ThreaderTypeFromString primary ≠ ThreaderType.Unknown →
        (GetGlobalDefaultThreader ⟨some primary, deprecated⟩ g).1 =
          ThreaderTypeFromString primary) ∧
      (ThreaderTypeFromString primary = ThreaderType.Unknown →
        (GetGlobalDefaultThreader ⟨some primary, deprecated⟩ g).1 =
          g.m_GlobalDefaultThreader) := by
  rw [get_primary primary deprecated g hfresh, get_primary primary deprecated' g hfresh,
    fromString_upper]
  refine ⟨rfl, fun h => by rw [if_pos h], fun h => by rw [if_neg (fun hn => hn h)]⟩

/-- C13, instance: in the initial registry of a build without TBB, `pool` in the primary
variable resolves to `Pool` although the deprecated variable says `OFF`. -/
theorem C13_primary_variable_decides_witness :
    (GetGlobalDefaultThreader ⟨some "pool", some "OFF"⟩
      (MultiThreaderBaseGlobals.initial 128 false)).1 = ThreaderTypeFromString "pool" :=
  (C13_primary_variable_decides "pool" (some "OFF") none
    (MultiThreaderBaseGlobals.initial 128 false) rfl).2.1 (by decide)

/-- C14: with no earlier `SetGlobalDefaultThreader` or `GetGlobalDefaultThreader` call and the
primary variable absent: if the deprecated variable is present, the first
`GetGlobalDefaultThreader()` returns `Platform` exactly when its value equals `No`, `Off`
or `False` up to letter case, and `Pool` for every other value, the empty string included;
if the deprecated variable is absent too, it returns the stored default, which in a
registry that has only seen thread-count calls is the compiled-in fallback (`TBB` if
compiled in, else `Pool`). -/
theorem C14_deprecated_variable (ITK_MAX_THREADS : Nat) (ITK_USE_TBB : Bool)
    (ops : List RegistryOp) (g : MultiThreaderBaseGlobals)
    (hg : g = runRegistry ITK_MAX_THREADS
      (MultiThreaderBaseGlobals.initial ITK_MAX_THREADS ITK_USE_TBB) ops) :
    (∀ deprecated : String,
      ((GetGlobalDefaultThreader ⟨none, some deprecated⟩ g).1 = ThreaderType.Platform ↔
        (UpperCase deprecated = UpperCase "No" ∨ UpperCase deprecated = UpperCase "Off" ∨
          UpperCase deprecated = UpperCase "False")) ∧
      ((GetGlobalDefaultThreader ⟨none, some deprecated⟩ g).1 = ThreaderType.Pool ↔
        ¬ (UpperCase deprecated = UpperCase "No" ∨ UpperCase deprecated = UpperCase "Off" ∨
          UpperCase deprecated = UpperCase "False"))) ∧
    (GetGlobalDefaultThreader ⟨none, some ""⟩ g).1 = ThreaderType.Pool ∧
    (GetGlobalDefaultThreader ⟨none, none⟩ g).1 =
      (if ITK_USE_TBB then ThreaderType.TBB else ThreaderType.Pool) := by
  obtain ⟨h1, h2⟩ := runRegistry_backend ITK_MAX_THREADS ops
    (MultiThreaderBaseGlobals.initial ITK_MAX_THREADS ITK_USE_TBB)
  rw [← hg] at h1 h2
  have hfresh : g.GlobalDefaultThreaderTypeIsInitialized = false := h1
  have eNo : UpperCase "No" = "NO" := by decide
  have eOff : UpperCase "Off" = "OFF" := by decide
  have eFalse : UpperCase "False" = "FALSE" := by decide
  refine ⟨fun deprecated => ?_, ?_, ?_⟩
  · rw [get_deprecated deprecated g hfresh, eNo, eOff, eFalse]
    by_cases hc : UpperCase deprecated ≠ "NO" ∧ UpperCase deprecated ≠ "OFF" ∧
        UpperCase deprecated ≠ "FALSE"
    · rw [if_pos hc]
      obtain ⟨c1, c2, c3⟩ := hc
      constructor
      · constructor
        · intro h
          exact absurd h (by decide)
        · rintro (h | h | h)
          · exact absurd h c1
          · exact absurd h c2
          · exact absurd h c3
      · constructor
        · intro _
          rintro (h | h | h)
          · exact absurd h c1
          · exact absurd h c2
          · exact absurd h c3
        · intro _
          rfl
    · rw [if_neg hc]
      have hc' : UpperCase deprecated = "NO" ∨ UpperCase deprecated = "OFF" ∨
          UpperCase deprecated = "FALSE" := by
        by_contra hn
        push_neg at hn
        exact hc hn
      constructor
      · exact ⟨fun _ => hc', fun _ => rfl⟩
      · constructor
        · intro h
          exact absurd h (by decide)
        · intro h
          exact absurd hc' h
  · rw [get_deprecated "" g hfresh]
    decide
  · rw [get_no_variable g hfresh, h2]
    rfl

/-- C14, instance: in the initial registry of a build without TBB, the deprecated value
`off` resolves to `Platform`. -/
theorem C14_deprecated_variable_witness :
    (GetGlobalDefaultThreader ⟨none, some "off"⟩
      (MultiThreaderBaseGlobals.initial 128 false)).1 = ThreaderType.Platform :=
  (((C14_deprecated_variable 128 false [] (MultiThreaderBaseGlobals.initial 128 false)
    rfl).1 "off").1).2 (Or.inr (Or.inl (by decide)))

/-- C20: with no object-factory override, `MultiThreaderBase::New()` throws, at
construction, exactly when the back end that `GetGlobalDefaultThreader()` resolves is
`TBB` in a build without TBB, or `Unknown`; for `Platform`, `Pool` and `TBB` in a build
with TBB it returns an object of exactly the corresponding class. -/
theorem C20_new_fails_fast (ITK_USE_TBB : Bool) (env : Environment)
    (g : MultiThreaderBaseGlobals) :
    ((∃ t, (New ITK_USE_TBB none env g).1 = NewResult.failed t) ↔
      (((GetGlobalDefaultThreader env g).1 = ThreaderType.TBB ∧ ITK_USE_TBB = false) ∨
        (GetGlobalDefaultThreader env g).1 = ThreaderType.Unknown)) ∧
    ((GetGlobalDefaultThreader env g).1 = ThreaderType.Platform →
      (New ITK_USE_TBB none env g).1 =
        NewResult.created ConcreteThreader.PlatformMultiThreader) ∧
    ((GetGlobalDefaultThreader env g).1 = ThreaderType.Pool →
      (New ITK_USE_TBB none env g).1 = NewResult.created ConcreteThreader.PoolMultiThreader) ∧
    ((GetGlobalDefaultThreader env g).1 = ThreaderType.TBB → ITK_USE_TBB = true →
      (New ITK_USE_TBB none env g).1 = NewResult.created ConcreteThreader.TBBMultiThreader) ∧
    (∀ t, (New ITK_USE_TBB none env g).1 = NewResult.failed t →
      t.cls = ExceptionClass.ExceptionObject) ∧
    (New ITK_USE_TBB none env g).2 = (GetGlobalDefaultThreader env g).2 := by
  unfold New
  simp only []
  rcases hk : (GetGlobalDefaultThreader env g).1 with _ | _ | _ | _
  · simp
  · simp
  · cases ITK_USE_TBB <;> simp
  · simp

/-- C20, instance: a build without TBB whose primary variable says `tbb` cannot construct
an engine, while `platform` gives a `PlatformMultiThreader`. -/
theorem C20_new_fails_fast_witness :
    (∃ t, (New false none ⟨some "tbb", none⟩
      (MultiThreaderBaseGlobals.initial 128 false)).1 = NewResult.failed t) ∧
    (New false none ⟨some "platform", none⟩ (MultiThreaderBaseGlobals.initial 128 false)).1 =
      NewResult.created ConcreteThreader.PlatformMultiThreader :=
  ⟨(C20_new_fails_fast false ⟨some "tbb", none⟩
      (MultiThreaderBaseGlobals.initial 128 false)).1.2 (Or.inl ⟨by decide, rfl⟩),
    (C20_new_fails_fast false ⟨some "platform", none⟩
      (MultiThreaderBaseGlobals.initial 128 false)).2.1 (by decide)⟩

/-! ## Progress reports and the progress counter -/

theorem progressReports_append (xs ys : List Event) :
    progressReports (xs ++ ys) = progressReports xs ++ progressReports ys := by
  induction xs with
  | nil => rfl
  | cons e es ih =>
    cases e <;> simp [progressReports, ih]

theorem afterArrayCall_reports (w : World) (i : Nat) (r : FunctorResult) :
    progressReports (w.afterArrayCall i r).events = progressReports w.events ∧
      (w.afterArrayCall i r).progress = w.progress ∧
      (w.afterArrayCall i r).events = w.events ++ [Event.arrayCall i] := by
  simp [World.afterArrayCall, World.log, progressReports_append, progressReports]

theorem countElement_reports (ac : ArrayCallback) (thread range : Nat) (w : World)
    (h : ac.filter = none ∨ ac.callingThread ≠ thread) :
    progressReports (ParallelizeArrayHelper.countElement ac thread range w).events =
      progressReports w.events := by
  unfold ParallelizeArrayHelper.countElement
  rcases hf : ac.filter with _ | f
  · rfl
  · simp only []
    rcases h with h | h
    · rw [hf] at h
      exact absurd h (by simp)
    · rw [if_neg h]

theorem countElement_progress (ac : ArrayCallback) (thread range : Nat) (w : World)
    (f : ProcessObject) (hf : ac.filter = some f) :
    (ParallelizeArrayHelper.countElement ac thread range w).progress =
      (w.progress + 1) % SizeValueModulus := by
  unfold ParallelizeArrayHelper.countElement
  rw [hf]
  simp only []
  split_ifs <;> rfl

theorem countElement_extends (ac : ArrayCallback) (thread range : Nat) (w : World) :
    ∃ mid, (ParallelizeArrayHelper.countElement ac thread range w).events = w.events ++ mid := by
  unfold ParallelizeArrayHelper.countElement
  rcases ac.filter with _ | f
  · exact ⟨[], by simp⟩
  · simp only []
    split_ifs
    · exact ⟨_, rfl⟩
    · exact ⟨[], by simp⟩

theorem loop_reports (ac : ArrayCallback) (thread range : Nat)
    (h : ac.filter = none ∨ ac.callingThread ≠ thread) : ∀ (count i : Nat) (w : World),
    progressReports (ParallelizeArrayHelper.loop ac thread range count i w).1.events =
      progressReports w.events := by
  intro count
  induction count with
  | zero => intro i w; rfl
  | succ n ih =>
    intro i w
    rcases hr : (ac.functor i).raised with _ | t
    · simp only [ParallelizeArrayHelper.loop, hr]
      rw [ih, countElement_reports ac thread range _ h, (afterArrayCall_reports w i _).1]
    · simp only [ParallelizeArrayHelper.loop, hr]
      exact (afterArrayCall_reports w i _).1

theorem loop_extends (ac : ArrayCallback) (thread range : Nat) : ∀ (count i : Nat) (w : World),
    ∃ mid, (ParallelizeArrayHelper.loop ac thread range count i w).1.events =
      w.events ++ mid := by
  intro count
  induction count with
  | zero => intro i w; exact ⟨[], by simp [ParallelizeArrayHelper.loop]⟩
  | succ n ih =>
    intro i w
    rcases hr : (ac.functor i).raised with _ | t
    · simp only [ParallelizeArrayHelper.loop, hr]
      obtain ⟨m1, h1⟩ := ih (i + 1) (ParallelizeArrayHelper.countElement ac thread range
        (w.afterArrayCall i (ac.functor i)))
      obtain ⟨m2, h2⟩ := countElement_extends ac thread range (w.afterArrayCall i (ac.functor i))
      refine ⟨[Event.arrayCall i] ++ m2 ++ m1, ?_⟩
      rw [h1, h2, (afterArrayCall_reports w i _).2.2]
      simp
    · simp only [ParallelizeArrayHelper.loop, hr]
      exact ⟨_, (afterArrayCall_reports w i _).2.2⟩

theorem loop_progress (ac : ArrayCallback) (thread range : Nat) (f : ProcessObject)
    (hf : ac.filter = some f) : ∀ (count i : Nat) (w : World),
    w.progress < SizeValueModulus →
    (∀ j, i ≤ j → j < i + count → (ac.functor j).raised = none) →
    (ParallelizeArrayHelper.loop ac thread range count i w).1.progress =
      (w.progress + count) % SizeValueModulus := by
  intro count
  induction count with
  | zero =>
    intro i w hw _
    simp only [ParallelizeArrayHelper.loop, Nat.add_zero]
    exact (Nat.mod_eq_of_lt hw).symm
  | succ n ih =>
    intro i w hw h
    have hr := h i (le_refl _) (by omega)
    have hpos : 0 < SizeValueModulus := by decide
    simp only [ParallelizeArrayHelper.loop, hr]
    have hc := countElement_progress ac thread range (w.afterArrayCall i (ac.functor i)) f hf
    rw [ih (i + 1) _ (by rw [hc]; exact Nat.mod_lt _ hpos)
        (fun j h1 h2 => h j (by omega) (by omega)),
      hc, (afterArrayCall_reports w i _).2.1]
    rw [Nat.add_mod, Nat.mod_mod, ← Nat.add_mod]
    congr 1
    omega

theorem loop_split (ac : ArrayCallback) (thread range : Nat) : ∀ (m k i : Nat) (w : World),
    (∀ j, i ≤ j → j < i + m → (ac.functor j).raised = none) →
    ParallelizeArrayHelper.loop ac thread range (m + k) i w =
      ParallelizeArrayHelper.loop ac thread range k (i + m)
        (ParallelizeArrayHelper.loop ac thread range m i w).1 := by
  intro m
  induction m with
  | zero =>
    intro k i w _
    simp [ParallelizeArrayHelper.loop]
  | succ n ih =>
    intro k i w h
    have hr := h i (le_refl _) (by omega)
    have e : n + 1 + k = (n + k) + 1 := by omega
    rw [e]
    simp only [ParallelizeArrayHelper.loop, hr]
    rw [ih k (i + 1) _ (fun j h1 h2 => h j (by omega) (by omega))]
    have e2 : i + 1 + n = i + (n + 1) := by omega
    rw [e2]

theorem loop_progress_fault (ac : ArrayCallback) (thread range : Nat) (f : ProcessObject)
    (hf : ac.filter = some f) (count i m : Nat) (w : World) (t : Thrown)
    (hw : w.progress < SizeValueModulus) (hm : m < count)
    (hok : ∀ j, i ≤ j → j < i + m → (ac.functor j).raised = none)
    (ht : (ac.functor (i + m)).raised = some t) :
    (ParallelizeArrayHelper.loop ac thread range count i w).1.progress =
      (w.progress + m) % SizeValueModulus ∧
    (ParallelizeArrayHelper.loop ac thread range count i w).2 = some t := by
  have e : count = m + ((count - m - 1) + 1) := by omega
  rw [e, loop_split ac thread range m _ i w hok]
  simp only [ParallelizeArrayHelper.loop, ht]
  exact ⟨((afterArrayCall_reports _ (i + m) _).2.1).trans
    (loop_progress ac thread range f hf m i w hw hok), trivial⟩

/-! ## The region worker -/

theorem regionHelper_idle (GetSplit : RegionSplitter) (rnc : RegionAndCallback)
    (info : ThreadInfoStruct) (w : World)
    (h : (GetSplit info.ThreadID info.NumberOfThreads rnc.region).1 ≤ info.ThreadID) :
    (ParallelizeImageRegionHelper GetSplit rnc info w).1 = w := by
  have hn : ¬ info.ThreadID < (GetSplit info.ThreadID info.NumberOfThreads rnc.region).1 := by
    omega
  unfold ParallelizeImageRegionHelper
  simp only []
  simp only [RegionAndCallback.region] at hn
  rcases hf : rnc.filter with _ | f
  · simp only []
    rw [if_neg hn]
  · rcases ha : w.abortGenerateData with _ | _
    · simp only []
      rw [if_neg hn]
    · rfl

theorem regionHelper_run (GetSplit : RegionSplitter) (rnc : RegionAndCallback)
    (info : ThreadInfoStruct) (w : World)
    (h : info.ThreadID < (GetSplit info.ThreadID info.NumberOfThreads rnc.region).1)
    (hab : rnc.filter = none ∨ w.abortGenerateData = false) :
    ParallelizeImageRegionHelper GetSplit rnc info w =
      match (rnc.functor (GetSplit info.ThreadID info.NumberOfThreads rnc.region).2.index
          (GetSplit info.ThreadID info.NumberOfThreads rnc.region).2.size).raised with
      | some t =>
        ({ (w.log (Event.regionCall
              (GetSplit info.ThreadID info.NumberOfThreads rnc.region).2.index
              (GetSplit info.ThreadID info.NumberOfThreads rnc.region).2.size)) with
            abortGenerateData := w.abortGenerateData ||
              (rnc.functor (GetSplit info.ThreadID info.NumberOfThreads rnc.region).2.index
                (GetSplit info.ThreadID info.NumberOfThreads rnc.region).2.size).abortRequested },
          some t)
      | none =>
        match rnc.filter with
        | none =>
          ({ (w.log (Event.regionCall
                (GetSplit info.ThreadID info.NumberOfThreads rnc.region).2.index
                (GetSplit info.ThreadID info.NumberOfThreads rnc.region).2.size)) with
              abortGenerateData := w.abortGenerateData ||
                (rnc.functor (GetSplit info.ThreadID info.NumberOfThreads rnc.region).2.index
                  (GetSplit info.ThreadID info.NumberOfThreads
                    rnc.region).2.size).abortRequested },
            none)
        | some _ =>
          if rnc.callingThread = info.thread then
            (({ (w.log (Event.regionCall
                  (GetSplit info.ThreadID info.NumberOfThreads rnc.region).2.index
                  (GetSplit info.ThreadID info.NumberOfThreads rnc.region).2.size)) with
                abortGenerateData := w.abortGenerateData ||
                  (rnc.functor (GetSplit info.ThreadID info.NumberOfThreads rnc.region).2.index
                    (GetSplit info.ThreadID info.NumberOfThreads
                      rnc.region).2.size).abortRequested,
                progress := (w.progress +
                  (GetSplit info.ThreadID info.NumberOfThreads
                    rnc.region).2.GetNumberOfPixels) % SizeValueModulus } : World).log
              (Event.updateProgress
                (Floating.div floatPrec
                  (Floating.ofNat floatPrec ((w.progress +
                    (GetSplit info.ThreadID info.NumberOfThreads
                      rnc.region).2.GetNumberOfPixels) % SizeValueModulus))
                  (Floating.ofNat floatPrec rnc.pixelCount))), none)
          else
            ({ (w.log (Event.regionCall
                  (GetSplit info.ThreadID info.NumberOfThreads rnc.region).2.index
                  (GetSplit info.ThreadID info.NumberOfThreads rnc.region).2.size)) with
                abortGenerateData := w.abortGenerateData ||
                  (rnc.functor (GetSplit info.ThreadID info.NumberOfThreads rnc.region).2.index
                    (GetSplit info.ThreadID info.NumberOfThreads
                      rnc.region).2.size).abortRequested,
                progress := (w.progress +
                  (GetSplit info.ThreadID info.NumberOfThreads
                    rnc.region).2.GetNumberOfPixels) % SizeValueModulus }, none) := by
  unfold ParallelizeImageRegionHelper
  simp only []
  generalize hsp : GetSplit info.ThreadID info.NumberOfThreads rnc.region = sp at h
  simp only [RegionAndCallback.region] at hsp
  rw [hsp]
  rcases hf : rnc.filter with _ | f
  · rcases hr : (rnc.functor sp.2.index sp.2.size).raised with _ | t <;>
      simp only [if_pos h]
  · have ha : w.abortGenerateData = false := by
      rcases hab with c | c
      · rw [hf] at c
        exact absurd c (by simp)
      · exact c
    rw [ha]
    simp only []
    rcases hr : (rnc.functor sp.2.index sp.2.size).raised with _ | t
    · by_cases hc : rnc.callingThread = info.thread
      · simp only [if_pos h, if_pos hc]
        rfl
      · simp only [if_neg hc, if_pos h]
        rfl
    · simp only [if_pos h]

theorem regionHelper_cases (GetSplit : RegionSplitter) (rnc : RegionAndCallback)
    (info : ThreadInfoStruct) (w : World) :
    (ParallelizeImageRegionHelper GetSplit rnc info w).1 = w ∨
    (info.ThreadID < (GetSplit info.ThreadID info.NumberOfThreads rnc.region).1 ∧
      (rnc.filter = none ∨ w.abortGenerateData = false)) := by
  by_cases h : info.ThreadID < (GetSplit info.ThreadID info.NumberOfThreads rnc.region).1
  · rcases hf : rnc.filter with _ | f
    · exact Or.inr ⟨h, Or.inl rfl⟩
    · rcases ha : w.abortGenerateData with _ | _
      · exact Or.inr ⟨h, Or.inr rfl⟩
      · left
        rw [regionHelper_abort GetSplit rnc info w f hf ha]
  · exact Or.inl (regionHelper_idle GetSplit rnc info w (by omega))

theorem regionHelper_calls (GetSplit : RegionSplitter) (rnc : RegionAndCallback)
    (info : ThreadInfoStruct) (w : World)
    (h : info.ThreadID < (GetSplit info.ThreadID info.NumberOfThreads rnc.region).1)
    (hab : rnc.filter = none ∨ w.abortGenerateData = false) :
    regionCalls (ParallelizeImageRegionHelper GetSplit rnc info w).1.events =
      regionCalls w.events ++
        [((GetSplit info.ThreadID info.NumberOfThreads rnc.region).2.index,
          (GetSplit info.ThreadID info.NumberOfThreads rnc.region).2.size)] ∧
    ∃ mid, (ParallelizeImageRegionHelper GetSplit rnc info w).1.events =
      w.events ++ Event.regionCall
        (GetSplit info.ThreadID info.NumberOfThreads rnc.region).2.index
        (GetSplit info.ThreadID info.NumberOfThreads rnc.region).2.size :: mid := by
  rw [regionHelper_run GetSplit rnc info w h hab]
  generalize GetSplit info.ThreadID info.NumberOfThreads rnc.region = sp
  rcases (rnc.functor sp.2.index sp.2.size).raised with _ | t
  · rcases rnc.filter with _ | f
    · simp only []
      exact ⟨by simp [World.log, regionCalls_append, regionCalls], [], by simp [World.log]⟩
    · simp only []
      split_ifs
      · exact ⟨by simp [World.log, regionCalls_append, regionCalls], _, by simp [World.log]; rfl⟩
      · exact ⟨by simp [World.log, regionCalls_append, regionCalls], [], by simp [World.log]⟩
  · simp only []
    exact ⟨by simp [World.log, regionCalls_append, regionCalls], [], by simp [World.log]⟩

theorem regionHelper_extends (GetSplit : RegionSplitter) (rnc : RegionAndCallback)
    (info : ThreadInfoStruct) (w : World) :
    ∃ mid, (ParallelizeImageRegionHelper GetSplit rnc info w).1.events = w.events ++ mid := by
  rcases regionHelper_cases GetSplit rnc info w with h | ⟨h, hab⟩
  · exact ⟨[], by rw [h]; simp⟩
  · obtain ⟨mid, hm⟩ := (regionHelper_calls GetSplit rnc info w h hab).2
    exact ⟨_, hm⟩

theorem regionHelper_reports (GetSplit : RegionSplitter) (rnc : RegionAndCallback)
    (info : ThreadInfoStruct) (w : World)
    (hth : rnc.filter = none ∨ rnc.callingThread ≠ info.thread) :
    progressReports (ParallelizeImageRegionHelper GetSplit rnc info w).1.events =
      progressReports w.events := by
  rcases regionHelper_cases GetSplit rnc info w with h | ⟨h, hab⟩
  · rw [h]
  · rw [regionHelper_run GetSplit rnc info w h hab]
    generalize GetSplit info.ThreadID info.NumberOfThreads rnc.region = sp
    rcases (rnc.functor sp.2.index sp.2.size).raised with _ | t
    · rcases hf : rnc.filter with _ | f
      · simp [World.log, progressReports_append, progressReports]
      · simp only []
        rcases hth with c | c
        · rw [hf] at c
          exact absurd c (by simp)
        · rw [if_neg c]
          simp [World.log, progressReports_append, progressReports]
    · simp [World.log, progressReports_append, progressReports]

theorem regionHelper_progress (GetSplit : RegionSplitter) (rnc : RegionAndCallback)
    (info : ThreadInfoStruct) (w : World) (f : ProcessObject) (hf : rnc.filter = some f)
    (hw : w.abortGenerateData = false)
    (h : info.ThreadID < (GetSplit info.ThreadID info.NumberOfThreads rnc.region).1)
    (hr : (rnc.functor (GetSplit info.ThreadID info.NumberOfThreads rnc.region).2.index
      (GetSplit info.ThreadID info.NumberOfThreads rnc.region).2.size).raised = none) :
    (ParallelizeImageRegionHelper GetSplit rnc info w).1.progress =
      (w.progress +
        (GetSplit info.ThreadID info.NumberOfThreads rnc.region).2.GetNumberOfPixels) %
          SizeValueModulus ∧
    (ParallelizeImageRegionHelper GetSplit rnc info w).2 = none := by
  rw [regionHelper_run GetSplit rnc info w h (Or.inr hw), hr, hf]
  simp only []
  split_ifs <;> exact ⟨rfl, rfl⟩

theorem regionHelper_fault (GetSplit : RegionSplitter) (rnc : RegionAndCallback)
    (info : ThreadInfoStruct) (w : World) (t : Thrown)
    (hab : rnc.filter = none ∨ w.abortGenerateData = false)
    (h : info.ThreadID < (GetSplit info.ThreadID info.NumberOfThreads rnc.region).1)
    (hr : (rnc.functor (GetSplit info.ThreadID info.NumberOfThreads rnc.region).2.index
      (GetSplit info.ThreadID info.NumberOfThreads rnc.region).2.size).raised = some t) :
    (ParallelizeImageRegionHelper GetSplit rnc info w).1.progress = w.progress ∧
    (ParallelizeImageRegionHelper GetSplit rnc info w).2 = some t := by
  rw [regionHelper_run GetSplit rnc info w h hab, hr]
  exact ⟨rfl, rfl⟩

/-! ## The array worker -/

theorem helper_cases (ac : ArrayCallback) (info : ThreadInfoStruct) (w : World) :
    (ParallelizeArrayHelper ac info w).1 = w ∨
    ParallelizeArrayHelper ac info w =
      ParallelizeArrayHelper.loop ac info.thread
        ((ac.lastIndexPlus1 + SizeValueModulus - ac.firstIndex) % SizeValueModulus)
        ((ParallelizeArrayHelper.subRange ac.firstIndex ac.lastIndexPlus1 info.ThreadID
            info.NumberOfThreads).2 -
          (ParallelizeArrayHelper.subRange ac.firstIndex ac.lastIndexPlus1 info.ThreadID
            info.NumberOfThreads).1)
        (ParallelizeArrayHelper.subRange ac.firstIndex ac.lastIndexPlus1 info.ThreadID
          info.NumberOfThreads).1 w := by
  rcases ha : w.abortGenerateData with _ | _
  · exact Or.inr (helper_eq_loop ac info w ha)
  · rcases hf : ac.filter with _ | f
    · right
      unfold ParallelizeArrayHelper
      simp [hf]
    · left
      rw [helper_abort ac info w f hf ha]

theorem helper_extends (ac : ArrayCallback) (info : ThreadInfoStruct) (w : World) :
    ∃ mid, (ParallelizeArrayHelper ac info w).1.events = w.events ++ mid := by
  rcases helper_cases ac info w with h | h
  · exact ⟨[], by rw [h]; simp⟩
  · rw [h]
    exact loop_extends ac _ _ _ _ w

theorem helper_reports (ac : ArrayCallback) (info : ThreadInfoStruct) (w : World)
    (hth : ac.filter = none ∨ ac.callingThread ≠ info.thread) :
    progressReports (ParallelizeArrayHelper ac info w).1.events = progressReports w.events := by
  rcases helper_cases ac info w with h | h
  · rw [h]
  · rw [h]
    exact loop_reports ac _ _ hth _ _ w

theorem helper_progress (ac : ArrayCallback) (info : ThreadInfoStruct) (w : World)
    (f : ProcessObject) (hf : ac.filter = some f) (hw : w.abortGenerateData = false)
    (hp : w.progress < SizeValueModulus) (hok : ∀ j, (ac.functor j).raised = none) :
    (ParallelizeArrayHelper ac info w).1.progress =
      (w.progress +
        ((ParallelizeArrayHelper.subRange ac.firstIndex ac.lastIndexPlus1 info.ThreadID
            info.NumberOfThreads).2 -
          (ParallelizeArrayHelper.subRange ac.firstIndex ac.lastIndexPlus1 info.ThreadID
            info.NumberOfThreads).1)) % SizeValueModulus := by
  rw [helper_eq_loop ac info w hw]
  exact loop_progress ac _ _ f hf _ _ w hp (fun j _ _ => hok j)

theorem helper_progress_fault (ac : ArrayCallback) (info : ThreadInfoStruct) (w : World)
    (f : ProcessObject) (hf : ac.filter = some f) (hw : w.abortGenerateData = false)
    (hp : w.progress < SizeValueModulus) (m : Nat) (t : Thrown)
    (hm : m < (ParallelizeArrayHelper.subRange ac.firstIndex ac.lastIndexPlus1 info.ThreadID
            info.NumberOfThreads).2 -
          (ParallelizeArrayHelper.subRange ac.firstIndex ac.lastIndexPlus1 info.ThreadID
            info.NumberOfThreads).1)
    (hok : ∀ j, (ParallelizeArrayHelper.subRange ac.firstIndex ac.lastIndexPlus1 info.ThreadID
        info.NumberOfThreads).1 ≤ j →
      j < (ParallelizeArrayHelper.subRange ac.firstIndex ac.lastIndexPlus1 info.ThreadID
        info.NumberOfThreads).1 + m → (ac.functor j).raised = none)
    (ht : (ac.functor ((ParallelizeArrayHelper.subRange ac.firstIndex ac.lastIndexPlus1
      info.ThreadID info.NumberOfThreads).1 + m)).raised = some t) :
    (ParallelizeArrayHelper ac info w).1.progress = (w.progress + m) % SizeValueModulus ∧
    (ParallelizeArrayHelper ac info w).2 = some t := by
  rw [helper_eq_loop ac info w hw]
  exact loop_progress_fault ac _ _ f hf _ _ m w t hp hm hok ht

/-! ## The executor -/

theorem proxy_world (fn : ThreadFunction) (info : ThreadInfoStruct) (w : World) :
    (SingleMethodProxy fn info w).1 = (fn info w).1 := by
  unfold SingleMethodProxy
  rcases h : fn info w with ⟨w1, _ | t⟩ <;> rfl

theorem runWorkers_extends (fn : ThreadFunction) (n : Nat) (threadOf : Nat → Nat)
    (hfn : ∀ info v, ∃ mid, (fn info v).1.events = v.events ++ mid) :
    ∀ (ids : List Nat) (w : World),
      ∃ mid, (runWorkers fn n threadOf ids w).1.events = w.events ++ mid := by
  intro ids
  induction ids with
  | nil => intro w; exact ⟨[], by simp [runWorkers]⟩
  | cons id ids ih =>
    intro w
    simp only [runWorkers]
    obtain ⟨m1, h1⟩ := ih (SingleMethodProxy fn
      { ThreadID := id, NumberOfThreads := n, thread := threadOf id,
        ThreadExitCode := ThreadExitCodeType.SUCCESS } w).1
    obtain ⟨m2, h2⟩ := hfn
      { ThreadID := id, NumberOfThreads := n, thread := threadOf id,
        ThreadExitCode := ThreadExitCodeType.SUCCESS } w
    refine ⟨m2 ++ m1, ?_⟩
    rw [h1, proxy_world, h2, List.append_assoc]

theorem runWorkers_reports (fn : ThreadFunction) (n : Nat) (threadOf : Nat → Nat)
    (hfn : ∀ info v, progressReports (fn info v).1.events = progressReports v.events) :
    ∀ (ids : List Nat) (w : World),
      progressReports (runWorkers fn n threadOf ids w).1.events = progressReports w.events := by
  intro ids
  induction ids with
  | nil => intro w; rfl
  | cons id ids ih =>
    intro w
    simp only [runWorkers]
    rw [ih, proxy_world, hfn]

theorem execute_world (fn : ThreadFunction) (n : Nat) (threadOf : Nat → Nat) (w : World) :
    (SingleMethodExecute n threadOf fn w).1 =
      (runWorkers fn n threadOf (List.range n) (w.log Event.singleMethodExecute)).1 := by
  unfold SingleMethodExecute
  simp only []
  split <;> rfl

theorem execute_extends (fn : ThreadFunction) (n : Nat) (threadOf : Nat → Nat)
    (hfn : ∀ info v, ∃ mid, (fn info v).1.events = v.events ++ mid) (w : World) :
    ∃ mid, (SingleMethodExecute n threadOf fn w).1.events = w.events ++ mid := by
  rw [execute_world]
  obtain ⟨m, h⟩ := runWorkers_extends fn n threadOf hfn (List.range n)
    (w.log Event.singleMethodExecute)
  exact ⟨Event.singleMethodExecute :: m, by rw [h]; simp [World.log]⟩

theorem execute_reports (fn : ThreadFunction) (n : Nat) (threadOf : Nat → Nat)
    (hfn : ∀ info v, progressReports (fn info v).1.events = progressReports v.events)
    (w : World) :
    progressReports (SingleMethodExecute n threadOf fn w).1.events =
      progressReports w.events := by
  rw [execute_world, runWorkers_reports fn n threadOf hfn]
  simp [World.log, progressReports_append, progressReports]

/-! ## Claims on the region workers and on progress reporting -/

/-- C15: in `ParallelizeImageRegionHelper`, with `k` the number of pieces the splitter
reports to the worker, a worker with `ThreadID ≥ k` leaves the state untouched: the region
callback is not invoked, the shared progress counter keeps its value and no progress is
reported.  A worker with `ThreadID < k`, with no abort pending (no filter, or its abort flag
clear), invokes the callback exactly once, on the region the splitter returned for it, and
this call is the first thing the worker does. -/
theorem C15_region_workers (GetSplit : RegionSplitter) (rnc : RegionAndCallback)
    (info : ThreadInfoStruct) (w : World) :
    ((GetSplit info.ThreadID info.NumberOfThreads rnc.region).1 ≤ info.ThreadID →
      (ParallelizeImageRegionHelper GetSplit rnc info w).1 = w ∧
      regionCalls (ParallelizeImageRegionHelper GetSplit rnc info w).1.events =
        regionCalls w.events ∧
      (ParallelizeImageRegionHelper GetSplit rnc info w).1.progress = w.progress ∧
      progressReports (ParallelizeImageRegionHelper GetSplit rnc info w).1.events =
        progressReports w.events) ∧
    (info.ThreadID < (GetSplit info.ThreadID info.NumberOfThreads rnc.region).1 →
      (rnc.filter = none ∨ w.abortGenerateData = false) →
      regionCalls (ParallelizeImageRegionHelper GetSplit rnc info w).1.events =
        regionCalls w.events ++
          [((GetSplit info.ThreadID info.NumberOfThreads rnc.region).2.index,
            (GetSplit info.ThreadID info.NumberOfThreads rnc.region).2.size)] ∧
      ∃ mid, (ParallelizeImageRegionHelper GetSplit rnc info w).1.events =
        w.events ++ Event.regionCall
          (GetSplit info.ThreadID info.NumberOfThreads rnc.region).2.index
          (GetSplit info.ThreadID info.NumberOfThreads rnc.region).2.size :: mid) := by
  refine ⟨fun h => ?_, fun h hab => regionHelper_calls GetSplit rnc info w h hab⟩
  have e := regionHelper_idle GetSplit rnc info w h
  rw [e]
  exact ⟨rfl, rfl, rfl, rfl⟩

/-- C15, instance: a splitter that cuts `[0, 2)` into 2 one-pixel pieces, asked for 4.
Worker 3 does nothing; worker 1 calls the callback once, on the piece at index 1. -/
theorem C15_region_workers_witness :
    (ParallelizeImageRegionHelper (fun i _ _ => (2, ⟨[Int.ofNat i], [1]⟩))
        ⟨fun _ _ => ⟨none, false⟩, 1, [0], [2], none, 0, 2⟩
        ⟨3, 4, 3, ThreadExitCodeType.SUCCESS⟩ ⟨false, 0, []⟩).1 = ⟨false, 0, []⟩ ∧
    regionCalls (ParallelizeImageRegionHelper (fun i _ _ => (2, ⟨[Int.ofNat i], [1]⟩))
        ⟨fun _ _ => ⟨none, false⟩, 1, [0], [2], none, 0, 2⟩
        ⟨1, 4, 1, ThreadExitCodeType.SUCCESS⟩ ⟨false, 0, []⟩).1.events = [([1], [1])] :=
  ⟨((C15_region_workers (fun i _ _ => (2, ⟨[Int.ofNat i], [1]⟩))
      ⟨fun _ _ => ⟨none, false⟩, 1, [0], [2], none, 0, 2⟩
      ⟨3, 4, 3, ThreadExitCodeType.SUCCESS⟩ ⟨false, 0, []⟩).1 (by decide)).1,
    ((C15_region_workers (fun i _ _ => (2, ⟨[Int.ofNat i], [1]⟩))
      ⟨fun _ _ => ⟨none, false⟩, 1, [0], [2], none, 0, 2⟩
      ⟨1, 4, 1, ThreadExitCodeType.SUCCESS⟩ ⟨false, 0, []⟩).2 (by decide) (Or.inl rfl)).1⟩

/-- C16: take a worker (`ThreadID < NumberOfThreads`, both `ThreadIdType` values) and array
bounds that are `SizeValueType` values.  A worker of `ParallelizeArrayHelper` or of
`ParallelizeImageRegionHelper` whose thread is not the calling thread stored in the task context at dispatch time reports no
progress, however it ends.  With a filter present it still counts its completed units in the
shared progress counter (modulo `2^64`, the counter being a `SizeValueType`): an array worker
that starts with no abort pending and whose callback does not fault adds the length of its
sub-range, one per element; a region worker that has a piece, starts with no abort pending
and whose callback does not fault adds the number of pixels of its piece.  A worker whose
callback faults has added what it completed before: the array worker the number `m` of
elements before the faulting one, the region worker nothing; a worker that finds the abort
flag set does no work and adds nothing. -/
theorem C16_only_calling_thread_reports (ac : ArrayCallback) (GetSplit : RegionSplitter)
    (rnc : RegionAndCallback) (info : ThreadInfoStruct) (w : World)
    (hid : info.ThreadID < info.NumberOfThreads) (hty : info.NumberOfThreads < ThreadIdModulus)
    (hfirst : ac.firstIndex < SizeValueModulus) (hlast : ac.lastIndexPlus1 < SizeValueModulus)
    (hta : ac.callingThread ≠ info.thread) (htr : rnc.callingThread ≠ info.thread) :
    progressReports (ParallelizeArrayHelper ac info w).1.events = progressReports w.events ∧
    progressReports (ParallelizeImageRegionHelper GetSplit rnc info w).1.events =
      progressReports w.events ∧
    (∀ f, ac.filter = some f → w.abortGenerateData = false → w.progress < SizeValueModulus →
      (∀ j, (ac.functor j).raised = none) →
      (ParallelizeArrayHelper ac info w).1.progress =
        (w.progress +
          ((ParallelizeArrayHelper.subRange ac.firstIndex ac.lastIndexPlus1 info.ThreadID
              info.NumberOfThreads).2 -
            (ParallelizeArrayHelper.subRange ac.firstIndex ac.lastIndexPlus1 info.ThreadID
              info.NumberOfThreads).1)) % SizeValueModulus ∧
      ∀ m, m ≤ (ParallelizeArrayHelper.subRange ac.firstIndex ac.lastIndexPlus1 info.ThreadID
              info.NumberOfThreads).2 -
            (ParallelizeArrayHelper.subRange ac.firstIndex ac.lastIndexPlus1 info.ThreadID
              info.NumberOfThreads).1 →
        (ParallelizeArrayHelper.loop ac info.thread
          ((ac.lastIndexPlus1 + SizeValueModulus - ac.firstIndex) % SizeValueModulus) m
          (ParallelizeArrayHelper.subRange ac.firstIndex ac.lastIndexPlus1 info.ThreadID
              info.NumberOfThreads).1 w).1.progress = (w.progress + m) % SizeValueModulus) ∧
    (∀ f, rnc.filter = some f → w.abortGenerateData = false →
      info.ThreadID < (GetSplit info.ThreadID info.NumberOfThreads rnc.region).1 →
      (rnc.functor (GetSplit info.ThreadID info.NumberOfThreads rnc.region).2.index
        (GetSplit info.ThreadID info.NumberOfThreads rnc.region).2.size).raised = none →
      (ParallelizeImageRegionHelper GetSplit rnc info w).1.progress =
        (w.progress +
          (GetSplit info.ThreadID info.NumberOfThreads rnc.region).2.GetNumberOfPixels) %
            SizeValueModulus) ∧
    (∀ f m t, ac.filter = some f → w.abortGenerateData = false →
      w.progress < SizeValueModulus →
      m < (ParallelizeArrayHelper.subRange ac.firstIndex ac.lastIndexPlus1 info.ThreadID
              info.NumberOfThreads).2 -
            (ParallelizeArrayHelper.subRange ac.firstIndex ac.lastIndexPlus1 info.ThreadID
              info.NumberOfThreads).1 →
      (∀ j, (ParallelizeArrayHelper.subRange ac.firstIndex ac.lastIndexPlus1 info.ThreadID
          info.NumberOfThreads).1 ≤ j →
        j < (ParallelizeArrayHelper.subRange ac.firstIndex ac.lastIndexPlus1 info.ThreadID
          info.NumberOfThreads).1 + m → (ac.functor j).raised = none) →
      (ac.functor ((ParallelizeArrayHelper.subRange ac.firstIndex ac.lastIndexPlus1
        info.ThreadID info.NumberOfThreads).1 + m)).raised = some t →
      (ParallelizeArrayHelper ac info w).1.progress = (w.progress + m) % SizeValueModulus) ∧
    (∀ f t, rnc.filter = some f → w.abortGenerateData = false →
      info.ThreadID < (GetSplit info.ThreadID info.NumberOfThreads rnc.region).1 →
      (rnc.functor (GetSplit info.ThreadID info.NumberOfThreads rnc.region).2.index
        (GetSplit info.ThreadID info.NumberOfThreads rnc.region).2.size).raised = some t →
      (ParallelizeImageRegionHelper GetSplit rnc info w).1.progress = w.progress) ∧
    (∀ f, ac.filter = some f → w.abortGenerateData = true →
      (ParallelizeArrayHelper ac info w).1 = w) ∧
    (∀ f, rnc.filter = some f → w.abortGenerateData = true →
      (ParallelizeImageRegionHelper GetSplit rnc info w).1 = w) := by
  have _wellFormed := And.intro hid (And.intro hty (And.intro hfirst hlast))
  refine ⟨helper_reports ac info w (Or.inr hta),
    regionHelper_reports GetSplit rnc info w (Or.inr htr), ?_, ?_, ?_, ?_, ?_, ?_⟩
  · intro f hf hw hp hok
    exact ⟨helper_progress ac info w f hf hw hp hok,
      fun m _ => loop_progress ac _ _ f hf m _ w hp (fun j _ _ => hok j)⟩
  · intro f hf hw h hr
    exact (regionHelper_progress GetSplit rnc info w f hf hw h hr).1
  · intro f m t hf hw hp hm hok ht
    exact (helper_progress_fault ac info w f hf hw hp m t hm hok ht).1
  · intro f t _ hw h hr
    exact (regionHelper_fault GetSplit rnc info w t (Or.inr hw) h hr).1
  · intro f hf hw
    rw [helper_abort ac info w f hf hw]
  · intro f hf hw
    rw [regionHelper_abort GetSplit rnc info w f hf hw]

set_option maxRecDepth 100000 in
/-- C16, instance: worker 1 of 2 over `[0, 10)` and over the region `[0, 2)`, running on
thread 3 while the dispatch was called on thread 7, with a filter present: the worker
reports nothing, and the region worker adds the one pixel of its piece to the counter.
For `firstIndex = 2^64 - 1`, `lastIndexPlus1 = 5`, where both bounds of worker 0 of 2
convert to 0, that worker has nothing to do and adds 0 to the counter, and worker 1, whose
sub-range is `[0, 5)`, adds 5. -/
theorem C16_only_calling_thread_reports_witness :
    progressReports (ParallelizeArrayHelper
        ⟨fun _ => ⟨none, false⟩, 0, 10, some ⟨"Filter"⟩, 7⟩
        ⟨1, 2, 3, ThreadExitCodeType.SUCCESS⟩ ⟨false, 0, []⟩).1.events = [] ∧
    (ParallelizeImageRegionHelper (fun i _ _ => (2, ⟨[Int.ofNat i], [1]⟩))
        ⟨fun _ _ => ⟨none, false⟩, 1, [0], [2], some ⟨"Filter"⟩, 7, 2⟩
        ⟨1, 2, 3, ThreadExitCodeType.SUCCESS⟩ ⟨false, 0, []⟩).1.progress = 1 ∧
    (ParallelizeArrayHelper
        ⟨fun _ => ⟨none, false⟩, 2 ^ 64 - 1, 5, some ⟨"Filter"⟩, 7⟩
        ⟨0, 2, 3, ThreadExitCodeType.SUCCESS⟩ ⟨false, 0, []⟩).1.progress = 0 ∧
    (ParallelizeArrayHelper
        ⟨fun _ => ⟨none, false⟩, 2 ^ 64 - 1, 5, some ⟨"Filter"⟩, 7⟩
        ⟨1, 2, 3, ThreadExitCodeType.SUCCESS⟩ ⟨false, 0, []⟩).1.progress = 5 :=
  ⟨(C16_only_calling_thread_reports ⟨fun _ => ⟨none, false⟩, 0, 10, some ⟨"Filter"⟩, 7⟩
      (fun i _ _ => (2, ⟨[Int.ofNat i], [1]⟩))
      ⟨fun _ _ => ⟨none, false⟩, 1, [0], [2], some ⟨"Filter"⟩, 7, 2⟩
      ⟨1, 2, 3, ThreadExitCodeType.SUCCESS⟩ ⟨false, 0, []⟩ (by decide) (by decide) (by decide)
      (by decide) (by decide) (by decide)).1,
    (C16_only_calling_thread_reports ⟨fun _ => ⟨none, false⟩, 0, 10, some ⟨"Filter"⟩, 7⟩
      (fun i _ _ => (2, ⟨[Int.ofNat i], [1]⟩))
      ⟨fun _ _ => ⟨none, false⟩, 1, [0], [2], some ⟨"Filter"⟩, 7, 2⟩
      ⟨1, 2, 3, ThreadExitCodeType.SUCCESS⟩ ⟨false, 0, []⟩ (by decide) (by decide) (by decide)
      (by decide) (by decide) (by decide)).2.2.2.1
      ⟨"Filter"⟩ rfl rfl (by decide) rfl,
    ((C16_only_calling_thread_reports
      ⟨fun _ => ⟨none, false⟩, 2 ^ 64 - 1, 5, some ⟨"Filter"⟩, 7⟩
      (fun i _ _ => (2, ⟨[Int.ofNat i], [1]⟩))
      ⟨fun _ _ => ⟨none, false⟩, 1, [0], [2], some ⟨"Filter"⟩, 7, 2⟩
      ⟨0, 2, 3, ThreadExitCodeType.SUCCESS⟩ ⟨false, 0, []⟩ (by decide) (by decide) (by decide)
      (by decide) (by decide) (by decide)).2.2.1
      ⟨"Filter"⟩ rfl rfl (by decide) (fun _ => rfl)).1,
    ((C16_only_calling_thread_reports
      ⟨fun _ => ⟨none, false⟩, 2 ^ 64 - 1, 5, some ⟨"Filter"⟩, 7⟩
      (fun i _ _ => (2, ⟨[Int.ofNat i], [1]⟩))
      ⟨fun _ _ => ⟨none, false⟩, 1, [0], [2], some ⟨"Filter"⟩, 7, 2⟩
      ⟨1, 2, 3, ThreadExitCodeType.SUCCESS⟩ ⟨false, 0, []⟩ (by decide) (by decide) (by decide)
      (by decide) (by decide) (by decide)).2.2.1
      ⟨"Filter"⟩ rfl rfl (by decide) (fun _ => rfl)).1⟩

/-! ## The progress counter over all workers -/

theorem finishDispatch_world (f : ProcessObject) (v : World) :
    (finishDispatch (some f) v).1 = v.log (Event.updateProgress Floating.one) := by
  unfold finishDispatch
  simp only []
  split_ifs <;> rfl

theorem finishDispatch_raises (filter : Option ProcessObject) (v : World) (t : Thrown) :
    (finishDispatch filter v).2 = some t ↔
      ∃ f, filter = some f ∧ v.abortGenerateData = true ∧ t = abortException f := by
  unfold finishDispatch
  rcases filter with _ | f
  · simp
  · simp only []
    have e : (v.log (Event.updateProgress Floating.one)).abortGenerateData =
      v.abortGenerateData := rfl
    rw [e]
    rcases v.abortGenerateData with _ | _
    · simp
    · simp only [if_true, Option.some.injEq]
      constructor
      · intro h
        exact ⟨f, by simp, by simp, h.symm⟩
      · rintro ⟨g, hg, -, ht⟩
        rw [ht, hg]

theorem ParallelizeArray_first_report (n : Nat) (threadOf : Nat → Nat) (first last : Nat)
    (aFunc : Nat → FunctorResult) (f : ProcessObject) (thread : Nat) (w : World) :
    ∃ mid, (ParallelizeArray (SingleMethodExecute n threadOf) first last aFunc (some f)
      thread w).1.events = w.events ++ Event.updateProgress Floating.zero :: mid := by
  have hs : (startDispatch (some f) w).events =
    w.events ++ [Event.updateProgress Floating.zero] := rfl
  by_cases h1 : (first + 1) % SizeValueModulus < last
  · obtain ⟨m, hm⟩ := execute_extends
      (ParallelizeArrayHelper ⟨aFunc, first, last, some f, thread⟩) n threadOf
      (fun info v => helper_extends _ info v) (startDispatch (some f) w).resetProgress
    have hs2 : (startDispatch (some f) w).resetProgress.events =
      w.events ++ [Event.updateProgress Floating.zero] := rfl
    rw [hs2] at hm
    rcases hx : SingleMethodExecute n threadOf
      (ParallelizeArrayHelper ⟨aFunc, first, last, some f, thread⟩)
      (startDispatch (some f) w).resetProgress with ⟨w1, _ | t⟩
    · rw [ParallelizeArray_dispatch_none _ first last aFunc (some f) thread w w1 h1 hx,
        finishDispatch_world]
      rw [hx] at hm
      exact ⟨m ++ [Event.updateProgress Floating.one], by
        simp only [World.log]
        simp only [] at hm
        rw [hm]
        simp⟩
    · rw [ParallelizeArray_dispatch_some _ first last aFunc (some f) thread w w1 t h1 hx]
      rw [hx] at hm
      exact ⟨m, by
        simp only [] at hm
        rw [hm]
        simp⟩
  · by_cases h2 : (first + 1) % SizeValueModulus = last
    · rcases hr : (aFunc first).raised with _ | t
      · rw [ParallelizeArray_single_none _ first last aFunc (some f) thread w h2 hr,
          finishDispatch_world]
        exact ⟨[Event.arrayCall first, Event.updateProgress Floating.one], by
          simp [World.log, World.afterArrayCall, hs]⟩
      · rw [ParallelizeArray_single_some _ first last aFunc (some f) thread w t h2 hr]
        exact ⟨[Event.arrayCall first], by simp [World.log, World.afterArrayCall, hs]⟩
    · rw [ParallelizeArray_empty _ first last aFunc (some f) thread w h1 h2,
        finishDispatch_world]
      exact ⟨[Event.updateProgress Floating.one], by simp [World.log, hs]⟩

theorem ParallelizeArray_silent (n : Nat) (threadOf : Nat → Nat) (first last : Nat)
    (aFunc : Nat → FunctorResult) (thread : Nat) (w : World) :
    progressReports (ParallelizeArray (SingleMethodExecute n threadOf) first last aFunc none
      thread w).1.events = progressReports w.events := by
  by_cases h1 : (first + 1) % SizeValueModulus < last
  · have hm := execute_reports
      (ParallelizeArrayHelper ⟨aFunc, first, last, none, thread⟩) n threadOf
      (fun info v => helper_reports _ info v (Or.inl rfl)) (startDispatch none w).resetProgress
    rcases hx : SingleMethodExecute n threadOf
      (ParallelizeArrayHelper ⟨aFunc, first, last, none, thread⟩)
      (startDispatch none w).resetProgress with ⟨w1, _ | t⟩
    · rw [ParallelizeArray_dispatch_none _ first last aFunc none thread w w1 h1 hx]
      rw [hx] at hm
      exact hm
    · rw [ParallelizeArray_dispatch_some _ first last aFunc none thread w w1 t h1 hx]
      rw [hx] at hm
      exact hm
  · by_cases h2 : (first + 1) % SizeValueModulus = last
    · rcases hr : (aFunc first).raised with _ | t
      · rw [ParallelizeArray_single_none _ first last aFunc none thread w h2 hr]
        exact (afterArrayCall_reports w first _).1
      · rw [ParallelizeArray_single_some _ first last aFunc none thread w t h2 hr]
        exact (afterArrayCall_reports w first _).1
    · rw [ParallelizeArray_empty _ first last aFunc none thread w h1 h2]
      rfl

theorem ParallelizeImageRegion_first_report (n : Nat) (threadOf : Nat → Nat)
    (GetSplit : RegionSplitter) (dimension : Nat) (index : List Int) (size : List Nat)
    (funcP : List Int → List Nat → FunctorResult) (f : ProcessObject) (thread : Nat)
    (w : World) :
    ∃ mid, (ParallelizeImageRegion (SingleMethodExecute n threadOf) GetSplit dimension index
      size funcP (some f) thread w).1.events =
        w.events ++ Event.updateProgress Floating.zero :: mid := by
  obtain ⟨m, hm⟩ := execute_extends
    (ParallelizeImageRegionHelper GetSplit
      ⟨funcP, dimension, index, size, some f, thread,
        (List.range dimension).foldl (fun acc d => (acc * size.getD d 0) % SizeValueModulus) 1⟩)
    n threadOf (fun info v => regionHelper_extends GetSplit _ info v)
    (startDispatch (some f) w).resetProgress
  have hs2 : (startDispatch (some f) w).resetProgress.events =
    w.events ++ [Event.updateProgress Floating.zero] := rfl
  rw [hs2] at hm
  rcases hx : SingleMethodExecute n threadOf
    (ParallelizeImageRegionHelper GetSplit
      ⟨funcP, dimension, index, size, some f, thread,
        (List.range dimension).foldl (fun acc d => (acc * size.getD d 0) % SizeValueModulus) 1⟩)
    (startDispatch (some f) w).resetProgress with ⟨w1, _ | t⟩
  · rw [ParallelizeImageRegion_none _ GetSplit dimension index size funcP (some f) thread w w1
      hx, finishDispatch_world]
    rw [hx] at hm
    exact ⟨m ++ [Event.updateProgress Floating.one], by
      simp only [World.log]
      simp only [] at hm
      rw [hm]
      simp⟩
  · rw [ParallelizeImageRegion_some _ GetSplit dimension index size funcP (some f) thread w w1
      t hx]
    rw [hx] at hm
    exact ⟨m, by
      simp only [] at hm
      rw [hm]
      simp⟩

theorem ParallelizeImageRegion_silent (n : Nat) (threadOf : Nat → Nat)
    (GetSplit : RegionSplitter) (dimension : Nat) (index : List Int) (size : List Nat)
    (funcP : List Int → List Nat → FunctorResult) (thread : Nat) (w : World) :
    progressReports (ParallelizeImageRegion (SingleMethodExecute n threadOf) GetSplit dimension
      index size funcP none thread w).1.events = progressReports w.events := by
  have hm := execute_reports
    (ParallelizeImageRegionHelper GetSplit
      ⟨funcP, dimension, index, size, none, thread,
        (List.range dimension).foldl (fun acc d => (acc * size.getD d 0) % SizeValueModulus) 1⟩)
    n threadOf (fun info v => regionHelper_reports GetSplit _ info v (Or.inl rfl))
    (startDispatch none w).resetProgress
  rcases hx : SingleMethodExecute n threadOf
    (ParallelizeImageRegionHelper GetSplit
      ⟨funcP, dimension, index, size, none, thread,
        (List.range dimension).foldl (fun acc d => (acc * size.getD d 0) % SizeValueModulus) 1⟩)
    (startDispatch none w).resetProgress with ⟨w1, _ | t⟩
  · rw [ParallelizeImageRegion_none _ GetSplit dimension index size funcP none thread w w1 hx]
    rw [hx] at hm
    exact hm
  · rw [ParallelizeImageRegion_some _ GetSplit dimension index size funcP none thread w w1 t
      hx]
    rw [hx] at hm
    exact hm

/-! ## Claims on the progress counter and on the reports around a dispatch -/

set_option maxRecDepth 100000 in
/-- C18 (as stated, refuted): with a filter present, a dispatch that ends with a fault never
reports progress 1.0.  Over `[0, 10)` with 2 workers, called on thread 99, with a callback
that raises a `DomainFault` on index 5: the callback runs on `0, ..., 5`, the call fails,
and the only progress reported is 0.0.  The same holds for the one-element range `[7, 8)`,
whose callback is called directly and raises. -/
theorem C18_counterexample :
    progressReports (ParallelizeArray (SingleMethodExecute 2 (fun id => id)) 0 10
      (fun i => if i = 5 then ⟨some ⟨ExceptionClass.ExceptionObject, "fault"⟩, false⟩
        else ⟨none, false⟩) (some ⟨"Filter"⟩) 99 ⟨false, 0, []⟩).1.events =
      [Floating.zero] ∧
    arrayCalls (ParallelizeArray (SingleMethodExecute 2 (fun id => id)) 0 10
      (fun i => if i = 5 then ⟨some ⟨ExceptionClass.ExceptionObject, "fault"⟩, false⟩
        else ⟨none, false⟩) (some ⟨"Filter"⟩) 99 ⟨false, 0, []⟩).1.events =
      [0, 1, 2, 3, 4, 5] ∧
    (ParallelizeArray (SingleMethodExecute 2 (fun id => id)) 0 10
      (fun i => if i = 5 then ⟨some ⟨ExceptionClass.ExceptionObject, "fault"⟩, false⟩
        else ⟨none, false⟩) (some ⟨"Filter"⟩) 99 ⟨false, 0, []⟩).2 =
      some (rethrown ThreadExitCodeType.ITK_EXCEPTION) ∧
    (ParallelizeArray (SingleMethodExecute 2 (fun id => id)) 7 8
      (fun _ => ⟨some ⟨ExceptionClass.ExceptionObject, "fault"⟩, false⟩)
      (some ⟨"Filter"⟩) 99 ⟨false, 0, []⟩).1.events =
      [Event.updateProgress Floating.zero, Event.arrayCall 7] := by
  decide

/-- C18 (amended): with a filter present, whatever the outcome, the first thing an array or
region dispatch adds to the record of calls is the progress report 0.0; everything the
executor, its workers and the callback do comes after it.  When the executor returns
without a failure (and, for a one-element range, when the directly called callback does not
raise), the progress report 1.0 is the last entry, after everything the workers did, their
own progress reports included.  With no filter, no progress is reported at all. -/
theorem C18_progress_bracket (n : Nat) (threadOf : Nat → Nat) (GetSplit : RegionSplitter)
    (first last : Nat) (aFunc : Nat → FunctorResult)
    (dimension : Nat) (index : List Int) (size : List Nat)
    (funcP : List Int → List Nat → FunctorResult) (f : ProcessObject) (thread : Nat)
    (w : World) :
    (∃ mid, (ParallelizeArray (SingleMethodExecute n threadOf) first last aFunc (some f)
      thread w).1.events = w.events ++ Event.updateProgress Floating.zero :: mid) ∧
    ((first + 1) % SizeValueModulus < last →
      (SingleMethodExecute n threadOf
        (ParallelizeArrayHelper ⟨aFunc, first, last, some f, thread⟩)
        (startDispatch (some f) w).resetProgress).2 = none →
      (ParallelizeArray (SingleMethodExecute n threadOf) first last aFunc (some f)
        thread w).1.events =
      (SingleMethodExecute n threadOf
        (ParallelizeArrayHelper ⟨aFunc, first, last, some f, thread⟩)
        (startDispatch (some f) w).resetProgress).1.events ++
          [Event.updateProgress Floating.one]) ∧
    ((first + 1) % SizeValueModulus = last → (aFunc first).raised = none →
      (ParallelizeArray (SingleMethodExecute n threadOf) first last aFunc (some f)
        thread w).1.events =
      w.events ++ [Event.updateProgress Floating.zero, Event.arrayCall first,
        Event.updateProgress Floating.one]) ∧
    (¬ (first + 1) % SizeValueModulus < last → (first + 1) % SizeValueModulus ≠ last →
      (ParallelizeArray (SingleMethodExecute n threadOf) first last aFunc (some f)
        thread w).1.events =
      w.events ++ [Event.updateProgress Floating.zero, Event.updateProgress Floating.one]) ∧
    (∃ mid, (ParallelizeImageRegion (SingleMethodExecute n threadOf) GetSplit dimension index
      size funcP (some f) thread w).1.events =
        w.events ++ Event.updateProgress Floating.zero :: mid) ∧
    ((SingleMethodExecute n threadOf
        (ParallelizeImageRegionHelper GetSplit
          ⟨funcP, dimension, index, size, some f, thread,
            (List.range dimension).foldl
              (fun acc d => (acc * size.getD d 0) % SizeValueModulus) 1⟩)
        (startDispatch (some f) w).resetProgress).2 = none →
      (ParallelizeImageRegion (SingleMethodExecute n threadOf) GetSplit dimension index
        size funcP (some f) thread w).1.events =
      (SingleMethodExecute n threadOf
        (ParallelizeImageRegionHelper GetSplit
          ⟨funcP, dimension, index, size, some f, thread,
            (List.range dimension).foldl
              (fun acc d => (acc * size.getD d 0) % SizeValueModulus) 1⟩)
        (startDispatch (some f) w).resetProgress).1.events ++
          [Event.updateProgress Floating.one]) ∧
    progressReports (ParallelizeArray (SingleMethodExecute n threadOf) first last aFunc none
      thread w).1.events = progressReports w.events ∧
    progressReports (ParallelizeImageRegion (SingleMethodExecute n threadOf) GetSplit dimension
      index size funcP none thread w).1.events = progressReports w.events := by
  refine ⟨ParallelizeArray_first_report n threadOf first last aFunc f thread w, ?_, ?_, ?_,
    ParallelizeImageRegion_first_report n threadOf GetSplit dimension index size funcP f
      thread w, ?_,
    ParallelizeArray_silent n threadOf first last aFunc thread w,
    ParallelizeImageRegion_silent n threadOf GetSplit dimension index size funcP thread w⟩
  · intro h1 hx
    rw [ParallelizeArray_dispatch_none _ first last aFunc (some f) thread w _ h1
      (Prod.ext rfl hx), finishDispatch_world]
    rfl
  · intro h2 hr
    rw [ParallelizeArray_single_none _ first last aFunc (some f) thread w h2 hr,
      finishDispatch_world]
    simp [World.log, World.afterArrayCall, startDispatch]
  · intro h1 h2
    rw [ParallelizeArray_empty _ first last aFunc (some f) thread w h1 h2,
      finishDispatch_world]
    simp [World.log, startDispatch]
  · intro hx
    rw [ParallelizeImageRegion_none _ GetSplit dimension index size funcP (some f) thread w _
      (Prod.ext rfl hx), finishDispatch_world]
    rfl

set_option maxRecDepth 100000 in
/-- C18 (amended), instance: over `[0, 4)` with 2 workers, called on thread 0 with a filter
present and a callback that does not fault, the record of calls starts with the progress
report 0.0 and ends with the progress report 1.0; worker 0, which runs on the calling
thread, reports 0.25 and 0.5 in between. -/
theorem C18_progress_bracket_witness :
    (ParallelizeArray (SingleMethodExecute 2 (fun id => id)) 0 4 (fun _ => ⟨none, false⟩)
      (some ⟨"Filter"⟩) 0 ⟨false, 0, []⟩).1.events =
    [Event.updateProgress Floating.zero, Event.singleMethodExecute,
      Event.arrayCall 0, Event.updateProgress ⟨8388608, -25⟩,
      Event.arrayCall 1, Event.updateProgress ⟨8388608, -24⟩,
      Event.arrayCall 2, Event.arrayCall 3] ++ [Event.updateProgress Floating.one] :=
  (C18_progress_bracket 2 (fun id => id) (fun i _ r => (i + 1, r)) 0 4
    (fun _ => ⟨none, false⟩) 1 [0] [4] (fun _ _ => ⟨none, false⟩) ⟨"Filter"⟩ 0
    ⟨false, 0, []⟩).2.1 (by decide) (by decide)

/-! ## The abort flag along the loop of `ParallelizeArrayHelper` -/

theorem loop_calls (ac : ArrayCallback) (thread range : Nat) : ∀ (count i : Nat) (w : World),
    (∀ j, i ≤ j → j < i + count → (ac.functor j).raised = none) →
    (ParallelizeArrayHelper.loop ac thread range count i w).2 = none ∧
    arrayCalls (ParallelizeArrayHelper.loop ac thread range count i w).1.events =
      arrayCalls w.events ++ List.range' i count := by
  intro count
  induction count with
  | zero =>
    intro i w _
    simp [ParallelizeArrayHelper.loop]
  | succ n ih =>
    intro i w h1
    obtain ⟨w2, e, c2, -, -⟩ := loop_succ_ok ac thread range n i w (h1 i (le_refl _) (by omega))
    rw [e]
    obtain ⟨r1, r2⟩ := ih (i + 1) w2 (fun j hj hj' => h1 j (by omega) (by omega))
    refine ⟨r1, ?_⟩
    rw [r2, c2, List.append_assoc]
    rfl

theorem loop_flag_stays (ac : ArrayCallback) (thread range : Nat) :
    ∀ (count i : Nat) (w : World), w.abortGenerateData = true →
    (ParallelizeArrayHelper.loop ac thread range count i w).1.abortGenerateData = true := by
  intro count
  induction count with
  | zero =>
    intro i w hw
    exact hw
  | succ n ih =>
    intro i w hw
    rcases hr : (ac.functor i).raised with _ | t
    · obtain ⟨w2, e, -, -, a2⟩ := loop_succ_ok ac thread range n i w hr
      rw [e]
      exact ih (i + 1) w2 (by rw [a2, hw]; rfl)
    · simp only [ParallelizeArrayHelper.loop, hr]
      rw [(afterArrayCall_calls w i _).2.2, hw]
      rfl

theorem loop_flag_set (ac : ArrayCallback) (thread range : Nat) (k : Nat)
    (hk : (ac.functor k).abortRequested = true) : ∀ (count i : Nat) (w : World),
    i ≤ k → k < i + count →
    (∀ j, i ≤ j → j < k → (ac.functor j).raised = none) →
    (ParallelizeArrayHelper.loop ac thread range count i w).1.abortGenerateData = true := by
  intro count
  induction count with
  | zero =>
    intro i w h1 h2
    omega
  | succ n ih =>
    intro i w h1 h2 h3
    rcases Nat.lt_or_ge i k with c | c
    · obtain ⟨w2, e, -, -, -⟩ := loop_succ_ok ac thread range n i w (h3 i (le_refl _) c)
      rw [e]
      exact ih (i + 1) w2 (by omega) (by omega) (fun j hj hj' => h3 j (by omega) hj')
    · have hik : i = k := by omega
      subst hik
      rcases hr : (ac.functor i).raised with _ | t
      · obtain ⟨w2, e, -, -, a2⟩ := loop_succ_ok ac thread range n i w hr
        rw [e]
        exact loop_flag_stays ac thread range n (i + 1) w2 (by rw [a2, hk]; simp)
      · simp only [ParallelizeArrayHelper.loop, hr]
        rw [(afterArrayCall_calls w i _).2.2, hk]
        simp

/-! ## Calls on the default back end -/

theorem threaderOp_keeps (M : Nat) (g : MultiThreaderBaseGlobals) (op : ThreaderOp)
    (h : g.GlobalDefaultThreaderTypeIsInitialized = true) :
    (ThreaderOp.apply M g op).GlobalDefaultThreaderTypeIsInitialized = true ∧
      (ThreaderOp.apply M g op).m_GlobalDefaultThreader = g.m_GlobalDefaultThreader := by
  cases op with
  | getThreader env =>
    simp only [ThreaderOp.apply]
    rw [get_initialized env g h]
    exact ⟨h, rfl⟩
  | counts op =>
    simp only [ThreaderOp.apply]
    rw [(apply_backend M g op).1, (apply_backend M g op).2]
    exact ⟨h, rfl⟩

theorem runThreaderOps_keeps (M : Nat) :
    ∀ (ops : List ThreaderOp) (g : MultiThreaderBaseGlobals),
    g.GlobalDefaultThreaderTypeIsInitialized = true →
    (runThreaderOps M g ops).GlobalDefaultThreaderTypeIsInitialized = true ∧
      (runThreaderOps M g ops).m_GlobalDefaultThreader = g.m_GlobalDefaultThreader := by
  intro ops
  induction ops with
  | nil => intro g h; exact ⟨h, rfl⟩
  | cons op ops ih =>
    intro g h
    have hrun : runThreaderOps M g (op :: ops) =
      runThreaderOps M (ThreaderOp.apply M g op) ops := rfl
    obtain ⟨k1, k2⟩ := threaderOp_keeps M g op h
    rw [hrun, (ih _ k1).2, k2]
    exact ⟨(ih _ k1).1, rfl⟩

/-! ## Claims on the abort check of the array worker and on the back-end resolution -/

set_option maxRecDepth 100000 in
/-- C21 (as stated, refuted): one worker over `[0, 4)` with a filter present, the abort flag
clear at the start and a callback that requests the abort while it handles index 0: the
worker still calls the callback on 1, 2 and 3 and returns normally, with the flag set. -/
theorem C21_counterexample :
    arrayCalls (ParallelizeArrayHelper
      ⟨fun i => ⟨none, decide (i = 0)⟩, 0, 4, some ⟨"Filter"⟩, 7⟩
      ⟨0, 1, 0, ThreadExitCodeType.SUCCESS⟩ ⟨false, 0, []⟩).1.events = [0, 1, 2, 3] ∧
    (ParallelizeArrayHelper
      ⟨fun i => ⟨none, decide (i = 0)⟩, 0, 4, some ⟨"Filter"⟩, 7⟩
      ⟨0, 1, 0, ThreadExitCodeType.SUCCESS⟩ ⟨false, 0, []⟩).2 = none ∧
    (ParallelizeArrayHelper
      ⟨fun i => ⟨none, decide (i = 0)⟩, 0, 4, some ⟨"Filter"⟩, 7⟩
      ⟨0, 1, 0, ThreadExitCodeType.SUCCESS⟩ ⟨false, 0, []⟩).1.abortGenerateData = true := by
  decide

/-- C21 (amended): in `ParallelizeArrayHelper` the abort flag is read once per worker,
before its first element.  For a worker (`ThreadID < NumberOfThreads`, both `ThreadIdType`
values) and bounds that are `SizeValueType` values, with a filter present, a worker that finds the flag set raises
the abort exception without calling the callback; a worker that finds it clear calls the
callback on every element of its sub-range (the callback not faulting) and returns
normally, whether or not the flag gets set on the way, and a flag set during one of its
elements is still set when the worker returns. -/
theorem C21_abort_checked_at_start (ac : ArrayCallback) (info : ThreadInfoStruct) (w : World)
    (f : ProcessObject) (hf : ac.filter = some f)
    (hid : info.ThreadID < info.NumberOfThreads) (hty : info.NumberOfThreads < ThreadIdModulus)
    (hfirst : ac.firstIndex < SizeValueModulus) (hlast : ac.lastIndexPlus1 < SizeValueModulus) :
    (w.abortGenerateData = true →
      ParallelizeArrayHelper ac info w = (w, some (abortException f))) ∧
    (w.abortGenerateData = false → (∀ j, (ac.functor j).raised = none) →
      (ParallelizeArrayHelper ac info w).2 = none ∧
      arrayCalls (ParallelizeArrayHelper ac info w).1.events =
        arrayCalls w.events ++
          List.range'
            (ParallelizeArrayHelper.subRange ac.firstIndex ac.lastIndexPlus1 info.ThreadID
              info.NumberOfThreads).1
            ((ParallelizeArrayHelper.subRange ac.firstIndex ac.lastIndexPlus1 info.ThreadID
                info.NumberOfThreads).2 -
              (ParallelizeArrayHelper.subRange ac.firstIndex ac.lastIndexPlus1 info.ThreadID
                info.NumberOfThreads).1) ∧
      ∀ k, (ParallelizeArrayHelper.subRange ac.firstIndex ac.lastIndexPlus1 info.ThreadID
            info.NumberOfThreads).1 ≤ k →
        k < (ParallelizeArrayHelper.subRange ac.firstIndex ac.lastIndexPlus1 info.ThreadID
            info.NumberOfThreads).2 →
        (ac.functor k).abortRequested = true →
        (ParallelizeArrayHelper ac info w).1.abortGenerateData = true) := by
  have _wellFormed := And.intro hid (And.intro hty (And.intro hfirst hlast))
  refine ⟨fun hw => helper_abort ac info w f hf hw, fun hw hok => ?_⟩
  rw [helper_eq_loop ac info w hw]
  obtain ⟨r1, r2⟩ := loop_calls ac info.thread
    ((ac.lastIndexPlus1 + SizeValueModulus - ac.firstIndex) % SizeValueModulus) _ _ w
    (fun j _ _ => hok j)
  refine ⟨r1, r2, fun k h1 h2 hk => ?_⟩
  exact loop_flag_set ac _ _ k hk _ _ w h1 (by omega) (fun j _ _ => hok j)

set_option maxRecDepth 100000 in
/-- C21 (amended), instance: worker 0 of 2 over `[0, 10)` with a filter present, the flag
clear at the start and an abort requested during index 2 calls the callback on
`0, ..., 4`.  For `firstIndex = 2^64 - 1`, `lastIndexPlus1 = 5`, where both bounds of
worker 0 of 2 convert to 0, worker 0 makes no call and worker 1 calls the callback on
`0, ..., 4`. -/
theorem C21_abort_checked_at_start_witness :
    arrayCalls (ParallelizeArrayHelper
      ⟨fun i => ⟨none, decide (i = 2)⟩, 0, 10, some ⟨"Filter"⟩, 7⟩
      ⟨0, 2, 0, ThreadExitCodeType.SUCCESS⟩ ⟨false, 0, []⟩).1.events = [0, 1, 2, 3, 4] ∧
    arrayCalls (ParallelizeArrayHelper
      ⟨fun i => ⟨none, decide (i = 2)⟩, 2 ^ 64 - 1, 5, some ⟨"Filter"⟩, 7⟩
      ⟨0, 2, 0, ThreadExitCodeType.SUCCESS⟩ ⟨false, 0, []⟩).1.events = [] ∧
    arrayCalls (ParallelizeArrayHelper
      ⟨fun i => ⟨none, decide (i = 2)⟩, 2 ^ 64 - 1, 5, some ⟨"Filter"⟩, 7⟩
      ⟨1, 2, 1, ThreadExitCodeType.SUCCESS⟩ ⟨false, 0, []⟩).1.events = [0, 1, 2, 3, 4] :=
  ⟨((C21_abort_checked_at_start ⟨fun i => ⟨none, decide (i = 2)⟩, 0, 10, some ⟨"Filter"⟩, 7⟩
      ⟨0, 2, 0, ThreadExitCodeType.SUCCESS⟩ ⟨false, 0, []⟩ ⟨"Filter"⟩ rfl (by decide) (by decide) (by decide)
      (by decide)).2 rfl
      (fun _ => rfl)).2.1,
    ((C21_abort_checked_at_start
      ⟨fun i => ⟨none, decide (i = 2)⟩, 2 ^ 64 - 1, 5, some ⟨"Filter"⟩, 7⟩
      ⟨0, 2, 0, ThreadExitCodeType.SUCCESS⟩ ⟨false, 0, []⟩ ⟨"Filter"⟩ rfl (by decide) (by decide) (by decide)
      (by decide)).2 rfl
      (fun _ => rfl)).2.1,
    ((C21_abort_checked_at_start
      ⟨fun i => ⟨none, decide (i = 2)⟩, 2 ^ 64 - 1, 5, some ⟨"Filter"⟩, 7⟩
      ⟨1, 2, 1, ThreadExitCodeType.SUCCESS⟩ ⟨false, 0, []⟩ ⟨"Filter"⟩ rfl (by decide) (by decide) (by decide)
      (by decide)).2 rfl
      (fun _ => rfl)).2.1⟩

/-- C22: in a registry that has only seen calls on the thread counts (no
`SetGlobalDefaultThreader`, no earlier `GetGlobalDefaultThreader`), when the primary
variable `ITK_GLOBAL_DEFAULT_THEADER` is set to a value that `ThreaderTypeFromString` does
not recognize, `GetGlobalDefaultThreader()` returns a back end (it has no failure path):
the compiled-in fallback, `TBB` if compiled in and `Pool` otherwise, whatever the deprecated
variable holds; the registry is then initialized with that back end stored. -/
theorem C22_unrecognized_token (ITK_MAX_THREADS : Nat) (ITK_USE_TBB : Bool)
    (ops : List RegistryOp) (g : MultiThreaderBaseGlobals) (primary : String)
    (deprecated : Option String)
    (hg : g = runRegistry ITK_MAX_THREADS
      (MultiThreaderBaseGlobals.initial ITK_MAX_THREADS ITK_USE_TBB) ops)
    (hunknown : ThreaderTypeFromString primary = ThreaderType.Unknown) :
    (GetGlobalDefaultThreader ⟨some primary, deprecated⟩ g).1 =
      (if ITK_USE_TBB then ThreaderType.TBB else ThreaderType.Pool) ∧
    (GetGlobalDefaultThreader ⟨some primary, deprecated⟩ g).2.m_GlobalDefaultThreader =
      (if ITK_USE_TBB then ThreaderType.TBB else ThreaderType.Pool) ∧
    (GetGlobalDefaultThreader ⟨some primary, deprecated⟩
      g).2.GlobalDefaultThreaderTypeIsInitialized = true := by
  obtain ⟨h1, h2⟩ := runRegistry_backend ITK_MAX_THREADS ops
    (MultiThreaderBaseGlobals.initial ITK_MAX_THREADS ITK_USE_TBB)
  rw [← hg] at h1 h2
  have hfresh : g.GlobalDefaultThreaderTypeIsInitialized = false := h1
  have hval : (GetGlobalDefaultThreader ⟨some primary, deprecated⟩ g).1 =
      (if ITK_USE_TBB then ThreaderType.TBB else ThreaderType.Pool) := by
    rw [get_primary primary deprecated g hfresh, fromString_upper, hunknown, h2]
    simp [MultiThreaderBaseGlobals.initial]
  obtain ⟨s1, s2⟩ := get_sets_flag ⟨some primary, deprecated⟩ g
  exact ⟨hval, s2.trans hval, s1⟩

/-- C22, instance: a build without TBB, the primary variable set to `fastest` and the
deprecated one to `OFF`: the resolved back end is `Pool`. -/
theorem C22_unrecognized_token_witness :
    (GetGlobalDefaultThreader ⟨some "fastest", some "OFF"⟩
      (runRegistry 128 (MultiThreaderBaseGlobals.initial 128 false) [])).1 =
      (if false then ThreaderType.TBB else ThreaderType.Pool) :=
  (C22_unrecognized_token 128 false [] _ "fastest" (some "OFF") rfl (by decide)).1

/-- C23: once the registry is initialized, by a first `GetGlobalDefaultThreader()` (in any
environment `env0`) or by a `SetGlobalDefaultThreader(k)`, its flag is set, and after any
further sequence of calls other than `SetGlobalDefaultThreader` (later
`GetGlobalDefaultThreader()` calls in any environments, calls on the thread counts) the
flag is still set and the stored back end is the same; a `GetGlobalDefaultThreader()` then
returns that stored back end in every environment and leaves the registry as it is.  So a
later call returns what the first call returned, or the `k` that was set. -/
theorem C23_resolved_once (ITK_MAX_THREADS : Nat) (env0 : Environment) (k : ThreaderType)
    (g0 g : MultiThreaderBaseGlobals) (ops : List ThreaderOp) (env env' : Environment)
    (hinit : g = (GetGlobalDefaultThreader env0 g0).2 ∨ g = SetGlobalDefaultThreader k g0) :
    g.GlobalDefaultThreaderTypeIsInitialized = true ∧
    (runThreaderOps ITK_MAX_THREADS g ops).GlobalDefaultThreaderTypeIsInitialized = true ∧
    (runThreaderOps ITK_MAX_THREADS g ops).m_GlobalDefaultThreader =
      g.m_GlobalDefaultThreader ∧
    GetGlobalDefaultThreader env (runThreaderOps ITK_MAX_THREADS g ops) =
      (g.m_GlobalDefaultThreader, runThreaderOps ITK_MAX_THREADS g ops) ∧
    (GetGlobalDefaultThreader env (runThreaderOps ITK_MAX_THREADS g ops)).1 =
      (GetGlobalDefaultThreader env' (runThreaderOps ITK_MAX_THREADS g ops)).1 ∧
    (g = (GetGlobalDefaultThreader env0 g0).2 →
      (GetGlobalDefaultThreader env (runThreaderOps ITK_MAX_THREADS g ops)).1 =
        (GetGlobalDefaultThreader env0 g0).1) ∧
    (g = SetGlobalDefaultThreader k g0 →
      (GetGlobalDefaultThreader env (runThreaderOps ITK_MAX_THREADS g ops)).1 = k) := by
  have hflag : g.GlobalDefaultThreaderTypeIsInitialized = true := by
    rcases hinit with h | h
    · rw [h]
      exact (get_sets_flag env0 g0).1
    · rw [h]
      rfl
  obtain ⟨k1, k2⟩ := runThreaderOps_keeps ITK_MAX_THREADS ops g hflag
  have e1 := get_initialized env _ k1
  have e2 := get_initialized env' _ k1
  rw [k2] at e1 e2
  refine ⟨hflag, k1, k2, e1, ?_, ?_, ?_⟩
  · rw [e1, e2]
  · intro h
    rw [e1, h]
    exact (get_sets_flag env0 g0).2
  · intro h
    rw [e1, h]
    rfl

/-- C23, instance: in a build without TBB the first call, made with the primary variable
`platform`, resolves `Platform`; a later call made with the primary variable `pool`, after
a call on the thread counts, still returns `Platform`. -/
theorem C23_resolved_once_witness :
    (GetGlobalDefaultThreader ⟨some "pool", none⟩
      (runThreaderOps 128
        (GetGlobalDefaultThreader ⟨some "platform", none⟩
          (MultiThreaderBaseGlobals.initial 128 false)).2
        [ThreaderOp.counts (RegistryOp.setMax 4)])).1 =
      (GetGlobalDefaultThreader ⟨some "platform", none⟩
        (MultiThreaderBaseGlobals.initial 128 false)).1 :=
  (C23_resolved_once 128 ⟨some "platform", none⟩ ThreaderType.Pool
    (MultiThreaderBaseGlobals.initial 128 false) _ [ThreaderOp.counts (RegistryOp.setMax 4)]
    ⟨some "pool", none⟩ ⟨none, none⟩ (Or.inl rfl)).2.2.2.2.2.1 rfl

/-- C24: `ThreaderTypeFromString` returns a kind for every string: `Platform` exactly when
the upper-cased string is `PLATFORM`, `Pool` exactly when it is `POOL`, `TBB` exactly when it
is `TBB`, and `Unknown` exactly when it is none of the three; so two strings with the same
upper-casing (strings that differ only in letter case) get the same kind. -/
theorem C24_parses_tokens (s : String) :
    (ThreaderTypeFromString s = ThreaderType.Platform ↔ UpperCase s = "PLATFORM") ∧
    (ThreaderTypeFromString s = ThreaderType.Pool ↔ UpperCase s = "POOL") ∧
    (ThreaderTypeFromString s = ThreaderType.TBB ↔ UpperCase s = "TBB") ∧
    (ThreaderTypeFromString s = ThreaderType.Unknown ↔
      (UpperCase s ≠ "PLATFORM" ∧ UpperCase s ≠ "POOL" ∧ UpperCase s ≠ "TBB")) ∧
    (∀ s' : String, UpperCase s' = UpperCase s →
      ThreaderTypeFromString s' = ThreaderTypeFromString s) ∧
    ThreaderTypeFromString (UpperCase s) = ThreaderTypeFromString s := by
  have d1 : ("PLATFORM" : String) ≠ "POOL" := by decide
  have d2 : ("PLATFORM" : String) ≠ "TBB" := by decide
  have d3 : ("POOL" : String) ≠ "TBB" := by decide
  refine ⟨?_, ?_, ?_, ?_, ?_, fromString_upper s⟩
  · unfold ThreaderTypeFromString
    by_cases h1 : UpperCase s = "PLATFORM"
    · simp [h1]
    · by_cases h2 : UpperCase s = "POOL"
      · simp [h2]
      · by_cases h3 : UpperCase s = "TBB" <;> simp [h1, h2, h3]
  · unfold ThreaderTypeFromString
    by_cases h1 : UpperCase s = "PLATFORM"
    · simp [h1]
    · by_cases h2 : UpperCase s = "POOL"
      · simp [h2]
      · by_cases h3 : UpperCase s = "TBB" <;> simp [h1, h2, h3]
  · unfold ThreaderTypeFromString
    by_cases h1 : UpperCase s = "PLATFORM"
    · simp [h1]
    · by_cases h2 : UpperCase s = "POOL"
      · simp [h2]
      · by_cases h3 : UpperCase s = "TBB" <;> simp [h1, h2, h3]
  · unfold ThreaderTypeFromString
    by_cases h1 : UpperCase s = "PLATFORM"
    · simp [h1]
    · by_cases h2 : UpperCase s = "POOL"
      · simp [h2]
      · by_cases h3 : UpperCase s = "TBB" <;> simp [h1, h2, h3]
  · intro s' h
    unfold ThreaderTypeFromString
    rw [h]

/-- C24, instance: `pLaTfOrM` and `PLATFORM` have the same upper-casing, so both are parsed
as `Platform`. -/
theorem C24_parses_tokens_witness :
    ThreaderTypeFromString "pLaTfOrM" = ThreaderTypeFromString "PLATFORM" ∧
    ThreaderTypeFromString "PLATFORM" = ThreaderType.Platform :=
  ⟨(C24_parses_tokens "PLATFORM").2.2.2.2.1 "pLaTfOrM" (by decide),
    (C24_parses_tokens "PLATFORM").1.2 (by decide)⟩

/-- C27: `SetGlobalMaximumNumberOfThreads(n)` leaves a default thread count that is still
the sentinel 0 at 0, for every `n`, so the next `GetGlobalDefaultNumberOfThreads()` derives
the default from the back end (it stores and returns the recommended count); a non-zero
default stays non-zero under `SetGlobalMaximumNumberOfThreads`, and once the default is
non-zero `GetGlobalDefaultNumberOfThreads()` returns it and leaves the registry unchanged,
whatever the back end would recommend. -/
theorem C27_set_max_keeps_sentinel (ITK_MAX_THREADS n recommended : Nat)
    (g : MultiThreaderBaseGlobals) :
    (g.m_GlobalDefaultNumberOfThreads = 0 →
      (SetGlobalMaximumNumberOfThreads ITK_MAX_THREADS n g).m_GlobalDefaultNumberOfThreads = 0 ∧
      (GetGlobalDefaultNumberOfThreads recommended
        (SetGlobalMaximumNumberOfThreads ITK_MAX_THREADS n g)).1 = recommended ∧
      (GetGlobalDefaultNumberOfThreads recommended
        (SetGlobalMaximumNumberOfThreads ITK_MAX_THREADS n g)).2.m_GlobalDefaultNumberOfThreads =
          recommended) ∧
    (g.m_GlobalDefaultNumberOfThreads ≠ 0 →
      (SetGlobalMaximumNumberOfThreads ITK_MAX_THREADS n g).m_GlobalDefaultNumberOfThreads ≠ 0 ∧
      GetGlobalDefaultNumberOfThreads recommended g = (g.m_GlobalDefaultNumberOfThreads, g)) := by
  constructor
  · intro h0
    have e : (SetGlobalMaximumNumberOfThreads ITK_MAX_THREADS n
        g).m_GlobalDefaultNumberOfThreads = 0 := by
      simp [SetGlobalMaximumNumberOfThreads, h0]
    refine ⟨e, ?_, ?_⟩ <;> simp [GetGlobalDefaultNumberOfThreads, e]
  · intro h0
    constructor
    · simp only [SetGlobalMaximumNumberOfThreads]
      omega
    · simp [GetGlobalDefaultNumberOfThreads, h0]

/-- C27, instance: in the initial registry (default 0), after
`SetGlobalMaximumNumberOfThreads(4)` the default is still 0 and the next
`GetGlobalDefaultNumberOfThreads()` returns the 8 that the back end recommends. -/
theorem C27_set_max_keeps_sentinel_witness :
    (SetGlobalMaximumNumberOfThreads 128 4
      (MultiThreaderBaseGlobals.initial 128 false)).m_GlobalDefaultNumberOfThreads = 0 ∧
    (GetGlobalDefaultNumberOfThreads 8
      (SetGlobalMaximumNumberOfThreads 128 4
        (MultiThreaderBaseGlobals.initial 128 false))).1 = 8 :=
  ⟨((C27_set_max_keeps_sentinel 128 4 8 (MultiThreaderBaseGlobals.initial 128 false)).1 rfl).1,
    ((C27_set_max_keeps_sentinel 128 4 8
      (MultiThreaderBaseGlobals.initial 128 false)).1 rfl).2.1⟩

/-! ## Time stamps -/

theorem modified_apply (w : TimeStampWorld) (i : Nat)
    (h : w.m_GlobalTimeStamp + 1 < SizeValueModulus) :
    (TimeStampOp.apply w (TimeStampOp.modified i)).m_GlobalTimeStamp =
        w.m_GlobalTimeStamp + 1 ∧
      ((TimeStampOp.apply w (TimeStampOp.modified i)).stamps i).m_ModifiedTime =
        w.m_GlobalTimeStamp + 1 ∧
      (TimeStampOp.apply w (TimeStampOp.modified i)).issued =
        w.issued ++ [w.m_GlobalTimeStamp + 1] ∧
      ∀ k, k ≠ i → (TimeStampOp.apply w (TimeStampOp.modified i)).stamps k = w.stamps k := by
  have e : (w.m_GlobalTimeStamp + 1) % SizeValueModulus = w.m_GlobalTimeStamp + 1 :=
    Nat.mod_eq_of_lt h
  refine ⟨?_, ?_, ?_, ?_⟩
  · simp only [TimeStampOp.apply, TimeStamp.Modified]
    exact e
  · simp only [TimeStampOp.apply, TimeStamp.Modified, if_true]
    exact e
  · simp only [TimeStampOp.apply, TimeStamp.Modified]
    rw [e]
  · intro k hk
    simp only [TimeStampOp.apply]
    rw [if_neg hk]

theorem assign_apply (w : TimeStampWorld) (i j : Nat) :
    (TimeStampOp.apply w (TimeStampOp.assign i j)).m_GlobalTimeStamp = w.m_GlobalTimeStamp ∧
      ((TimeStampOp.apply w (TimeStampOp.assign i j)).stamps i).m_ModifiedTime =
        (w.stamps j).m_ModifiedTime ∧
      (TimeStampOp.apply w (TimeStampOp.assign i j)).issued = w.issued ∧
      ∀ k, k ≠ i → (TimeStampOp.apply w (TimeStampOp.assign i j)).stamps k = w.stamps k := by
  refine ⟨rfl, ?_, rfl, ?_⟩
  · simp only [TimeStampOp.apply, TimeStamp.operatorAssign, if_true]
  · intro k hk
    simp only [TimeStampOp.apply]
    rw [if_neg hk]

theorem apply_bounded (w : TimeStampWorld) (op : TimeStampOp)
    (hno : w.m_GlobalTimeStamp + modifiedCalls [op] < SizeValueModulus)
    (hs : ∀ k, (w.stamps k).m_ModifiedTime ≤ w.m_GlobalTimeStamp) :
    ∀ k, ((TimeStampOp.apply w op).stamps k).m_ModifiedTime ≤
      (TimeStampOp.apply w op).m_GlobalTimeStamp := by
  intro k
  cases op with
  | modified i =>
    obtain ⟨a1, a2, -, a4⟩ := modified_apply w i hno
    rw [a1]
    by_cases hk : k = i
    · rw [hk, a2]
    · rw [a4 k hk]
      exact Nat.le_succ_of_le (hs k)
  | assign i j =>
    obtain ⟨a1, a2, -, a4⟩ := assign_apply w i j
    rw [a1]
    by_cases hk : k = i
    · rw [hk, a2]
      exact hs j
    · rw [a4 k hk]
      exact hs k

theorem runTimeStamps_spec : ∀ (ops : List TimeStampOp) (w : TimeStampWorld),
    w.m_GlobalTimeStamp + modifiedCalls ops < SizeValueModulus →
    (runTimeStamps w ops).m_GlobalTimeStamp = w.m_GlobalTimeStamp + modifiedCalls ops ∧
    (runTimeStamps w ops).issued =
      w.issued ++ List.range' (w.m_GlobalTimeStamp + 1) (modifiedCalls ops) ∧
    ((∀ k, (w.stamps k).m_ModifiedTime ≤ w.m_GlobalTimeStamp) →
      ∀ k, ((runTimeStamps w ops).stamps k).m_ModifiedTime ≤
        (runTimeStamps w ops).m_GlobalTimeStamp) := by
  intro ops
  induction ops with
  | nil =>
    intro w _
    simp [runTimeStamps, modifiedCalls]
  | cons op ops ih =>
    intro w hno
    have hrun : runTimeStamps w (op :: ops) = runTimeStamps (TimeStampOp.apply w op) ops := rfl
    rw [hrun]
    cases op with
    | modified i =>
      have hc : modifiedCalls (TimeStampOp.modified i :: ops) = modifiedCalls ops + 1 := rfl
      rw [hc] at hno ⊢
      obtain ⟨a1, -, a3, -⟩ := modified_apply w i (by omega)
      obtain ⟨r1, r2, r3⟩ := ih (TimeStampOp.apply w (TimeStampOp.modified i))
        (by rw [a1]; omega)
      refine ⟨by rw [r1, a1]; omega, ?_, fun hs => r3 (apply_bounded w _ (by
        simp only [modifiedCalls]; omega) hs)⟩
      rw [r2, a3, a1, List.append_assoc]
      rfl
    | assign i j =>
      have hc : modifiedCalls (TimeStampOp.assign i j :: ops) = modifiedCalls ops := rfl
      rw [hc] at hno ⊢
      obtain ⟨a1, -, a3, -⟩ := assign_apply w i j
      obtain ⟨r1, r2, r3⟩ := ih (TimeStampOp.apply w (TimeStampOp.assign i j))
        (by rw [a1]; exact hno)
      refine ⟨by rw [r1, a1], by rw [r2, a3, a1], fun hs => r3 (apply_bounded w _ (by
        simp only [modifiedCalls]; omega) hs)⟩

/-- C25: take any state of the time stamps in which no stamp and no modified time issued
so far exceeds the global counter, and any sequence of `Modified()` calls and assignments
that does not overflow the counter.  The counter ends increased by exactly the number of
`Modified()` calls, the modified times these calls issued are the consecutive values
`counter + 1, counter + 2, ...` in call order (strictly increasing, each greater than
everything issued before), and still no stamp exceeds the counter.  A further `Modified()`
call sets its stamp to the counter plus one, which is strictly greater than every modified
time issued earlier and than every stamp, and increases the counter by exactly one; an
assignment copies the modified time and changes neither the counter nor any other stamp. -/
theorem C25_modified_is_newest (w : TimeStampWorld) (ops : List TimeStampOp)
    (hno : w.m_GlobalTimeStamp + modifiedCalls ops + 1 < SizeValueModulus)
    (hstamps : ∀ k, (w.stamps k).m_ModifiedTime ≤ w.m_GlobalTimeStamp)
    (hissued : ∀ t, t ∈ w.issued → t ≤ w.m_GlobalTimeStamp) :
    (runTimeStamps w ops).m_GlobalTimeStamp = w.m_GlobalTimeStamp + modifiedCalls ops ∧
    (runTimeStamps w ops).issued =
      w.issued ++ List.range' (w.m_GlobalTimeStamp + 1) (modifiedCalls ops) ∧
    List.Pairwise (fun a b => a < b)
      (List.range' (w.m_GlobalTimeStamp + 1) (modifiedCalls ops)) ∧
    (∀ i,
      (TimeStampOp.apply (runTimeStamps w ops) (TimeStampOp.modified i)).m_GlobalTimeStamp =
        (runTimeStamps w ops).m_GlobalTimeStamp + 1 ∧
      ((TimeStampOp.apply (runTimeStamps w ops) (TimeStampOp.modified i)).stamps
        i).m_ModifiedTime = (runTimeStamps w ops).m_GlobalTimeStamp + 1 ∧
      (∀ t, t ∈ (runTimeStamps w ops).issued →
        t < ((TimeStampOp.apply (runTimeStamps w ops) (TimeStampOp.modified i)).stamps
          i).m_ModifiedTime) ∧
      (∀ k, ((runTimeStamps w ops).stamps k).m_ModifiedTime <
        ((TimeStampOp.apply (runTimeStamps w ops) (TimeStampOp.modified i)).stamps
          i).m_ModifiedTime)) ∧
    (∀ i j,
      (TimeStampOp.apply (runTimeStamps w ops) (TimeStampOp.assign i j)).m_GlobalTimeStamp =
        (runTimeStamps w ops).m_GlobalTimeStamp ∧
      ((TimeStampOp.apply (runTimeStamps w ops) (TimeStampOp.assign i j)).stamps
        i).m_ModifiedTime = ((runTimeStamps w ops).stamps j).m_ModifiedTime ∧
      (TimeStampOp.apply (runTimeStamps w ops) (TimeStampOp.assign i j)).issued =
        (runTimeStamps w ops).issued ∧
      ∀ k, k ≠ i → (TimeStampOp.apply (runTimeStamps w ops) (TimeStampOp.assign i j)).stamps k =
        (runTimeStamps w ops).stamps k) := by
  obtain ⟨r1, r2, r3⟩ := runTimeStamps_spec ops w (by omega)
  have hb := r3 hstamps
  refine ⟨r1, r2, List.pairwise_lt_range' _ _ 1 Nat.one_pos, fun i => ?_,
    fun i j => assign_apply _ i j⟩
  obtain ⟨a1, a2, -, -⟩ := modified_apply (runTimeStamps w ops) i (by rw [r1]; omega)
  refine ⟨a1, a2, fun t ht => ?_, fun k => ?_⟩
  · rw [a2, r1]
    rw [r2, List.mem_append] at ht
    rcases ht with h | h
    · have := hissued t h
      omega
    · rw [List.mem_range'_1] at h
      omega
  · rw [a2]
    exact Nat.lt_succ_of_le (hb k)

/-- C25, instance: from a counter of 0 with all stamps at 0, the calls `stamps[0].Modified()`,
`stamps[1] = stamps[0]`, `stamps[2].Modified()` leave the counter at 2 and have issued the
modified times 1 and 2. -/
theorem C25_modified_is_newest_witness :
    (runTimeStamps ⟨0, fun _ => ⟨0⟩, []⟩
      [TimeStampOp.modified 0, TimeStampOp.assign 1 0,
        TimeStampOp.modified 2]).m_GlobalTimeStamp = 2 ∧
    (runTimeStamps ⟨0, fun _ => ⟨0⟩, []⟩
      [TimeStampOp.modified 0, TimeStampOp.assign 1 0, TimeStampOp.modified 2]).issued =
      [1, 2] :=
  ⟨(C25_modified_is_newest ⟨0, fun _ => ⟨0⟩, []⟩
      [TimeStampOp.modified 0, TimeStampOp.assign 1 0, TimeStampOp.modified 2]
      (by decide) (fun _ => Nat.le_refl 0) (fun _ h => by simp at h)).1,
    (C25_modified_is_newest ⟨0, fun _ => ⟨0⟩, []⟩
      [TimeStampOp.modified 0, TimeStampOp.assign 1 0, TimeStampOp.modified 2]
      (by decide) (fun _ => Nat.le_refl 0) (fun _ h => by simp at h)).2.1⟩

/-! ## The code's boundaries within `1 / workerCount` of the exact ones -/

theorem boundary_close (F n c w : Nat) (hsize : (F + n) * c ≤ 2 ^ 51) (hc : 1 ≤ c)
    (hc2 : c ≤ 2 ^ 53) (hw : w ≤ c) :
    (F : ℚ) + (n : ℚ) * w / c - 1 / c < boundary F n c w ∧
      boundary F n c w < (F : ℚ) + (n : ℚ) * w / c + 1 / c := by
  have hcq : (0 : ℚ) < c := by
    have : 0 < c := hc
    exact_mod_cast this
  have hFn : F + n ≤ 2 ^ 51 := le_trans (Nat.le_mul_of_pos_right _ hc) hsize
  have hwq : (w : ℚ) ≤ c := by exact_mod_cast hw
  have hw0 : (0 : ℚ) ≤ w := Nat.cast_nonneg w
  have hn0 : (0 : ℚ) ≤ n := Nat.cast_nonneg n
  have hF0 : (0 : ℚ) ≤ F := Nat.cast_nonneg F
  have hinv : (0 : ℚ) < 1 / c := one_div_pos.mpr hcq
  have hV : ((F : ℚ) + n) / 2 ^ 51 ≤ 1 / c := by
    rw [div_le_div_iff₀ (by norm_num) hcq]
    have : ((F + n) * c : ℚ) ≤ 2 ^ 51 := by exact_mod_cast hsize
    linarith
  unfold boundary
  rw [fl_double_nat F (by omega), fl_double_nat n (by omega), fl_double_nat c hc2,
    fl_double_nat w (by omega)]
  set x : ℚ := (n : ℚ) / c with hx
  have hx0 : 0 ≤ x := div_nonneg hn0 hcq.le
  set q : ℚ := (n : ℚ) * w / c with hq
  have hqx : q = x * w := by rw [hq, hx]; ring
  have hq0 : 0 ≤ q := by rw [hqx]; exact mul_nonneg hx0 hw0
  have hqn : q ≤ n := by
    rw [hq, div_le_iff₀ hcq]
    exact mul_le_mul_of_nonneg_left hwq hn0
  obtain ⟨a1, a2⟩ := fl_double_bounds x hx0
  set fr : ℚ := fl doublePrec x with hfr
  have hfr0 : 0 ≤ fr := fl_nonneg _ _
  have y0 : 0 ≤ fr * w := mul_nonneg hfr0 hw0
  have y1 : q - q / 2 ^ 53 ≤ fr * w := by
    have := mul_le_mul_of_nonneg_right a1 hw0
    have e : (x - x / 2 ^ 53) * (w : ℚ) = q - q / 2 ^ 53 := by rw [hqx]; ring
    linarith
  have y2 : fr * w ≤ q + q / 2 ^ 53 := by
    have := mul_le_mul_of_nonneg_right a2 hw0
    have e : (x + x / 2 ^ 53) * (w : ℚ) = q + q / 2 ^ 53 := by rw [hqx]; ring
    linarith
  obtain ⟨b1, b2⟩ := fl_double_bounds (fr * w) y0
  set p : ℚ := fl doublePrec (fr * w) with hp
  have hp0 : 0 ≤ p := fl_nonneg _ _
  obtain ⟨c1, c2⟩ := fl_double_bounds ((F : ℚ) + p) (add_nonneg hF0 hp0)
  constructor
  · linarith
  · linarith

/-- The floor of a value within `1 / c` of `F + a / c`. -/
theorem floor_close (s : ℚ) (hs : 0 ≤ s) (F a c : Nat) (hc : 0 < c)
    (h1 : (F : ℚ) + (a : ℚ) / c - 1 / c < s) (h2 : s < (F : ℚ) + (a : ℚ) / c + 1 / c) :
    ⌊s⌋₊ ≤ F + a / c ∧ F + a / c ≤ ⌊s⌋₊ + 1 ∧ (a % c ≠ 0 → ⌊s⌋₊ = F + a / c) := by
  have hcq : (0 : ℚ) < c := by exact_mod_cast hc
  have hdm : c * (a / c) + a % c = a := Nat.div_add_mod a c
  have hml : a % c < c := Nat.mod_lt a hc
  have hdmq : (c : ℚ) * ((a / c : Nat) : ℚ) + ((a % c : Nat) : ℚ) = (a : ℚ) := by
    exact_mod_cast hdm
  have hfrac : (a : ℚ) / c = ((a / c : Nat) : ℚ) + ((a % c : Nat) : ℚ) / c := by
    rw [← hdmq]
    field_simp
    ring
  have hr0 : (0 : ℚ) ≤ ((a % c : Nat) : ℚ) / c := div_nonneg (Nat.cast_nonneg _) hcq.le
  have hr1 : ((a % c : Nat) : ℚ) / c + 1 / c ≤ 1 := by
    rw [← add_div, div_le_one hcq]
    have : a % c + 1 ≤ c := hml
    exact_mod_cast this
  have g1 : (⌊s⌋₊ : ℚ) ≤ s := Nat.floor_le hs
  have g2 : s < (⌊s⌋₊ : ℚ) + 1 := Nat.lt_floor_add_one s
  have hinv : (1 : ℚ) / c ≤ 1 := by
    rw [div_le_one hcq]
    have : 1 ≤ c := hc
    exact_mod_cast this
  have up : ⌊s⌋₊ ≤ F + a / c := by
    have : (⌊s⌋₊ : ℚ) < ((F + a / c + 1 : Nat) : ℚ) := by
      push_cast
      linarith
    have : ⌊s⌋₊ < F + a / c + 1 := by exact_mod_cast this
    omega
  refine ⟨up, ?_, ?_⟩
  · have : ((F + a / c : Nat) : ℚ) < ((⌊s⌋₊ + 2 : Nat) : ℚ) := by
      push_cast
      linarith
    have : F + a / c < ⌊s⌋₊ + 2 := by exact_mod_cast this
    omega
  · intro hne
    have hge : (1 : ℚ) / c ≤ ((a % c : Nat) : ℚ) / c := by
      rw [div_le_div_iff₀ hcq hcq]
      have : 1 ≤ a % c := Nat.one_le_iff_ne_zero.mpr hne
      have : (1 : ℚ) ≤ ((a % c : Nat) : ℚ) := by exact_mod_cast this
      nlinarith
    have : ((F + a / c : Nat) : ℚ) < ((⌊s⌋₊ + 1 : Nat) : ℚ) := by
      push_cast
      linarith
    have : F + a / c < ⌊s⌋₊ + 1 := by exact_mod_cast this
    omega

/-- Consecutive exact boundaries `F + a / c` and `F + (a + n) / c` and values that equal
them or, at multiples of `c` only, are one below: the difference of the two values is
`n / c` or `n / c + 1`. -/
theorem balanced_step (F n c a D D' : Nat) (hc : 0 < c) (hr : n % c ≠ 0)
    (h1 : D ≤ F + a / c) (h2 : F + a / c ≤ D + 1) (h3 : a % c ≠ 0 → D = F + a / c)
    (h1' : D' ≤ F + (a + n) / c) (h2' : F + (a + n) / c ≤ D' + 1)
    (h3' : (a + n) % c ≠ 0 → D' = F + (a + n) / c) :
    D' = D + n / c ∨ D' = D + n / c + 1 := by
  have hra : a % c < c := Nat.mod_lt a hc
  have hrn : n % c < c := Nat.mod_lt n hc
  have hdiv : (a + n) / c = a / c + n / c + if c ≤ a % c + n % c then 1 else 0 :=
    Nat.add_div hc
  have hmod : (a + n) % c = (a % c + n % c) % c := Nat.add_mod a n c
  by_cases hlt : c ≤ a % c + n % c
  · rw [if_pos hlt] at hdiv
    by_cases heq : a % c + n % c = c
    · have ha : a % c ≠ 0 := by omega
      have := h3 ha
      omega
    · have hm : (a + n) % c ≠ 0 := by
        rw [hmod]
        have e : (a % c + n % c) % c = a % c + n % c - c := by
          rw [Nat.mod_eq_sub_mod hlt]
          exact Nat.mod_eq_of_lt (by omega)
        rw [e]
        omega
      have ha : a % c ≠ 0 := by omega
      have := h3 ha
      have := h3' hm
      omega
  · rw [if_neg hlt] at hdiv
    have hm : (a + n) % c ≠ 0 := by
      rw [hmod, Nat.mod_eq_of_lt (by omega)]
      omega
    have := h3' hm
    omega

theorem ceil_div_bounds (n c : Nat) (hc : 0 < c) :
    n / c ≤ (n + c - 1) / c ∧ (n + c - 1) / c ≤ n / c + 1 ∧
      (n % c ≠ 0 → (n + c - 1) / c = n / c + 1) := by
  have hdm : c * (n / c) + n % c = n := Nat.div_add_mod n c
  have hml : n % c < c := Nat.mod_lt n hc
  refine ⟨Nat.div_le_div_right (by omega), ?_, ?_⟩
  · have h : (n + c - 1) / c ≤ (n + c) / c := Nat.div_le_div_right (by omega)
    rwa [Nat.add_div_right n hc] at h
  · intro hne
    have e1 : (n / c + 1) * c = c * (n / c) + c := by ring
    have e2 : Nat.succ (n / c + 1) * c = c * (n / c) + c + c := by
      rw [Nat.succ_mul, e1]
    exact Nat.div_eq_of_lt_le (by rw [e1]; omega) (by rw [e2]; omega)

/-- The floor of the code's boundary for worker `w`, against the exact boundary. -/
theorem floor_boundary_close (F n c w : Nat) (hsize : (F + n) * c ≤ 2 ^ 51) (hc : 1 ≤ c)
    (hc2 : c ≤ 2 ^ 53) (hw : w ≤ c) :
    ⌊boundary F n c w⌋₊ ≤ F + n * w / c ∧ F + n * w / c ≤ ⌊boundary F n c w⌋₊ + 1 ∧
      (n * w % c ≠ 0 → ⌊boundary F n c w⌋₊ = F + n * w / c) := by
  obtain ⟨h1, h2⟩ := boundary_close F n c w hsize hc hc2 hw
  have e : (n : ℚ) * w / c = ((n * w : Nat) : ℚ) / c := by push_cast; ring
  rw [e] at h1 h2
  exact floor_close _ (fl_nonneg _ _) F (n * w) c hc h1 h2

theorem subRange_length (F L c w : Nat) (hFL : F < L) (hsize : L * c ≤ 2 ^ 51)
    (hc : 1 ≤ c) (hty : c < ThreadIdModulus) (hw : w < c) :
    (ParallelizeArrayHelper.subRange F L w c).1 ≤ (ParallelizeArrayHelper.subRange F L w c).2 ∧
    ((ParallelizeArrayHelper.subRange F L w c).2 - (ParallelizeArrayHelper.subRange F L w c).1 =
        (L - F) / c ∨
      (ParallelizeArrayHelper.subRange F L w c).2 -
          (ParallelizeArrayHelper.subRange F L w c).1 = (L - F + c - 1) / c) := by
  have h32 := two_pow_32_le
  have hL51 : L ≤ 2 ^ 51 := le_trans (Nat.le_mul_of_pos_right _ hc) hsize
  have hL : L ≤ 2 ^ 53 := by omega
  have hFn : F + (L - F) = L := by omega
  have hsz : (F + (L - F)) * c ≤ 2 ^ 51 := by rw [hFn]; exact hsize
  rw [subRange_fst_eq F L c w (by omega) hL hc hty hw,
    subRange_snd_eq F L c w (by omega) hL hc hty hw]
  generalize hn : L - F = n at hFn hsz ⊢
  by_cases hr : n % c = 0
  · -- the worker count divides the range: every boundary is exact
    obtain ⟨k, hk⟩ : c ∣ n := Nat.dvd_of_mod_eq_zero hr
    have hq : n / c = k := by
      rw [hk]
      exact Nat.mul_div_cancel_left k hc
    rw [hq]
    have hb : ∀ t, t ≤ c → ⌊boundary F n c t⌋₊ = F + k * t := by
      intro t ht
      rw [boundary_exact F n c t k (by omega) hc (by omega) ht hk]
      exact Nat.floor_natCast _
    rw [hb w (by omega)]
    have hstep : k * (w + 1) = k * w + k := Nat.mul_succ _ _
    split_ifs with h
    · have e : c * k = k * w + k := by
        rw [Nat.mul_comm, ← h]
        exact hstep
      rw [e] at hk
      exact ⟨by omega, Or.inl (by omega)⟩
    · rw [hb (w + 1) (by omega), hstep]
      exact ⟨by omega, Or.inl (by omega)⟩
  · obtain ⟨a1, a2, a3⟩ := floor_boundary_close F n c w hsz hc (by omega) (by omega)
    have hceil := (ceil_div_bounds n c hc).2.2 hr
    have hstep : n * (w + 1) = n * w + n := Nat.mul_succ _ _
    have key : ∀ D', D' ≤ F + (n * w + n) / c → F + (n * w + n) / c ≤ D' + 1 →
        ((n * w + n) % c ≠ 0 → D' = F + (n * w + n) / c) →
        ⌊boundary F n c w⌋₊ ≤ D' ∧
          (D' - ⌊boundary F n c w⌋₊ = n / c ∨ D' - ⌊boundary F n c w⌋₊ = (n + c - 1) / c) := by
      intro D' b1 b2 b3
      have h := balanced_step F n c (n * w) _ D' hc hr a1 a2 a3 b1 b2 b3
      rw [hceil]
      generalize n / c = q at h ⊢
      generalize ⌊boundary F n c w⌋₊ = D at h ⊢
      omega
    split_ifs with h
    · have e : (n * w + n) / c = n := by
        rw [← hstep, h]
        exact Nat.mul_div_cancel n hc
      exact key L (by rw [e]; omega) (by rw [e]; omega) (fun _ => by rw [e]; omega)
    · obtain ⟨b1, b2, b3⟩ := floor_boundary_close F n c (w + 1) hsz hc (by omega) (by omega)
      rw [hstep] at b1 b2 b3
      exact key _ b1 b2 b3

theorem chain_grows (B : Nat → Nat) (c : Nat) (h : ∀ w, w < c → B w + 1 ≤ B (w + 1)) :
    ∀ v, v ≤ c → B 0 + v ≤ B v := by
  intro v
  induction v with
  | zero => intro _; exact le_refl _
  | succ v ih =>
    intro hv
    have := ih (by omega)
    have := h v (by omega)
    omega

/-! ## Claim on the balance of the partition -/

set_option maxRecDepth 100000 in
/-- C26 (as stated, refuted): over `[0, 63378248829335)` (below `2^46`) with 434 workers,
`floor(n / c) = 146032831403` and `ceil(n / c) = 146032831404`, but worker 433 gets
`[63232215997930, 63378248829335)`, of length `146032831405`, while worker 432 gets a
sub-range of length `146032831403`: the start of worker 433 is computed in `double`
arithmetic and comes out one below the exact boundary. -/
theorem C26_counterexample :
    ParallelizeArrayHelper.subRange 0 63378248829335 433 434 =
      (63232215997930, 63378248829335) ∧
    ParallelizeArrayHelper.subRange 0 63378248829335 432 434 =
      (63086183166527, 63232215997930) ∧
    63378248829335 - 63232215997930 = 146032831405 ∧
    63232215997930 - 63086183166527 = 146032831403 ∧
    (63378248829335 - 0) / 434 = 146032831403 ∧
    (63378248829335 - 0 + 434 - 1) / 434 = 146032831404 := by
  decide

/-- C26 (amended): for every `first < lastExclusive` and `workerCount ≥ 1` (a `ThreadIdType`
value) with `lastExclusive * workerCount ≤ 2^51`, and every `workerId < workerCount`, the
length of the worker's sub-range is `floor(n / workerCount)` or `ceil(n / workerCount)`
for `n = lastExclusive - first`; so the lengths of any two workers differ by at most one,
and when `workerCount` exceeds `n` each worker gets at most one element and some worker
gets none. -/
theorem C26_partition_balanced (first lastExclusive workerId workerId' workerCount : Nat)
    (hlt : first < lastExclusive) (hsize : lastExclusive * workerCount ≤ 2 ^ 51)
    (hc : 1 ≤ workerCount) (hty : workerCount < ThreadIdModulus)
    (hw : workerId < workerCount) (hw' : workerId' < workerCount) :
    ((ParallelizeArrayHelper.subRange first lastExclusive workerId workerCount).2 -
        (ParallelizeArrayHelper.subRange first lastExclusive workerId workerCount).1 =
          (lastExclusive - first) / workerCount ∨
      (ParallelizeArrayHelper.subRange first lastExclusive workerId workerCount).2 -
        (ParallelizeArrayHelper.subRange first lastExclusive workerId workerCount).1 =
          (lastExclusive - first + workerCount - 1) / workerCount) ∧
    ((ParallelizeArrayHelper.subRange first lastExclusive workerId workerCount).2 -
        (ParallelizeArrayHelper.subRange first lastExclusive workerId workerCount).1 ≤
      (ParallelizeArrayHelper.subRange first lastExclusive workerId' workerCount).2 -
        (ParallelizeArrayHelper.subRange first lastExclusive workerId' workerCount).1 + 1) ∧
    (lastExclusive - first < workerCount →
      (ParallelizeArrayHelper.subRange first lastExclusive workerId workerCount).2 -
        (ParallelizeArrayHelper.subRange first lastExclusive workerId workerCount).1 ≤ 1 ∧
      ∃ v, v < workerCount ∧
        (ParallelizeArrayHelper.subRange first lastExclusive v workerCount).2 -
          (ParallelizeArrayHelper.subRange first lastExclusive v workerCount).1 = 0) := by
  obtain ⟨-, l1⟩ := subRange_length first lastExclusive workerCount workerId hlt hsize hc hty hw
  obtain ⟨-, l2⟩ := subRange_length first lastExclusive workerCount workerId' hlt hsize hc hty
    hw'
  obtain ⟨c1, c2, -⟩ := ceil_div_bounds (lastExclusive - first) workerCount hc
  refine ⟨l1, ?_, fun hfew => ⟨?_, ?_⟩⟩
  · generalize (ParallelizeArrayHelper.subRange first lastExclusive workerId workerCount).2 -
      (ParallelizeArrayHelper.subRange first lastExclusive workerId workerCount).1 = a at l1 ⊢
    generalize (ParallelizeArrayHelper.subRange first lastExclusive workerId' workerCount).2 -
      (ParallelizeArrayHelper.subRange first lastExclusive workerId' workerCount).1 = b at l2 ⊢
    generalize (lastExclusive - first + workerCount - 1) / workerCount = q' at l1 l2 c1 c2
    generalize (lastExclusive - first) / workerCount = q at l1 l2 c1 c2
    omega
  · have hq : (lastExclusive - first) / workerCount = 0 := Nat.div_eq_of_lt hfew
    rw [hq] at l1 c2
    generalize (ParallelizeArrayHelper.subRange first lastExclusive workerId workerCount).2 -
      (ParallelizeArrayHelper.subRange first lastExclusive workerId workerCount).1 = a at l1 ⊢
    generalize (lastExclusive - first + workerCount - 1) / workerCount = q' at l1 c2
    omega
  · have hL : lastExclusive ≤ 2 ^ 53 := by
      have : lastExclusive ≤ 2 ^ 51 := le_trans (Nat.le_mul_of_pos_right _ hc) hsize
      omega
    obtain ⟨B, hB0, hBc, -, hsub⟩ :=
      subRange_chain first lastExclusive workerCount (Nat.le_of_lt hlt) hL hc hty
    by_contra hcon
    push_neg at hcon
    have hgrow : ∀ v, v < workerCount → B v + 1 ≤ B (v + 1) := by
      intro v hv
      have h := hcon v hv
      rw [hsub v hv] at h
      simp only [] at h
      omega
    have := chain_grows B workerCount hgrow workerCount (le_refl _)
    omega

set_option maxRecDepth 100000 in
/-- C26 (amended), instance: over `[0, 30)` with 22 workers, worker 11 (whose start the
`double` arithmetic puts at 14 instead of 15) gets a sub-range of length
`floor(30 / 22) = 1` or `ceil(30 / 22) = 2`. -/
theorem C26_partition_balanced_witness :
    (ParallelizeArrayHelper.subRange 0 30 11 22).2 -
        (ParallelizeArrayHelper.subRange 0 30 11 22).1 = (30 - 0) / 22 ∨
      (ParallelizeArrayHelper.subRange 0 30 11 22).2 -
        (ParallelizeArrayHelper.subRange 0 30 11 22).1 = (30 - 0 + 22 - 1) / 22 :=
  (C26_partition_balanced 0 30 11 10 22 (by decide) (by decide) (by decide) (by decide)
    (by decide) (by decide)).1

/-! ## Dispatch with the observers of the filter -/

end itk
